import Mathlib

/-!
# taskdemo: block synchroniser

A shallow embedding of the Go sources under `sync/` and the properties of the
specification settled against it.

Conventions of the embedding

* A Go function that mutates its receiver or arguments returns the new values.
* `Run` is the outcome of running a Go function: it returns (`done`), stops
  with a run-time panic (`panic`), or exceeds the step budget of a loop
  (`outOfFuel`).
* A Go `error` result is an `Option GoError`; `none` is `nil`.
* A pointer that may be `nil` is an `Option`.
* Libraries outside the repository (`encoding/json`, `net/http`) are fields of
  an environment record, so every statement holds for every behaviour of them.
* Result slots of different batch elements are different objects, as they are
  at every call site of the repository.
-/

namespace Sync

/-! ## Go errors and outcomes -/

/-- Error values built by the sources: `errors.New`, `errors.Errorf`,
`errors.Wrapf`, `errors.WithStack`, the JSON-RPC error object of `msg.go`, and
errors produced by a library outside the repository. -/
inductive GoError where
  | new (msg : String)
  | errorf (format : String) (args : List String)
  | wrapf (cause : GoError) (format : String) (args : List String)
  | withStack (cause : GoError)
  | jsonError (code : Int) (message : String)
  | lib (pkg : String) (msg : String)
deriving DecidableEq, Repr

/-- Outcome of running a Go function. -/
inductive Run (α : Type) where
  | done (a : α)
  | panic (reason : String)
  | outOfFuel
deriving DecidableEq, Repr

/-- The wrapper `errors.WithStack`: `nil` stays `nil`. -/
def WithStack : Option GoError → Option GoError
  | none => none
  | some e => some (GoError.withStack e)

/-- Slice expression `l[i:j]` of Go: panics unless `i ≤ j ≤ len l`. -/
def goSlice {α : Type} (l : List α) (i j : Nat) : Run (List α) :=
  if i ≤ j ∧ j ≤ l.length then Run.done ((l.drop i).take (j - i))
  else Run.panic "slice bounds out of range"

/-- Decimal digits of `strconv.ParseUint(s, 10, 64)`, most significant first. -/
def parseDigits : List Char → Nat → Option Nat
  | [], acc => some acc
  | c :: cs, acc =>
    if c.isDigit then parseDigits cs (acc * 10 + (c.toNat - 48)) else none

/-- The call `strconv.ParseUint(s, 10, 64)`: a non-empty string of decimal
digits whose value fits 64 bits; `none` stands for its syntax and range
errors. -/
def ParseUint (s : String) : Option Nat :=
  match s.toList with
  | [] => none
  | cs =>
    match parseDigits cs 0 with
    | some n => if n < 2 ^ 64 then some n else none
    | none => none

namespace rpc

/-! ## `common/net/rpc/msg.go` -/

/-- Request envelope. `Params` is the marshalled `json.RawMessage`. -/
structure jsonRPCSendMessage where
  Version : String
  ID : Nat
  Method : String
  Params : String
deriving DecidableEq, Repr

/-- Error object of a response (`Data` is never read by the sources). -/
structure jsonError where
  Code : Int
  Message : String
deriving DecidableEq, Repr

/-- Response envelope. `ID` is the `json.Number` text, `Result` the raw
`result` field, `id` the parsed number filled by `getResponseMap`. -/
structure jsonRPCReceiveMessage where
  Version : String
  ID : String
  Result : String
  Error : Option jsonError
  id : Nat
deriving DecidableEq, Repr

/-- One element of a batch: `Args` of type `α`, result slot of type `σ`. -/
structure BatchElem (α σ : Type) where
  Method : String
  Args : α
  Result : σ
  Error : Option GoError

/-- What is posted in one HTTP request: one envelope or an array of them. -/
inductive Body where
  | single (msg : jsonRPCSendMessage)
  | batch (msgs : List jsonRPCSendMessage)
deriving DecidableEq, Repr

/-- The libraries and the remote node a client talks to.
`marshal` is `json.Marshal` on arguments, `unmarshal` is `json.Unmarshal` of a
raw result into a slot (it returns the slot as it leaves it, also on failure),
`decode` is `json.Unmarshal` of a response body into
`[]*jsonRPCReceiveMessage`, and `server` answers a posted body given the
bodies posted before it (`Client.Do` and reading the body, with the status
check of `batchSyncRequest`). -/
structure Env (α σ : Type) where
  marshal : α → Except GoError String
  unmarshal : String → σ → σ × Option GoError
  decode : String → Option (List (Option jsonRPCReceiveMessage))
  server : List Body → Body → Except GoError String

/-! ## `common/net/rpc/rpc.go` -/

/-- The fields of `Client` the calls read or write. -/
structure Client where
  version : String
  idCounter : Nat
  enableMaxBatch : Bool
  maxBatchNum : Int
deriving DecidableEq, Repr

/-- Method `SetMaxBatchNum`. -/
def Client.SetMaxBatchNum (c : Client) (maxBatchNum : Int) : Client :=
  if maxBatchNum > 0 then { c with enableMaxBatch := true, maxBatchNum := maxBatchNum }
  else c

/-- Method `nextID`: `atomic.AddUint64(&c.idCounter, 1)` on a `uint64`. -/
def Client.nextID (c : Client) : Nat × Client :=
  let n := (c.idCounter + 1) % 2 ^ 64
  (n, { c with idCounter := n })

/-- Method `newMessage`: marshal the parameter, then take the next id. -/
def Client.newMessage {α σ : Type} (env : Env α σ) (c : Client) (method : String) (param : α) :
    Except GoError jsonRPCSendMessage × Client :=
  match env.marshal param with
  | Except.error e => (Except.error (GoError.withStack e), c)
  | Except.ok params =>
    let (n, c1) := c.nextID
    (Except.ok { Version := c.version, ID := n, Method := method, Params := params }, c1)

/-- A Go map from `uint64` to `*jsonRPCReceiveMessage`: `none` is an absent
key, `some none` a key bound to the `nil` pointer. -/
abbrev ResponseMap := Nat → Option (Option jsonRPCReceiveMessage)

/-- Assignment `m[k] = v`. -/
def ResponseMap.set (m : ResponseMap) (k : Nat) (v : Option jsonRPCReceiveMessage) :
    ResponseMap :=
  fun x => if x = k then some v else m x

/-- Loop of `getResponseMap` over the remaining responses. -/
def getResponseMapLoop :
    List (Option jsonRPCReceiveMessage) → ResponseMap → Run (Except GoError ResponseMap)
  | [], result => Run.done (Except.ok result)
  | none :: _, _ => Run.panic "nil pointer dereference"
  | some r :: rest, result =>
    match ParseUint r.ID with
    | none =>
      Run.done (Except.error
        (GoError.wrapf (GoError.lib "strconv" r.ID) "can not parse %s as uint64" [r.ID]))
    | some n => getResponseMapLoop rest (result.set n (some { r with id := n }))

/-- Numeric id of an entry of a decoded response list, when the entry is not
`nil` and its `ID` parses. -/
def idOf : Option jsonRPCReceiveMessage → Option Nat
  | none => none
  | some r => ParseUint r.ID

/-- Function `getResponseMap`. -/
def getResponseMap (responseList : List (Option jsonRPCReceiveMessage)) :
    Run (Except GoError ResponseMap) :=
  getResponseMapLoop responseList (fun _ => none)

/-- Body of the loop `for i := range batch` of `handleBatchResult` for one
element and its request: the element as the body leaves it, and the error with
which the function returns from inside the body (`none`: the loop goes on). -/
def handleElem {α σ : Type} (env : Env α σ) (responseMap : ResponseMap)
    (elem : BatchElem α σ) (req : jsonRPCSendMessage) : BatchElem α σ × Option GoError :=
  match responseMap req.ID with
  | none =>
    (elem, some (GoError.errorf "can not found result, resuest id %d, method %s, params %v"
      [toString req.ID, req.Method, req.Params]))
  | some none =>
    ({ elem with Error := some (GoError.new "not found response") },
      some (GoError.new "not found response"))
  | some (some res) =>
    match res.Error with
    | some je =>
      ({ elem with Error := some (GoError.withStack (GoError.jsonError je.Code je.Message)) },
        some (GoError.withStack (GoError.jsonError je.Code je.Message)))
    | none =>
      if res.Result.length = 0 then
        ({ elem with Error := some (GoError.new "not found") }, some (GoError.new "not found"))
      else
        ({ elem with Result := (env.unmarshal res.Result elem.Result).1,
                     Error := WithStack (env.unmarshal res.Result elem.Result).2 },
          WithStack (env.unmarshal res.Result elem.Result).2)

/-- Loop `for i := range batch` of `handleBatchResult` from some index on: the
remaining elements and the remaining requests (`requestList[i]` panics when
the request list is shorter than the batch). The result is the remaining
elements as the loop leaves them and the returned error. -/
def handleBatchLoop {α σ : Type} (env : Env α σ) (responseMap : ResponseMap) :
    List (BatchElem α σ) → List jsonRPCSendMessage →
      Run (List (BatchElem α σ) × Option GoError)
  | [], _ => Run.done ([], none)
  | _ :: _, [] => Run.panic "index out of range"
  | elem :: batch, req :: requestList =>
    match handleElem env responseMap elem req with
    | (elem1, some e) => Run.done (elem1 :: batch, some e)
    | (elem1, none) =>
      match handleBatchLoop env responseMap batch requestList with
      | Run.done (batch1, err) => Run.done (elem1 :: batch1, err)
      | Run.panic p => Run.panic p
      | Run.outOfFuel => Run.outOfFuel

/-- Function `handleBatchResult`. -/
def handleBatchResult {α σ : Type} (env : Env α σ) (batch : List (BatchElem α σ))
    (requestList : List jsonRPCSendMessage)
    (responseList : List (Option jsonRPCReceiveMessage)) :
    Run (List (BatchElem α σ) × Option GoError) :=
  match getResponseMap responseList with
  | Run.done (Except.error e) => Run.done (batch, some e)
  | Run.done (Except.ok responseMap) => handleBatchLoop env responseMap batch requestList
  | Run.panic p => Run.panic p
  | Run.outOfFuel => Run.outOfFuel

/-- Loop of `BatchSyncCall` that builds `requestList`: one `newMessage` per
element, stopping at the first failure. -/
def buildRequests {α σ : Type} (env : Env α σ) (c : Client) :
    List (BatchElem α σ) → Except GoError (List jsonRPCSendMessage) × Client
  | [] => (Except.ok [], c)
  | elem :: rest =>
    match c.newMessage env elem.Method elem.Args with
    | (Except.error e, c1) => (Except.error e, c1)
    | (Except.ok msg, c1) =>
      match buildRequests env c1 rest with
      | (Except.error e, c2) => (Except.error e, c2)
      | (Except.ok msgs, c2) => (Except.ok (msg :: msgs), c2)

/-- Method `batchSyncRequest`: post the array and read the answer. The second
component is the list of posted bodies after the call. -/
def batchSyncRequest {α σ : Type} (env : Env α σ) (net : List Body)
    (msg : List jsonRPCSendMessage) : Except GoError String × List Body :=
  (env.server net (Body.batch msg), net ++ [Body.batch msg])

/-- The error of `BatchSyncCall` for a body that is not a response array. -/
def pasteError (buf : String) : GoError :=
  GoError.errorf "can not paste the content into []*jsonRPCReceiveMessage: %s" [buf]

/-- The splitting loop `for i, j := 0, c.maxBatchNum; true; ...` of
`BatchSyncCall`, one round per unit of fuel. The result is the posted bodies
and either the error the call returns or the concatenated responses. -/
def splitLoop {α σ : Type} (env : Env α σ) (requestList : List jsonRPCSendMessage)
    (maxBatchNum batchNum : Nat) :
    Nat → Nat → Nat → List Body → List (Option jsonRPCReceiveMessage) →
      Run (List Body × Except GoError (List (Option jsonRPCReceiveMessage)))
  | 0, _, _, _, _ => Run.outOfFuel
  | fuel + 1, i, j, net, responseList =>
    let j1 := if batchNum < j then batchNum else j
    match goSlice requestList i j1 with
    | Run.done msgs =>
      match batchSyncRequest env net msgs with
      | (Except.error e, net1) => Run.done (net1, Except.error e)
      | (Except.ok buf, net1) =>
        match env.decode buf with
        | none => Run.done (net1, Except.error (pasteError buf))
        | some tempResMsgs =>
          if i + maxBatchNum ≥ batchNum then
            Run.done (net1, Except.ok (responseList ++ tempResMsgs))
          else
            splitLoop env requestList maxBatchNum batchNum fuel
              (i + maxBatchNum) (j1 + maxBatchNum) net1 (responseList ++ tempResMsgs)
    | Run.panic p => Run.panic p
    | Run.outOfFuel => Run.outOfFuel

/-- What a call of `BatchSyncCall` leaves behind: the client (its id counter),
the bodies posted so far, the batch, and the returned error. -/
structure BatchOutcome (α σ : Type) where
  client : Client
  net : List Body
  batch : List (BatchElem α σ)
  err : Option GoError

/-- The `if`/`else` of `BatchSyncCall` that fills `responseList`: one post when
batching is not capped or the batch fits the cap, the splitting loop
otherwise. The loop gets one unit of fuel per request, which it never
exhausts. The result is the posted bodies and either the error with which
`BatchSyncCall` returns or the response list. -/
def Client.fetchResponses {α σ : Type} (env : Env α σ) (c : Client) (net : List Body)
    (requestList : List jsonRPCSendMessage) :
    Run (List Body × Except GoError (List (Option jsonRPCReceiveMessage))) :=
  let batchNum := requestList.length
  if !c.enableMaxBatch || c.maxBatchNum ≤ 0 || (batchNum : Int) ≤ c.maxBatchNum then
    match batchSyncRequest env net requestList with
    | (Except.error e, net1) => Run.done (net1, Except.error e)
    | (Except.ok buf, net1) =>
      match env.decode buf with
      | none => Run.done (net1, Except.error (pasteError buf))
      | some responseList => Run.done (net1, Except.ok responseList)
  else
    splitLoop env requestList c.maxBatchNum.toNat batchNum batchNum 0 c.maxBatchNum.toNat net []

/-- The last statement of `BatchSyncCall`, `return handleBatchResult(...)`:
the outcome of the call from the outcome of `handleBatchResult`. -/
def returnBatchResult {α σ : Type} (c1 : Client) (net1 : List Body) :
    Run (List (BatchElem α σ) × Option GoError) → Run (BatchOutcome α σ)
  | Run.done (batch1, err) => Run.done ⟨c1, net1, batch1, err⟩
  | Run.panic p => Run.panic p
  | Run.outOfFuel => Run.outOfFuel

/-- Method `BatchSyncCall`. -/
def Client.BatchSyncCall {α σ : Type} (env : Env α σ) (c : Client) (net : List Body)
    (batch : List (BatchElem α σ)) : Run (BatchOutcome α σ) :=
  if batch.length = 0 then Run.done ⟨c, net, batch, none⟩
  else
    match buildRequests env c batch with
    | (Except.error e, c1) => Run.done ⟨c1, net, batch, some e⟩
    | (Except.ok requestList, c1) =>
      match c.fetchResponses env net requestList with
      | Run.done (net1, Except.error e) => Run.done ⟨c1, net1, batch, some e⟩
      | Run.done (net1, Except.ok responseList) =>
        returnBatchResult c1 net1 (handleBatchResult env batch requestList responseList)
      | Run.panic p => Run.panic p
      | Run.outOfFuel => Run.outOfFuel

/-- The slice `requestList[k*C : min((k+1)*C, N)]`, the `k`-th sub-request of a
batch of `N` requests under the cap `C`. -/
def subRequest (requestList : List jsonRPCSendMessage) (C k : Nat) :
    List jsonRPCSendMessage :=
  (requestList.drop (k * C)).take (min ((k + 1) * C) requestList.length - k * C)

/-! ### Example inputs -/

/-- An environment for examples: arguments are JSON text already, a result
slot holds the raw result last unmarshalled into it, the raw result `bad`
does not unmarshal, and the node answers every body with an empty array. -/
def sampleEnv : Env String (Option String) where
  marshal := fun a => Except.ok a
  unmarshal := fun raw slot =>
    if raw = "bad" then (slot, some (GoError.lib "encoding/json" "cannot unmarshal"))
    else (some raw, none)
  decode := fun _ => some []
  server := fun _ _ => Except.ok "[]"

/-- A fresh batch element: empty slot, no error. -/
def sampleElem (method args : String) : BatchElem String (Option String) :=
  ⟨method, args, none, none⟩

/-- The request envelope with the given id. -/
def sampleRequest (n : Nat) (method params : String) : jsonRPCSendMessage :=
  ⟨"2.0", n, method, params⟩

/-- A decoded response carrying a result. -/
def sampleResult (n result : String) : Option jsonRPCReceiveMessage :=
  some ⟨"2.0", n, result, none, 0⟩

/-- A decoded response carrying an error object. -/
def sampleFailure (n : String) (code : Int) (message : String) :
    Option jsonRPCReceiveMessage :=
  some ⟨"2.0", n, "", some ⟨code, message⟩, 0⟩

/-- A batch of two elements. -/
def sampleBatch : List (BatchElem String (Option String)) :=
  [sampleElem "getrawtransaction" "[\"a\",1]", sampleElem "getrawtransaction" "[\"b\",1]"]

/-- The requests of `sampleBatch`, ids 1 and 2. -/
def sampleRequests : List jsonRPCSendMessage :=
  [sampleRequest 1 "getrawtransaction" "[\"a\",1]",
   sampleRequest 2 "getrawtransaction" "[\"b\",1]"]

/-- The batch `sampleBatch` with both slots filled. -/
def sampleBatchDone : List (BatchElem String (Option String)) :=
  [⟨"getrawtransaction", "[\"a\",1]", some "ra", none⟩,
   ⟨"getrawtransaction", "[\"b\",1]", some "rb", none⟩]

/-- A batch of three elements. -/
def sampleBatch3 : List (BatchElem String (Option String)) :=
  [sampleElem "getrawtransaction" "[\"a\",1]", sampleElem "getrawtransaction" "[\"b\",1]",
   sampleElem "getrawtransaction" "[\"c\",1]"]

/-- The requests of `sampleBatch3`, ids 1, 2 and 3. -/
def sampleRequests3 : List jsonRPCSendMessage :=
  [sampleRequest 1 "getrawtransaction" "[\"a\",1]",
   sampleRequest 2 "getrawtransaction" "[\"b\",1]",
   sampleRequest 3 "getrawtransaction" "[\"c\",1]"]

/-- Responses to `sampleRequests3`: the second carries an error object. -/
def sampleResponses3 : List (Option jsonRPCReceiveMessage) :=
  [sampleResult "1" "ra", sampleFailure "2" (-5) "No such transaction", sampleResult "3" "rc"]

/-- The error element 2 of `sampleBatch3` gets from `sampleResponses3`. -/
def sampleError3 : GoError :=
  GoError.withStack (GoError.jsonError (-5) "No such transaction")

/-- The batch `sampleBatch3` after `handleBatchResult` on `sampleResponses3`. -/
def sampleBatch3Done : List (BatchElem String (Option String)) :=
  [⟨"getrawtransaction", "[\"a\",1]", some "ra", none⟩,
   ⟨"getrawtransaction", "[\"b\",1]", none, some sampleError3⟩,
   ⟨"getrawtransaction", "[\"c\",1]", none, none⟩]

/-- Responses to `sampleRequests`: none for id 1, an error object for id 2. -/
def sampleResponsesMissing : List (Option jsonRPCReceiveMessage) :=
  [sampleFailure "2" (-5) "No such transaction"]

/-- The error `handleBatchResult` returns for a request without response. -/
def missingError (req : jsonRPCSendMessage) : GoError :=
  GoError.errorf "can not found result, resuest id %d, method %s, params %v"
    [toString req.ID, req.Method, req.Params]

/-- The map `getResponseMap` builds from `sampleResponses3`. -/
def sampleMap3 : ResponseMap :=
  ResponseMap.set
    (ResponseMap.set
      (ResponseMap.set (fun _ => none) 1 (some ⟨"2.0", "1", "ra", none, 1⟩)) 2
      (some ⟨"2.0", "2", "", some ⟨-5, "No such transaction"⟩, 2⟩)) 3
    (some ⟨"2.0", "3", "rc", none, 3⟩)

/-- The map `getResponseMap` builds from `sampleResponsesMissing`. -/
def sampleMapMissing : ResponseMap :=
  ResponseMap.set (fun _ => none) 2
    (some ⟨"2.0", "2", "", some ⟨-5, "No such transaction"⟩, 2⟩)

/-- A client capped at 5 requests per post, fresh id counter. -/
def sampleClient : Client := ⟨"2.0", 0, true, 5⟩

/-- A batch of twelve elements. -/
def sampleBatch12 : List (BatchElem String (Option String)) :=
  List.replicate 12 (sampleElem "getrawtransaction" "[\"a\",1]")

/-- The requests `sampleClient` builds for `sampleBatch12`, ids 1 to 12. -/
def sampleRequests12 : List jsonRPCSendMessage :=
  [1, 2, 3, 4, 5, 6, 7, 8, 9, 10, 11, 12].map
    (fun n => sampleRequest n "getrawtransaction" "[\"a\",1]")

/-- An environment for examples whose node answers the first post with an
empty array and fails on every later one. -/
def sampleFlaky : Env String (Option String) :=
  { sampleEnv with
    server := fun posted _ =>
      if posted.length = 0 then Except.ok "[]"
      else Except.error (GoError.lib "net/http" "http status code err: 500") }

/-- The two results, in request order. -/
def sampleResponses : List (Option jsonRPCReceiveMessage) :=
  [sampleResult "1" "ra", sampleResult "2" "rb"]

/-- An environment for examples whose node answers every post with the body
`R`, the array of the two results `sampleResponses`. -/
def sampleLive : Env String (Option String) :=
  { sampleEnv with
    decode := fun buf => if buf = "R" then some sampleResponses else none
    server := fun _ _ => Except.ok "R" }

end rpc

/-! ## `features/block.go`, `features/plugin.go` -/

/-- Go `int` arithmetic on a 64-bit platform: the result of an operation
wrapped into the range of `int`. -/
def wrapInt (x : Int) : Int := (x + 2 ^ 63) % 2 ^ 64 - 2 ^ 63

namespace features

/-- Interface `Block`. -/
class Block (β : Type) where
  GetHash : β → String
  GetHeight : β → Int
  GetParentHash : β → String
  GetBlockTime : β → Int

/-- Struct `BlockInfo`. -/
structure BlockInfo where
  Hash : String
  Height : Int
  ParentHash : String
  BlockTime : Int
deriving DecidableEq, Repr

instance : Block BlockInfo where
  GetHash b := b.Hash
  GetHeight b := b.Height
  GetParentHash b := b.ParentHash
  GetBlockTime b := b.BlockTime

/-- Interface `Producer` over blocks `β` and transactions `τ`, with `ω` the
state of the producer and of the node behind it. `GetRelatedTransactions`
also returns the block as it leaves it. -/
structure Producer (ω β τ : Type) where
  GetChainHeight : ω → Run (Except GoError Int × ω)
  GetBlockByHeight : Int → ω → Run (Except GoError β × ω)
  GetRelatedTransactions : β → ω → Run (Except GoError (List τ) × β × ω)

/-- Interface `Consumer` with state `κ`. The block `GetCurrentBlockInfo`
returns is given by the values of its four getters. -/
structure Consumer (κ β τ : Type) where
  GetCurrentBlockInfo : κ → Run (Except GoError BlockInfo × κ)
  NewBlock : β → List τ → κ → Run (Option GoError × κ)

end features

namespace btc

/-! ## `plugins/btc/consumer.go` -/

/-- Struct `consumer` (the mutex guards `currentHeight`). -/
structure consumer where
  currentHeight : Int
deriving DecidableEq, Repr

/-- Method `GetCurrentBlockInfo`. -/
def consumer.GetCurrentBlockInfo (c : consumer) : Except GoError features.BlockInfo × consumer :=
  (Except.ok { Hash := "", Height := c.currentHeight, ParentHash := "", BlockTime := 0 }, c)

/-- Method `NewBlock`. -/
def consumer.NewBlock {β τ : Type} [features.Block β] (c : consumer) (b : β) (_txs : List τ) :
    Option GoError × consumer :=
  (none, { c with currentHeight := features.Block.GetHeight b })

/-- The consumer as a `features.Consumer`. -/
def consumer.asConsumer (β τ : Type) [features.Block β] : features.Consumer consumer β τ where
  GetCurrentBlockInfo c := Run.done c.GetCurrentBlockInfo
  NewBlock b txs c := Run.done (c.NewBlock b txs)

end btc

namespace common

/-! ## `common/utils.go` -/

/-- The hash and encoding libraries behind `Hash160` and `CheckEncode`:
`sha256.Sum256`, the RIPEMD-160 hasher and `base58.Encode`, on byte lists. -/
structure Crypto where
  sha256 : List Nat → List Nat
  ripemd160 : List Nat → List Nat
  base58Encode : List Nat → String

/-- Value of a hexadecimal digit, as the table of `encoding/hex` has it. -/
def hexVal (c : Char) : Option Nat :=
  if '0' ≤ c ∧ c ≤ '9' then some (c.toNat - 48)
  else if 'a' ≤ c ∧ c ≤ 'f' then some (c.toNat - 87)
  else if 'A' ≤ c ∧ c ≤ 'F' then some (c.toNat - 55)
  else none

/-- The call `hex.DecodeString`: the bytes of an even number of hexadecimal
digits; `none` stands for its errors. -/
def hexDecode : List Char → Option (List Nat)
  | [] => some []
  | [_] => none
  | a :: b :: rest =>
    match hexVal a, hexVal b, hexDecode rest with
    | some x, some y, some bs => some ((x * 16 + y) :: bs)
    | _, _, _ => none

/-- The call `strings.Split(s, " ")`. -/
def splitOnSpace : List Char → List (List Char)
  | [] => [[]]
  | c :: cs =>
    match splitOnSpace cs with
    | [] => [[c]]
    | w :: ws => if c = ' ' then [] :: w :: ws else (c :: w) :: ws

/-- Constant `txscript.OP_CHECKSIG`. -/
def OP_CHECKSIG : Nat := 172

/-- Function `Hash160`: `ripemd160(sha256(b))`. -/
def Hash160 (cr : Crypto) (buf : List Nat) : List Nat := cr.ripemd160 (cr.sha256 buf)

/-- Function `checksum`: the first four bytes of the double SHA-256. -/
def checksum (cr : Crypto) (input : List Nat) : List Nat :=
  (cr.sha256 (cr.sha256 input)).take 4

/-- Function `CheckEncode`. -/
def CheckEncode (cr : Crypto) (input version : List Nat) : String :=
  cr.base58Encode (version ++ input ++ checksum cr (version ++ input))

/-- The end of `GetAddressFromScriptSig`, from `hash160 := Hash160(pubKeyByte)`
on. -/
def encodeScriptHash (cr : Crypto) (pubKeyByte inputID : List Nat) :
    Run (Except GoError String) :=
  if (Hash160 cr pubKeyByte).length ≠ 20 then
    Run.done (Except.error (GoError.new "scriptHash must be 20 bytes"))
  else Run.done (Except.ok (CheckEncode cr (Hash160 cr pubKeyByte) inputID))

/-- Function `GetAddressFromScriptSig`; the address is empty when it returns an
error. `pubKeyByte[len(pubKeyByte)-1]` panics on the empty byte list. -/
def GetAddressFromScriptSig (cr : Crypto) (asm : String) (_isTest : Bool) :
    Run (Except GoError String) :=
  match splitOnSpace asm.toList with
  | [] => Run.done (Except.error (GoError.new "asm can't be null"))
  | first :: rest =>
    if first.length = 0 then Run.done (Except.error (GoError.new "asm can't be null"))
    else
      match hexDecode ((first :: rest).getLastD []) with
      | none => Run.done (Except.error (GoError.lib "encoding/hex" "invalid byte or odd length"))
      | some pubKeyByte =>
        if (pubKeyByte.length = 65 ∧ pubKeyByte.head? = some 4) ∨
            (pubKeyByte.length = 33 ∧
              (pubKeyByte.head? = some 2 ∨ pubKeyByte.head? = some 3)) then
          encodeScriptHash cr pubKeyByte [0]
        else
          match pubKeyByte.getLast? with
          | none => Run.panic "index out of range [-1]"
          | some lastByte =>
            if lastByte = OP_CHECKSIG then encodeScriptHash cr pubKeyByte [5]
            else encodeScriptHash cr pubKeyByte []

end common

namespace btc

/-! ## `plugins/btc/types.go` -/

/-- Constant `getRawTransactionMethod`. -/
def getRawTransactionMethod : String := "getrawtransaction"

/-- Struct `scriptSig`. -/
structure scriptSig where
  Asm : String
  Hex : String
deriving DecidableEq, Repr

/-- Struct `jsonVin`, without the fields no function reads (`CoinBase2`,
`Sequence`, `ValueSat`, `Ismweb`). `PrevVoutIndex` and `index` are `int64`. -/
structure jsonVin where
  PrevTxHash : String
  PrevVoutIndex : Int
  CoinBase : String
  ScriptSig : scriptSig
  index : Int
  address : String
  value : String
  gotAddress : Bool
  gotValue : Bool
deriving DecidableEq, Repr

/-- Struct `jsonScriptPubKey`, without its field `Type`. -/
structure jsonScriptPubKey where
  Address : String
  Addresses : List String
deriving DecidableEq, Repr

/-- Struct `jsonVout`, without `Ismweb` and `UUID`. `Value` is the raw JSON. -/
structure jsonVout where
  Value : String
  Index : Int
  ScriptPubKey : jsonScriptPubKey
  isConverted : Bool
  fromAddress : String
  toAddress : String
  value : String
deriving DecidableEq, Repr

/-- Struct `jsonTransaction`, without the fields no function reads. `Vin` and
`Vout` are slices of pointers; their entries are taken to be non-`nil`. -/
structure jsonTransaction where
  Hash : String
  BlockHash : String
  Vin : List jsonVin
  Vout : List jsonVout
  txType : String
deriving DecidableEq, Repr

/-- Struct `jsonBlock`, without the fields no function reads. -/
structure jsonBlock where
  Hash : String
  Height : Int
  Time : Int
  PrevBlockHash : String
  Txes : List String
  txes : List jsonTransaction
deriving DecidableEq, Repr

instance : features.Block jsonBlock where
  GetHash b := b.Hash
  GetHeight b := b.Height
  GetParentHash b := b.PrevBlockHash
  GetBlockTime b := b.Time

/-- Function `getAddressFromScript`. -/
def getAddressFromScript (script : jsonScriptPubKey) : Except GoError String :=
  Except.ok script.Address

/-- Function `getSatoshiValue`. -/
def getSatoshiValue (value : String) : Except GoError String := Except.ok value

/-- Method `jsonVout.convert`. -/
def jsonVout.convert (v : jsonVout) : jsonVout × Option GoError :=
  match getAddressFromScript v.ScriptPubKey with
  | Except.error e => ({ v with toAddress := "" }, some e)
  | Except.ok toAddress =>
    match getSatoshiValue v.Value with
    | Except.error e => ({ v with toAddress := toAddress }, some e)
    | Except.ok value =>
      ({ v with toAddress := toAddress, value := value, isConverted := true }, none)

/-- The output objects on which `convert` is called: an output as the JSON
decoder has left it, with `isConverted` false (the outputs of the transactions
`batchTxes` has just fetched, for the block in `jsonTransaction.convert` and
for the ancestors in `convertWithCheckNode`), or an output that an earlier
call of `convert` has left (an ancestor output that a further input
references). `fillFromAddress`, the only other function that writes to an
output, runs after the last call of `convert`, on transactions that the next
`GetRelatedTransactions` replaces. -/
inductive jsonVout.Reachable : jsonVout → Prop where
  | decoded (v : jsonVout) : v.isConverted = false → jsonVout.Reachable v
  | converted (v : jsonVout) : jsonVout.Reachable v → jsonVout.Reachable v.convert.1

/-- Method `jsonVin.convertAddressWithoutCheckNode`. -/
def jsonVin.convertAddressWithoutCheckNode (cr : common.Crypto) (v : jsonVin) (isTest : Bool)
    (index : Int) : Run jsonVin :=
  match common.GetAddressFromScriptSig cr v.ScriptSig.Asm isTest with
  | Run.done (Except.ok address) =>
    Run.done { v with index := index, address := address, gotAddress := true }
  | Run.done (Except.error _) =>
    Run.done { v with index := index, address := "", gotAddress := false }
  | Run.panic p => Run.panic p
  | Run.outOfFuel => Run.outOfFuel

/-- Method `jsonTransaction.isCoinbase`. -/
def jsonTransaction.isCoinbase (t : jsonTransaction) : Bool :=
  match t.Vin with
  | [vin] => decide (vin.CoinBase.length > 0)
  | _ => false

/-- Loop `for i, vin := range t.Vin` of `convert`, from index `i` on. -/
def convertVins (cr : common.Crypto) (isTest : Bool) : List jsonVin → Int → Run (List jsonVin)
  | [], _ => Run.done []
  | vin :: rest, i =>
    match vin.convertAddressWithoutCheckNode cr isTest i with
    | Run.done vin1 =>
      match convertVins cr isTest rest (i + 1) with
      | Run.done rest1 => Run.done (vin1 :: rest1)
      | Run.panic p => Run.panic p
      | Run.outOfFuel => Run.outOfFuel
    | Run.panic p => Run.panic p
    | Run.outOfFuel => Run.outOfFuel

/-- Loop `for _, vout := range t.Vout` of `convert`. -/
def convertVouts : List jsonVout → List jsonVout × Option GoError
  | [] => ([], none)
  | vout :: rest =>
    match vout.convert with
    | (vout1, some e) => (vout1 :: rest, some e)
    | (vout1, none) =>
      match convertVouts rest with
      | (rest1, err) => (vout1 :: rest1, err)

/-- Method `jsonTransaction.convert`. -/
def jsonTransaction.convert (cr : common.Crypto) (t : jsonTransaction) (_height : Int)
    (isTest : Bool) : Run (jsonTransaction × Option GoError) :=
  let t1 := if t.isCoinbase then { t with txType := "1", Vin := [] } else t
  match convertVins cr isTest t1.Vin 0 with
  | Run.done vins =>
    match convertVouts t1.Vout with
    | (vouts, err) => Run.done ({ t1 with Vin := vins, Vout := vouts }, err)
  | Run.panic p => Run.panic p
  | Run.outOfFuel => Run.outOfFuel

/-- Loop of `jsonBlock.convertWithoutCheckNode` over the transactions. -/
def convertTxList (cr : common.Crypto) (height : Int) :
    List jsonTransaction → Run (List jsonTransaction × Option GoError)
  | [] => Run.done ([], none)
  | tx :: rest =>
    match tx.convert cr height false with
    | Run.done (tx1, some e) =>
      Run.done (tx1 :: rest, some (GoError.wrapf e "tx %s" [tx1.Hash]))
    | Run.done (tx1, none) =>
      match convertTxList cr height rest with
      | Run.done (rest1, err) => Run.done (tx1 :: rest1, err)
      | Run.panic p => Run.panic p
      | Run.outOfFuel => Run.outOfFuel
    | Run.panic p => Run.panic p
    | Run.outOfFuel => Run.outOfFuel

/-- Method `jsonBlock.convertWithoutCheckNode`. -/
def jsonBlock.convertWithoutCheckNode (cr : common.Crypto) (b : jsonBlock) :
    Run (jsonBlock × Option GoError) :=
  match convertTxList cr b.Height b.txes with
  | Run.done (txes, err) => Run.done ({ b with txes := txes }, err)
  | Run.panic p => Run.panic p
  | Run.outOfFuel => Run.outOfFuel

/-- A Go map from transaction hash to `*jsonTransaction`. -/
abbrev TxMap := String → Option jsonTransaction

/-- Assignment `m[k] = v`. -/
def TxMap.set (m : TxMap) (k : String) (v : jsonTransaction) : TxMap :=
  fun x => if x = k then some v else m x

/-- The map `txMap` of `convertWithCheckNode`. -/
def buildTxMap (txes : List jsonTransaction) : TxMap :=
  txes.foldl (fun m tx => m.set tx.Hash tx) (fun _ => none)

/-- Body of the inner loop of `convertWithCheckNode` for one input of the
transaction `tx`: the map (the ancestor output is converted in place), the
input, and the error with which the method returns. -/
def checkVin (txMap : TxMap) (tx : jsonTransaction) (vin : jsonVin) :
    Run (TxMap × jsonVin × Option GoError) :=
  if vin.gotAddress then Run.done (txMap, vin, none)
  else
    match txMap vin.PrevTxHash with
    | none =>
      Run.done (txMap, vin, some (GoError.errorf "lost pre tx(%s) while check %s's vin(%d)"
        [vin.PrevTxHash, tx.Hash, toString vin.index]))
    | some preTx =>
      if (preTx.Vout.length : Int) < wrapInt (vin.PrevVoutIndex + 1) then
        Run.done (txMap, vin, some (GoError.errorf
          "lost pre tx(%s)'s vout(%d) while check %s's vin(%d)"
          [vin.PrevTxHash, toString vin.PrevVoutIndex, tx.Hash, toString vin.index]))
      else if vin.PrevVoutIndex < 0 then Run.panic "index out of range"
      else
        match preTx.Vout[vin.PrevVoutIndex.toNat]? with
        | none => Run.panic "index out of range"
        | some vout =>
          match vout.convert with
          | (vout1, some e) =>
            Run.done (txMap.set vin.PrevTxHash
              { preTx with Vout := preTx.Vout.set vin.PrevVoutIndex.toNat vout1 }, vin, some e)
          | (vout1, none) =>
            Run.done (txMap.set vin.PrevTxHash
              { preTx with Vout := preTx.Vout.set vin.PrevVoutIndex.toNat vout1 },
              { vin with address := vout1.toAddress, value := vout1.value,
                         gotAddress := true, gotValue := true }, none)

/-- Inner loop `for _, vin := range tx.Vin` of `convertWithCheckNode`. -/
def checkVins (tx : jsonTransaction) :
    TxMap → List jsonVin → Run (TxMap × List jsonVin × Option GoError)
  | txMap, [] => Run.done (txMap, [], none)
  | txMap, vin :: rest =>
    match checkVin txMap tx vin with
    | Run.done (txMap1, vin1, some e) => Run.done (txMap1, vin1 :: rest, some e)
    | Run.done (txMap1, vin1, none) =>
      match checkVins tx txMap1 rest with
      | Run.done (txMap2, rest1, err) => Run.done (txMap2, vin1 :: rest1, err)
      | Run.panic p => Run.panic p
      | Run.outOfFuel => Run.outOfFuel
    | Run.panic p => Run.panic p
    | Run.outOfFuel => Run.outOfFuel

/-- Outer loop `for _, tx := range b.txes` of `convertWithCheckNode`. -/
def checkTxes : TxMap → List jsonTransaction → Run (List jsonTransaction × Option GoError)
  | _, [] => Run.done ([], none)
  | txMap, tx :: rest =>
    match checkVins tx txMap tx.Vin with
    | Run.done (_, vins, some e) => Run.done ({ tx with Vin := vins } :: rest, some e)
    | Run.done (txMap1, vins, none) =>
      match checkTxes txMap1 rest with
      | Run.done (rest1, err) => Run.done ({ tx with Vin := vins } :: rest1, err)
      | Run.panic p => Run.panic p
      | Run.outOfFuel => Run.outOfFuel
    | Run.panic p => Run.panic p
    | Run.outOfFuel => Run.outOfFuel

/-- Method `jsonBlock.convertWithCheckNode`. -/
def jsonBlock.convertWithCheckNode (b : jsonBlock) (txes : List jsonTransaction) :
    Run (jsonBlock × Option GoError) :=
  match checkTxes (buildTxMap txes) b.txes with
  | Run.done (txes1, err) => Run.done ({ b with txes := txes1 }, err)
  | Run.panic p => Run.panic p
  | Run.outOfFuel => Run.outOfFuel

/-- The input after the ancestor round, in the words of the specification: a
resolved input stays as it is; an unresolved one takes the decoded address
and value of the output it references among the ancestors `txMap`, and both
flags. -/
def resolveVin (txMap : TxMap) (vin : jsonVin) : jsonVin :=
  if vin.gotAddress then vin
  else
    match txMap vin.PrevTxHash with
    | none => vin
    | some preTx =>
      match preTx.Vout[vin.PrevVoutIndex.toNat]? with
      | none => vin
      | some vout =>
        { vin with address := vout.convert.1.toAddress, value := vout.convert.1.value,
                   gotAddress := true, gotValue := true }

/-- The output that an input references is among the ancestors `txMap`: the
previous transaction is there and has an output at `PrevVoutIndex`. -/
def hasAncestor (txMap : TxMap) (vin : jsonVin) : Bool :=
  match txMap vin.PrevTxHash with
  | none => false
  | some preTx => decide (0 ≤ vin.PrevVoutIndex ∧ vin.PrevVoutIndex < preTx.Vout.length)

/-- Two maps hold the same transactions up to the conversion of their
outputs. -/
def TxMap.Agrees (m m0 : TxMap) : Prop :=
  ∀ h, (m h).map (fun t => t.Vout.map fun v => v.convert.1) =
    (m0 h).map (fun t => t.Vout.map fun v => v.convert.1)

/-- Method `jsonBlock.getUncheckedVinAddressPreHashes`. The keys of the map
`hashMap` are collected without repetition; `order` is the order in which
`range` visits them. -/
def jsonBlock.getUncheckedVinAddressPreHashes (order : List String → List String)
    (b : jsonBlock) : List String :=
  order ((b.txes.flatMap fun tx =>
    (tx.Vin.filter fun vin => !vin.gotAddress).map fun vin => vin.PrevTxHash).dedup)

/-- Method `jsonBlock.getUncheckedVinValuePreHashes`. -/
def jsonBlock.getUncheckedVinValuePreHashes (order : List String → List String)
    (b : jsonBlock) : List String :=
  order ((b.txes.flatMap fun tx =>
    (tx.Vin.filter fun vin => !vin.gotValue).map fun vin => vin.PrevTxHash).dedup)

/-- Inner loop `for _, vin := range t.Vin` of `fillFromAddress` for one output
object: the object after the loop, and the pointers appended to `result`.
`t.Vout` holds pointers, so every appended entry is the one object, as the
last input left it. -/
def fillVout (vins : List jsonVin) (vout : jsonVout) : List jsonVout :=
  List.replicate vins.length
    (vins.foldl (fun o vin => { o with value := vin.value, fromAddress := vin.address }) vout)

/-- Method `jsonTransaction.fillFromAddress`. -/
def jsonTransaction.fillFromAddress (t : jsonTransaction) : jsonTransaction × Option GoError :=
  ({ t with Vout := t.Vout.flatMap (fillVout t.Vin) }, none)

/-- Loop of `jsonBlock.fillFromAddress`. -/
def fillTxList : List jsonTransaction → List jsonTransaction × Option GoError
  | [] => ([], none)
  | tx :: rest =>
    match tx.fillFromAddress with
    | (tx1, some e) => (tx1 :: rest, some e)
    | (tx1, none) =>
      match fillTxList rest with
      | (rest1, err) => (tx1 :: rest1, err)

/-- Method `jsonBlock.fillFromAddress`. -/
def jsonBlock.fillFromAddress (b : jsonBlock) : jsonBlock × Option GoError :=
  match fillTxList b.txes with
  | (txes, err) => ({ b with txes := txes }, err)

/-! ## `plugins/btc/producer.go` -/

/-- What the producer works with: the JSON library and the node behind its
client (arguments are the pair of `[]interface{}{hash, 1}`, result slots are
transactions), the hash libraries, and for each of the two hash-collecting
methods the order in which `range` visits the keys of its map. -/
structure Node where
  rpc : rpc.Env (String × Int) jsonTransaction
  crypto : common.Crypto
  addressOrder : List String → List String
  valueOrder : List String → List String

/-- The state of the producer: its client and the bodies posted so far. -/
structure producer where
  client : rpc.Client
  net : List rpc.Body

/-- The zero value `new(jsonTransaction)`. -/
def newTransaction : jsonTransaction :=
  { Hash := "", BlockHash := "", Vin := [], Vout := [], txType := "" }

/-- First loop after `BatchSyncCall` in `batchTxes`: the first element error. -/
def firstElemError : List (rpc.BatchElem (String × Int) jsonTransaction) → Option GoError
  | [] => none
  | elem :: rest =>
    match elem.Error with
    | some e => some e
    | none => firstElemError rest

/-- Second loop after `BatchSyncCall` in `batchTxes`, from index `index` on:
every transaction carries the hash that was asked for. -/
def checkHashes (total : Nat) :
    List String → List jsonTransaction → Nat → Run (Option GoError)
  | [], _, _ => Run.done none
  | _ :: _, [], _ => Run.panic "index out of range"
  | hash :: hashes, tx :: txes, index =>
    if hash ≠ tx.Hash then
      Run.done (some (GoError.errorf "bacth tx err: %d/%d wanted %s, but got %s"
        [toString (index + 1), toString total, hash, tx.Hash]))
    else checkHashes total hashes txes (index + 1)

/-- Method `producer.batchTxes`. -/
def producer.batchTxes (nd : Node) (p : producer) (hashes : List String) :
    Run (Except GoError (List jsonTransaction) × producer) :=
  let max := if hashes.length > 10 then 10 else hashes.length
  let request : List (rpc.BatchElem (String × Int) jsonTransaction) :=
    (hashes.take max).map fun hash =>
      { Method := getRawTransactionMethod, Args := (hash, 1), Result := newTransaction,
        Error := none }
  match p.client.BatchSyncCall nd.rpc p.net request with
  | Run.done out =>
    match out.err with
    | some e => Run.done (Except.error e, ⟨out.client, out.net⟩)
    | none =>
      match firstElemError out.batch with
      | some e => Run.done (Except.error e, ⟨out.client, out.net⟩)
      | none =>
        match checkHashes hashes.length (hashes.take max)
            (out.batch.map fun elem => elem.Result) 0 with
        | Run.done (some e) => Run.done (Except.error e, ⟨out.client, out.net⟩)
        | Run.done none =>
          Run.done (Except.ok (out.batch.map fun elem => elem.Result), ⟨out.client, out.net⟩)
        | Run.panic q => Run.panic q
        | Run.outOfFuel => Run.outOfFuel
  | Run.panic q => Run.panic q
  | Run.outOfFuel => Run.outOfFuel

/-- Method `producer.convertTxes`: the error it returns, the block and the
producer after it. -/
def producer.convertTxes (nd : Node) (p : producer) (b : jsonBlock) :
    Run (Option GoError × jsonBlock × producer) :=
  match b.convertWithoutCheckNode nd.crypto with
  | Run.done (b1, some e) => Run.done (some e, b1, p)
  | Run.done (b1, none) =>
    match p.batchTxes nd (b1.getUncheckedVinAddressPreHashes nd.addressOrder) with
    | Run.done (Except.error e, p1) => Run.done (some e, b1, p1)
    | Run.done (Except.ok txes, p1) =>
      match b1.convertWithCheckNode txes with
      | Run.done (b2, some e) => Run.done (some e, b2, p1)
      | Run.done (b2, none) =>
        match p1.batchTxes nd (b2.getUncheckedVinValuePreHashes nd.valueOrder) with
        | Run.done (Except.error e, p2) => Run.done (some e, b2, p2)
        | Run.done (Except.ok _, p2) =>
          match b2.fillFromAddress with
          | (b3, err) => Run.done (err, b3, p2)
        | Run.panic q => Run.panic q
        | Run.outOfFuel => Run.outOfFuel
      | Run.panic q => Run.panic q
      | Run.outOfFuel => Run.outOfFuel
    | Run.panic q => Run.panic q
    | Run.outOfFuel => Run.outOfFuel
  | Run.panic q => Run.panic q
  | Run.outOfFuel => Run.outOfFuel

/-- Method `producer.GetRelatedTransactions`: the transactions or the error it
returns, the block and the producer after it. -/
def producer.GetRelatedTransactions (nd : Node) (p : producer) (b : jsonBlock) :
    Run (Except GoError (List jsonTransaction) × jsonBlock × producer) :=
  match p.batchTxes nd b.Txes with
  | Run.done (Except.error e, p1) => Run.done (Except.error e, { b with txes := [] }, p1)
  | Run.done (Except.ok txes, p1) =>
    match p1.convertTxes nd { b with txes := txes } with
    | Run.done (some e, b1, p2) => Run.done (Except.error e, b1, p2)
    | Run.done (none, b1, p2) => Run.done (Except.ok b1.txes, b1, p2)
    | Run.panic q => Run.panic q
    | Run.outOfFuel => Run.outOfFuel
  | Run.panic q => Run.panic q
  | Run.outOfFuel => Run.outOfFuel

/-! ### Example inputs -/

/-- Hash libraries for examples: constant digests of the right lengths. -/
def sampleCrypto : common.Crypto where
  sha256 _ := List.replicate 32 0
  ripemd160 _ := List.replicate 20 0
  base58Encode _ := "1ExampleAddress"

/-- A signature script of the pay-to-pubkey-hash kind: a signature and a
compressed public key of 33 bytes with leading byte 2. -/
def sampleAsm : String :=
  "3044 02aaaaaaaaaaaaaaaaaaaaaaaaaaaaaaaaaaaaaaaaaaaaaaaaaaaaaaaaaaaaaaaa"

/-- The transaction `t1` as the node reports it: one input spending output 0 of
`p0`, one output. -/
def sampleTx : jsonTransaction :=
  { Hash := "t1", BlockHash := "b1",
    Vin := [{ PrevTxHash := "p0", PrevVoutIndex := 0, CoinBase := "",
              ScriptSig := { Asm := sampleAsm, Hex := "" }, index := 0, address := "",
              value := "", gotAddress := false, gotValue := false }],
    Vout := [{ Value := "0.5", Index := 0, ScriptPubKey := { Address := "1Dest", Addresses := [] },
               isConverted := false, fromAddress := "", toAddress := "", value := "" }],
    txType := "" }

/-- The ancestor `p0` as the node reports it. -/
def sampleAncestor : jsonTransaction :=
  { Hash := "p0", BlockHash := "b0", Vin := [],
    Vout := [{ Value := "0.7", Index := 0, ScriptPubKey := { Address := "1Src", Addresses := [] },
               isConverted := false, fromAddress := "", toAddress := "", value := "" }],
    txType := "" }

/-- The bytes of the public key in `sampleAsm`. -/
def samplePubKey : List Nat := 2 :: List.replicate 32 170

/-- The address `GetAddressFromScriptSig` gives for `sampleAsm`. -/
def sampleAddress (cr : common.Crypto) : String :=
  common.CheckEncode cr (common.Hash160 cr samplePubKey) [0]

/-- A node for examples, over the hash libraries `cr`, that knows the
transactions `t1` and `p0` and answers every request for them correctly; the
parameters of a request are written as the hash alone, `R1`, `R2` are the
response bodies and `TX1`, `TX0` the raw results. -/
def sampleNode (cr : common.Crypto) : Node where
  rpc :=
    { marshal := fun a => Except.ok a.1
      unmarshal := fun raw slot =>
        if raw = "TX1" then (sampleTx, none)
        else if raw = "TX0" then (sampleAncestor, none)
        else (slot, some (GoError.lib "encoding/json" "cannot unmarshal"))
      decode := fun buf =>
        if buf = "R1" then some [some ⟨"2.0", "1", "TX1", none, 0⟩]
        else if buf = "R2" then some [some ⟨"2.0", "2", "TX0", none, 0⟩]
        else none
      server := fun _ body =>
        match body with
        | rpc.Body.batch [msg] =>
          if msg.Params = "t1" then Except.ok "R1"
          else if msg.Params = "p0" then Except.ok "R2"
          else Except.error (GoError.lib "net/http" "http status code err: 500")
        | _ => Except.error (GoError.lib "net/http" "http status code err: 500") }
  crypto := cr
  addressOrder := fun l => l
  valueOrder := fun l => l

/-- A block listing the transaction `t1`. -/
def sampleBlock : jsonBlock :=
  { Hash := "b1", Height := 1, Time := 0, PrevBlockHash := "b0", Txes := ["t1"], txes := [] }

/-- A freshly dialled producer. -/
def sampleStart : producer := ⟨⟨"2.0", 0, false, 0⟩, []⟩

/-- The transaction `t1` as `GetRelatedTransactions` returns it. -/
def sampleResolved (cr : common.Crypto) : jsonTransaction :=
  { Hash := "t1", BlockHash := "b1",
    Vin := [{ PrevTxHash := "p0", PrevVoutIndex := 0, CoinBase := "",
              ScriptSig := { Asm := sampleAsm, Hex := "" }, index := 0,
              address := sampleAddress cr, value := "", gotAddress := true,
              gotValue := false }],
    Vout := [{ Value := "0.5", Index := 0, ScriptPubKey := { Address := "1Dest", Addresses := [] },
               isConverted := true, fromAddress := sampleAddress cr, toAddress := "1Dest",
               value := "" }],
    txType := "" }

/-- The transaction `t1` with its input pointing at the output `index` of
`p0`. -/
def sampleSpend (index : Int) : jsonTransaction :=
  { sampleTx with
    Vin := [{ PrevTxHash := "p0", PrevVoutIndex := index, CoinBase := "",
              ScriptSig := { Asm := sampleAsm, Hex := "" }, index := 0, address := "",
              value := "", gotAddress := false, gotValue := false }] }

/-- A resolved input with the given address and value. -/
def sampleInput (address value : String) : jsonVin :=
  { PrevTxHash := "p0", PrevVoutIndex := 0, CoinBase := "",
    ScriptSig := { Asm := sampleAsm, Hex := "" }, index := 0, address := address,
    value := value, gotAddress := true, gotValue := true }

/-- A converted output of `amount` to the address `toAddress`. -/
def sampleOutput (toAddress amount : String) : jsonVout :=
  { Value := amount, Index := 0, ScriptPubKey := { Address := toAddress, Addresses := [] },
    isConverted := true, fromAddress := "", toAddress := toAddress, value := amount }

/-- A transaction with two resolved inputs, 0.3 from `1A` and 0.4 from `1B`,
and one output to `1Dest`. -/
def sampleTwoInputs : jsonTransaction :=
  { Hash := "t2", BlockHash := "b1", Vin := [sampleInput "1A" "0.3", sampleInput "1B" "0.4"],
    Vout := [sampleOutput "1Dest" "0.7"], txType := "" }

/-- An unresolved input whose signature script ends in the token `00`: one
byte, no public key and no script ending in `OP_CHECKSIG`. -/
def sampleUnrecognised : jsonVin :=
  { PrevTxHash := "p0", PrevVoutIndex := 0, CoinBase := "",
    ScriptSig := { Asm := "3044 00", Hex := "" }, index := 0, address := "", value := "",
    gotAddress := false, gotValue := false }

/-- A coinbase transaction `c1` as the node reports it: one input with a
coinbase field, one output of 50 to `1Miner`. -/
def sampleCoinbase : jsonTransaction :=
  { Hash := "c1", BlockHash := "b1",
    Vin := [{ PrevTxHash := "", PrevVoutIndex := 0, CoinBase := "04ffff001d",
              ScriptSig := { Asm := "", Hex := "" }, index := 0, address := "", value := "",
              gotAddress := false, gotValue := false }],
    Vout := [{ Value := "50", Index := 0, ScriptPubKey := { Address := "1Miner", Addresses := [] },
               isConverted := false, fromAddress := "", toAddress := "", value := "" }],
    txType := "" }

/-- A node for examples that knows the coinbase transaction `c1`; `RC` is the
response body and `TXC` the raw result. -/
def sampleMiner : Node where
  rpc :=
    { marshal := fun a => Except.ok a.1
      unmarshal := fun raw slot =>
        if raw = "TXC" then (sampleCoinbase, none)
        else (slot, some (GoError.lib "encoding/json" "cannot unmarshal"))
      decode := fun buf =>
        if buf = "RC" then some [some ⟨"2.0", "1", "TXC", none, 0⟩] else none
      server := fun _ body =>
        match body with
        | rpc.Body.batch [msg] =>
          if msg.Params = "c1" then Except.ok "RC"
          else Except.error (GoError.lib "net/http" "http status code err: 500")
        | _ => Except.error (GoError.lib "net/http" "http status code err: 500") }
  crypto := sampleCrypto
  addressOrder := fun l => l
  valueOrder := fun l => l

/-- A block listing the coinbase transaction `c1`. -/
def sampleMined : jsonBlock :=
  { Hash := "b1", Height := 1, Time := 0, PrevBlockHash := "b0", Txes := ["c1"], txes := [] }

/-- An unresolved input that spends output 0 of the transaction `h`; its
signature script holds no hexadecimal token, so no address is decoded from
it. -/
def sampleOpaque (h : String) : jsonVin :=
  { PrevTxHash := h, PrevVoutIndex := 0, CoinBase := "", ScriptSig := { Asm := "zz", Hex := "" },
    index := 0, address := "", value := "", gotAddress := false, gotValue := false }

/-- A transaction `t11` with eleven inputs that spend the eleven transactions
`p0` to `p10`. -/
def sampleEleven : jsonTransaction :=
  { Hash := "t11", BlockHash := "b1",
    Vin := ["p0", "p1", "p2", "p3", "p4", "p5", "p6", "p7", "p8", "p9", "p10"].map sampleOpaque,
    Vout := [{ Value := "0.5", Index := 0, ScriptPubKey := { Address := "1Dest", Addresses := [] },
               isConverted := false, fromAddress := "", toAddress := "", value := "" }],
    txType := "" }

/-- A block whose fetched transactions are `t11` alone. -/
def sampleCrowded : jsonBlock :=
  { Hash := "b1", Height := 1, Time := 0, PrevBlockHash := "b0", Txes := ["t11"],
    txes := [sampleEleven] }

/-- A node for examples that answers a batch of ten requests, for `p0` to `p9`,
correctly: the raw result of a request is written as the hash of the
transaction, which has one output. -/
def sampleAncestors : Node where
  rpc :=
    { marshal := fun a => Except.ok a.1
      unmarshal := fun raw _ => ({ sampleAncestor with Hash := raw }, none)
      decode := fun buf =>
        if buf = "R10" then
          some [
              some ⟨"2.0", "1", "p0", none, 0⟩,
              some ⟨"2.0", "2", "p1", none, 0⟩,
              some ⟨"2.0", "3", "p2", none, 0⟩,
              some ⟨"2.0", "4", "p3", none, 0⟩,
              some ⟨"2.0", "5", "p4", none, 0⟩,
              some ⟨"2.0", "6", "p5", none, 0⟩,
              some ⟨"2.0", "7", "p6", none, 0⟩,
              some ⟨"2.0", "8", "p7", none, 0⟩,
              some ⟨"2.0", "9", "p8", none, 0⟩,
              some ⟨"2.0", "10", "p9", none, 0⟩]
        else none
      server := fun _ _ => Except.ok "R10" }
  crypto := sampleCrypto
  addressOrder := fun l => l
  valueOrder := fun l => l

/-- The producer after the two requests of the example. -/
def sampleEnd : producer :=
  ⟨⟨"2.0", 2, false, 0⟩,
   [rpc.Body.batch [⟨"2.0", 1, "getrawtransaction", "t1"⟩],
    rpc.Body.batch [⟨"2.0", 2, "getrawtransaction", "p0"⟩]]⟩

end btc

namespace eth

/-! ## `plugins/eth/consumer.go` -/

/-- Struct `consumer` (the mutex guards `currentHeight`). -/
structure consumer where
  currentHeight : Int
deriving DecidableEq, Repr

/-- Method `GetCurrentBlockInfo`. -/
def consumer.GetCurrentBlockInfo (c : consumer) : Except GoError features.BlockInfo × consumer :=
  (Except.ok { Hash := "", Height := c.currentHeight, ParentHash := "", BlockTime := 0 }, c)

/-- Method `NewBlock`; the loop over `txs` only writes log lines. -/
def consumer.NewBlock {β τ : Type} [features.Block β] (c : consumer) (b : β) (_txs : List τ) :
    Option GoError × consumer :=
  (none, { c with currentHeight := features.Block.GetHeight b })

/-- The consumer as a `features.Consumer`. -/
def consumer.asConsumer (β τ : Type) [features.Block β] : features.Consumer consumer β τ where
  GetCurrentBlockInfo c := Run.done c.GetCurrentBlockInfo
  NewBlock b txs c := Run.done (c.NewBlock b txs)

end eth

namespace core

/-! ## `core/processor.go` -/

open features

/-- Lines 87 to 104 of `Processor.worker`: fetch the block at
`nextBlockHeight`, resolve its transactions, hand both to the consumer. -/
def fetchAndDeliver {ω κ β τ : Type} (producer : Producer ω β τ) (consumer : Consumer κ β τ)
    (nextBlockHeight : Int) (w : ω) (k : κ) : Run ((Bool × Option GoError) × ω × κ) :=
  match producer.GetBlockByHeight nextBlockHeight w with
  | Run.done (Except.error e, w1) => Run.done ((false, some e), w1, k)
  | Run.done (Except.ok nextBlock, w1) =>
    match producer.GetRelatedTransactions nextBlock w1 with
    | Run.done (Except.error e, _, w2) => Run.done ((false, some e), w2, k)
    | Run.done (Except.ok txs, nextBlock1, w2) =>
      match consumer.NewBlock nextBlock1 txs k with
      | Run.done (some e, k1) => Run.done ((false, some e), w2, k1)
      | Run.done (none, k1) => Run.done ((false, none), w2, k1)
      | Run.panic p => Run.panic p
      | Run.outOfFuel => Run.outOfFuel
    | Run.panic p => Run.panic p
    | Run.outOfFuel => Run.outOfFuel
  | Run.panic p => Run.panic p
  | Run.outOfFuel => Run.outOfFuel

/-- Method `Processor.worker`: the pair `(emptyLoop, err)` it returns and the
states of the producer and the consumer after it. -/
def worker {ω κ β τ : Type} (producer : Producer ω β τ) (consumer : Consumer κ β τ)
    (w : ω) (k : κ) : Run ((Bool × Option GoError) × ω × κ) :=
  match consumer.GetCurrentBlockInfo k with
  | Run.done (Except.error e, k1) => Run.done ((false, some e), w, k1)
  | Run.done (Except.ok current, k1) =>
    let lastBlockHeight := Block.GetHeight current
    let nextBlockHeight := wrapInt (lastBlockHeight + 1)
    match producer.GetChainHeight w with
    | Run.done (Except.error e, w1) => Run.done ((false, some e), w1, k1)
    | Run.done (Except.ok maxBlockHeight, w1) =>
      if nextBlockHeight > maxBlockHeight ∧ maxBlockHeight > 0 then
        Run.done ((true, none), w1, k1)
      else fetchAndDeliver producer consumer nextBlockHeight w1 k1
    | Run.panic p => Run.panic p
    | Run.outOfFuel => Run.outOfFuel
  | Run.panic p => Run.panic p
  | Run.outOfFuel => Run.outOfFuel

/-! ### Example inputs -/

/-- A producer for examples: the chain height is 100, and every request for a
block is answered with a block that reports height 7. -/
def sampleProducer : Producer Unit BlockInfo Unit where
  GetChainHeight w := Run.done (Except.ok 100, w)
  GetBlockByHeight _ w :=
    Run.done (Except.ok { Hash := "h7", Height := 7, ParentHash := "h6", BlockTime := 0 }, w)
  GetRelatedTransactions b w := Run.done (Except.ok [], b, w)

/-- A producer for examples: the chain height is 100, and the block at a
height reports that height. -/
def sampleChain : Producer Unit BlockInfo Unit where
  GetChainHeight w := Run.done (Except.ok 100, w)
  GetBlockByHeight n w :=
    Run.done (Except.ok { Hash := "h", Height := n, ParentHash := "p", BlockTime := 0 }, w)
  GetRelatedTransactions b w := Run.done (Except.ok [], b, w)

end core

namespace rpc

/-! ## `common/net/rpc/rpc.go`: dialling and single calls -/

/-- The client `DialWithoutAuth`, `Dial` and `DialInsecureSkipVerify` build:
`idCounter` is `uint64(0)` and no batch cap is set. -/
def DialWithoutAuth (version : String) : Client :=
  { version := version, idCounter := 0, enableMaxBatch := false, maxBatchNum := 0 }

/-- The environment of a single call: that of a batch call and
`json.Unmarshal` of a response body into one `jsonRPCReceiveMessage`. -/
structure CallEnv (α σ : Type) extends Env α σ where
  decodeMessage : String → Except GoError jsonRPCReceiveMessage

/-- Method `syncRequest`: post the envelope and read the answer. The second
component is the list of posted bodies after the call. -/
def syncRequest {α σ : Type} (env : Env α σ) (net : List Body) (msg : jsonRPCSendMessage) :
    Except GoError String × List Body :=
  (env.server net (Body.single msg), net ++ [Body.single msg])

/-- The wrapper `errors.Wrapf`: `nil` stays `nil`. -/
def Wrapf (err : Option GoError) (format : String) (args : List String) : Option GoError :=
  match err with
  | none => none
  | some e => some (GoError.wrapf e format args)

/-- Function `DefaultHandler`, the `ResultHandler` of every dialled client: the
target as it leaves it, and the error. -/
def DefaultHandler {α σ : Type} (env : CallEnv α σ) (res : String) (target : σ) :
    σ × Option GoError :=
  match env.decodeMessage res with
  | Except.error e => (target, some (GoError.wrapf e "unmarshaling result: %s" [res]))
  | Except.ok resMsg =>
    match resMsg.Error with
    | some je => (target, some (GoError.withStack (GoError.jsonError je.Code je.Message)))
    | none =>
      ((env.unmarshal resMsg.Result target).1,
        Wrapf (env.unmarshal resMsg.Result target).2 "unmarshaling josn rpc result: %s" [res])

/-- Method `SyncCallObject`; `params` is `none` for the `nil` interface, which
is replaced by `new(emptyStruct)` and marshals to `{}`. The result is the
slot and the returned error, the client and the posted bodies. -/
def Client.SyncCallObject {α σ : Type} (env : CallEnv α σ) (c : Client) (net : List Body)
    (res : σ) (method : String) (params : Option α) :
    (σ × Option GoError) × Client × List Body :=
  let built : Except GoError jsonRPCSendMessage × Client :=
    match params with
    | none =>
      (Except.ok { Version := c.version, ID := c.nextID.1, Method := method, Params := "{}" },
        c.nextID.2)
    | some param => c.newMessage env.toEnv method param
  match built with
  | (Except.error e, c1) => ((res, some e), c1, net)
  | (Except.ok msg, c1) =>
    match syncRequest env.toEnv net msg with
    | (Except.error e, net1) => ((res, some e), c1, net1)
    | (Except.ok buf, net1) => (DefaultHandler env buf res, c1, net1)

/-- Method `SyncCall`: the variadic parameters are passed on as one slice. -/
def Client.SyncCall {α σ : Type} (env : CallEnv α σ) (c : Client) (net : List Body)
    (res : σ) (method : String) (params : α) : (σ × Option GoError) × Client × List Body :=
  c.SyncCallObject env net res method (some params)

/-! ### Example inputs -/

/-- An environment for single calls whose node answers every request with the
status 500. A call without parameters passes the `nil` slice of its variadic
arguments, which `json.Marshal` writes as `null`. -/
def sampleDown : CallEnv (List String) Int where
  marshal := fun _ => Except.ok "null"
  unmarshal := fun _ slot => (slot, some (GoError.lib "encoding/json" "cannot unmarshal"))
  decode := fun _ => none
  server := fun _ _ => Except.error (GoError.errorf "http status code err: %d, msg: %s" ["500", ""])
  decodeMessage := fun _ => Except.error (GoError.lib "encoding/json" "unexpected end")

end rpc

namespace btc

/-! ## `plugins/btc/producer.go`: the height query -/

/-- Constant `getChainHeightMethod`. -/
def getChainHeightMethod : String := "getblockcount"

/-- Method `producer.GetChainHeight`: the pair `(int, error)` it returns, as
the height or the error, and the producer after it. The slot is
`var height int`; the call has no parameters. -/
def producer.GetChainHeight (env : rpc.CallEnv (List String) Int) (p : producer) :
    Except GoError Int × producer :=
  match p.client.SyncCall env p.net 0 getChainHeightMethod [] with
  | ((_, some _), c1, net1) => (Except.ok 0, ⟨c1, net1⟩)
  | ((height, none), c1, net1) => (Except.ok height, ⟨c1, net1⟩)

/-- A `features.Producer` whose `GetChainHeight` is that of the btc producer
and whose other two methods are those of `other`. -/
def producer.withHeightQuery {β τ : Type} (env : rpc.CallEnv (List String) Int)
    (other : features.Producer producer β τ) : features.Producer producer β τ :=
  { other with GetChainHeight := fun p => Run.done (p.GetChainHeight env) }

end btc

namespace core

/-! ## `core/processor.go`: the loop -/

open features

/-- The fields of `config.App` the loop reads. -/
structure App where
  EmptyInterval : Int
  ErrorInterval : Int
deriving DecidableEq, Repr

/-- Constant `minDuration`, `-1 << 63` nanoseconds. -/
def minDuration : Int := -2 ^ 63

/-- Constant `time.Millisecond`, in nanoseconds. -/
def Millisecond : Int := 1000000

/-- The duration the loop hands to `timer.Reset` after an iteration that
returned `(emptyLoop, err)`; `time.Duration` is an `int64` of nanoseconds. -/
def resetDuration (app : App) (emptyLoop : Bool) (err : Option GoError) : Int :=
  match err with
  | some _ => wrapInt (Millisecond * app.ErrorInterval)
  | none =>
    if emptyLoop then wrapInt (Millisecond * app.EmptyInterval)
    else minDuration

/-- The case `<-timer.C` of the loop of `Processor.Loop` for one chain: one
call of `worker`, and the duration the timer is reset to. -/
def tick {ω κ β τ : Type} (app : App) (producer : Producer ω β τ) (consumer : Consumer κ β τ)
    (w : ω) (k : κ) : Run (Int × ω × κ) :=
  match worker producer consumer w k with
  | Run.done ((emptyLoop, err), w1, k1) => Run.done (resetDuration app emptyLoop err, w1, k1)
  | Run.panic p => Run.panic p
  | Run.outOfFuel => Run.outOfFuel

/-- A timer of package `time` set to a duration that is not positive fires at
once. -/
def firesAtOnce (d : Int) : Prop := d ≤ 0

end core

namespace core

open features

/-! ### Example inputs for the loop -/

/-- A producer for examples whose every call returns an error. -/
def sampleBroken : Producer Unit BlockInfo Unit where
  GetChainHeight w := Run.done (Except.error (GoError.new "height"), w)
  GetBlockByHeight _ w := Run.done (Except.error (GoError.new "block"), w)
  GetRelatedTransactions b w := Run.done (Except.error (GoError.new "transactions"), b, w)

/-- The methods `GetBlockByHeight` and `GetRelatedTransactions` of a producer
for examples over the state of the btc producer: the block at a height
reports that height and has no transactions. -/
def sampleFetch : Producer btc.producer BlockInfo Unit where
  GetChainHeight w := Run.done (Except.ok 0, w)
  GetBlockByHeight n w :=
    Run.done (Except.ok { Hash := "h", Height := n, ParentHash := "p", BlockTime := 0 }, w)
  GetRelatedTransactions b w := Run.done (Except.ok [], b, w)

end core

namespace eth

/-! ## `plugins/eth/types.go` -/

/-- Constant `getReceipt`. -/
def getReceipt : String := "eth_getTransactionReceipt"

/-- Constant `transferEventHash`. -/
def transferEventHash : String :=
  "0xddf252ad1be2c89b69c2b068fc378daa952ba7f163c4a11628f55a4df523b3ef"

/-- Constant `contractTradeType`. -/
def contractTradeType : String := "contract"

/-- Struct `receiptLogs`, without its field `Type`. -/
structure receiptLogs where
  LogIndex : String
  TransactionIndex : String
  TransactionHash : String
  BlockHash : String
  BlockNumber : String
  Address : String
  Data : String
  Topics : List String
deriving DecidableEq, Repr

/-- Struct `jsonTransactionReceipt`. -/
structure jsonTransactionReceipt where
  TransactionHash : String
  TransactionIndex : String
  BlockNumber : String
  BlockHash : String
  CumulativeGasUsed : String
  EffectiveGasPrice : String
  GasUsed : String
  Status : String
  Logs : List receiptLogs
  L1Fee : String
deriving DecidableEq, Repr

/-- Struct `transfer`; the fields `from` and `to` of the source are `from_` and
`to_` here. -/
structure transfer where
  from_ : String
  to_ : String
  totag : String
  amount : String
  index : String
  txHash : String
  fee : String
  tradeType : String
  assetChainName : String
deriving DecidableEq, Repr

/-- Struct `jsonTransaction`, with the JSON fields the methods read and the
unexported fields they write (`from` and `to` are `from_` and `to_`; the
`*big.Int` fields are never written). The numbers are `uint64`. -/
structure jsonTransaction where
  Hash : String
  Nonce : String
  BlockHash : String
  From : String
  To : String
  TxType : String
  hash : String
  from_ : String
  to_ : String
  tfs : List transfer
  tokenTfs : List transfer
  nonce : Nat
  status : Nat
  receiptStatus : Nat
  txType : Nat
deriving DecidableEq, Repr

/-- A Go map from transaction hash to `*jsonTransactionReceipt`. -/
abbrev ReceiptMap := String → Option jsonTransactionReceipt

/-- Assignment `m[k] = v`. -/
def ReceiptMap.set (m : ReceiptMap) (k : String) (v : jsonTransactionReceipt) : ReceiptMap :=
  fun x => if x = k then some v else m x

/-- Struct `jsonBlock`, with the JSON fields the methods read and the
unexported fields. `Transactions` is a slice of pointers; its entries are
taken to be non-`nil`. -/
structure jsonBlock where
  Number : String
  Hash : String
  ParentHash : String
  Timestamp : String
  Transactions : List jsonTransaction
  receiptsReady : Bool
  receiptsMap : ReceiptMap
  height : Int
  time : Int
  hash : String
  parentHash : String

instance : features.Block jsonBlock where
  GetHash b := b.hash
  GetHeight b := b.height
  GetParentHash b := b.parentHash
  GetBlockTime b := b.time

/-- Method `jsonTransaction.receiptStatusSuccess`. -/
def jsonTransaction.receiptStatusSuccess (t : jsonTransaction) : Bool :=
  decide (t.receiptStatus = 1)

/-- Method `jsonTransaction.convert`; `parse` is `strconv.ParseUint(s, 0, 64)`
with its two results. -/
def jsonTransaction.convert (parse : String → Nat × Option GoError) (t : jsonTransaction) :
    jsonTransaction × Option GoError :=
  match parse t.TxType with
  | (v, some e) => ({ t with hash := t.Hash, txType := v }, some e)
  | (v, none) =>
    ({ t with hash := t.Hash, txType := v, from_ := t.From, to_ := t.To, tfs := [],
              tokenTfs := [], nonce := (parse t.Nonce).1 },
      WithStack (parse t.Nonce).2)

/-- Method `jsonTransaction.combineReceipt`. -/
def jsonTransaction.combineReceipt (parse : String → Nat × Option GoError)
    (t : jsonTransaction) (r : jsonTransactionReceipt) : jsonTransaction × Option GoError :=
  match parse r.Status with
  | (v, some e) => ({ t with receiptStatus := v }, some (GoError.withStack e))
  | (v, none) => ({ t with receiptStatus := v, status := v }, none)

/-! ## `plugins/eth/producer.go` -/

/-- What the producer works with: the JSON library and the node behind its
client (the argument of a receipt request is the hash of
`[]interface{}{hash}`, result slots are receipts), and
`strconv.ParseUint(s, 0, 64)` with its two results. -/
structure Node where
  rpc : rpc.Env String jsonTransactionReceipt
  ParseUint : String → Nat × Option GoError

/-- The state of the producer: its client and the bodies posted so far. -/
structure producer where
  client : rpc.Client
  net : List rpc.Body

/-- Method `producer.getTokenTransfer`: the records and the error (always
`nil`). -/
def producer.getTokenTransfer (rTx : jsonTransaction) :
    List receiptLogs → List transfer × Option GoError
  | [] => ([], none)
  | tLog :: logs =>
    match tLog.Topics with
    | [topic0, topic1, topic2] =>
      if topic0 = transferEventHash then
        ({ txHash := rTx.hash, assetChainName := tLog.Address, from_ := topic1, to_ := topic2,
           amount := tLog.Data, index := tLog.LogIndex, tradeType := contractTradeType,
           totag := "", fee := "" } :: (producer.getTokenTransfer rTx logs).1, none)
      else producer.getTokenTransfer rTx logs
    | _ => producer.getTokenTransfer rTx logs

/-- The zero value of `jsonTransactionReceipt`. -/
def newReceipt : jsonTransactionReceipt :=
  { TransactionHash := "", TransactionIndex := "", BlockNumber := "", BlockHash := "",
    CumulativeGasUsed := "", EffectiveGasPrice := "", GasUsed := "", Status := "", Logs := [],
    L1Fee := "" }

/-- Loop `check elem error` of `batchTransactionReceiptBatchSearch`. -/
def firstElemError : List (rpc.BatchElem String jsonTransactionReceipt) → Option GoError
  | [] => none
  | elem :: rest =>
    match elem.Error with
    | some e => some e
    | none => firstElemError rest

/-- Function `batchTransactionReceiptBatchSearch`. -/
def batchTransactionReceiptBatchSearch (env : rpc.Env String jsonTransactionReceipt)
    (p : producer) (hashes : List String) :
    Run (Except GoError (List jsonTransactionReceipt) × producer) :=
  if hashes.length = 0 then Run.done (Except.ok [], p)
  else
    match p.client.BatchSyncCall env p.net
        (hashes.map fun hash =>
          ({ Method := getReceipt, Args := hash, Result := newReceipt, Error := none } :
            rpc.BatchElem String jsonTransactionReceipt)) with
    | Run.done out =>
      match out.err with
      | some e =>
        Run.done (Except.error (GoError.wrapf e "%s %d, %v"
          [getReceipt, toString hashes.length, "[" ++ " ".intercalate (hashes.take 10) ++ "]"]),
          ⟨out.client, out.net⟩)
      | none =>
        match firstElemError out.batch with
        | some e => Run.done (Except.error e, ⟨out.client, out.net⟩)
        | none => Run.done (Except.ok (out.batch.map fun elem => elem.Result),
            ⟨out.client, out.net⟩)
    | Run.panic q => Run.panic q
    | Run.outOfFuel => Run.outOfFuel

/-- First loop of `GetRelatedTransactions`: `tx.convert()` on every
transaction, up to the first error. -/
def convertAll (parse : String → Nat × Option GoError) :
    List jsonTransaction → List jsonTransaction × Option GoError
  | [] => ([], none)
  | tx :: rest =>
    match tx.convert parse with
    | (tx1, some e) => (tx1 :: rest, some e)
    | (tx1, none) =>
      match convertAll parse rest with
      | (rest1, err) => (tx1 :: rest1, err)

/-- Loop `for index, receipt := range receipts` of `GetRelatedTransactions`,
from index `index` on: the map `b.receiptsMap` as the loop leaves it and the
error with which the method returns. -/
def fillReceiptsMap (b : jsonBlock) :
    List jsonTransactionReceipt → Nat → ReceiptMap → Run (ReceiptMap × Option GoError)
  | [], _, m => Run.done (m, none)
  | receipt :: rest, index, m =>
    if receipt.BlockHash.length = 0 then
      match b.Transactions[index]? with
      | none => Run.panic "index out of range"
      | some tx =>
        Run.done (m, some (GoError.errorf
          "block %d %s. receipt's block hash is is invalid data,txhash %s"
          [toString b.height, b.Hash, tx.Hash]))
    else if receipt.BlockHash ≠ b.Hash then
      Run.done (m, some (GoError.errorf "block %d %s. receipt's block hash is %s,txhash %s"
        [toString b.height, b.Hash, receipt.BlockHash, receipt.TransactionHash]))
    else fillReceiptsMap b rest (index + 1) (m.set receipt.TransactionHash receipt)

/-- The block `if !b.receiptsReady` of `GetRelatedTransactions`: the error
with which the method returns from inside it, the block and the producer
after it. -/
def producer.fetchReceipts (nd : Node) (p : producer) (b : jsonBlock) :
    Run (Option GoError × jsonBlock × producer) :=
  if b.receiptsReady then Run.done (none, b, p)
  else
    match convertAll nd.ParseUint b.Transactions with
    | (txs, some e) => Run.done (some e, { b with Transactions := txs }, p)
    | (txs, none) =>
      match batchTransactionReceiptBatchSearch nd.rpc p (txs.map fun item => item.Hash) with
      | Run.done (Except.error e, p1) => Run.done (some e, { b with Transactions := txs }, p1)
      | Run.done (Except.ok receipts, p1) =>
        if txs.length ≠ receipts.length then
          Run.done (some (GoError.errorf
            "the receipts number: [%d] is not match related txes's: [%d] in %d"
            [toString receipts.length, toString txs.length, toString b.height]),
            { b with Transactions := txs }, p1)
        else
          match fillReceiptsMap { b with Transactions := txs } receipts 0 (fun _ => none) with
          | Run.done (m, some e) =>
            Run.done (some e, { b with Transactions := txs, receiptsMap := m }, p1)
          | Run.done (m, none) =>
            Run.done (none,
              { b with Transactions := txs, receiptsMap := m, receiptsReady := true }, p1)
          | Run.panic q => Run.panic q
          | Run.outOfFuel => Run.outOfFuel
      | Run.panic q => Run.panic q
      | Run.outOfFuel => Run.outOfFuel

/-- Body of the loop `for _, tx := range b.Transactions` that builds `result`,
after the receipt was found and combined: the transaction with its
token-transfer records, and the error of `getTokenTransfer`. -/
def attachTransfers (tx : jsonTransaction) (receipt : jsonTransactionReceipt) :
    jsonTransaction × Option GoError :=
  if tx.receiptStatusSuccess then
    ({ tx with tokenTfs := (producer.getTokenTransfer tx receipt.Logs).1 },
      (producer.getTokenTransfer tx receipt.Logs).2)
  else (tx, none)

/-- Loop `for _, tx := range b.Transactions` that builds `result`: the
transactions as the loop leaves them, and the error or `result`. -/
def collect (parse : String → Nat × Option GoError) (receiptsMap : ReceiptMap) :
    List jsonTransaction → List jsonTransaction × Except GoError (List jsonTransaction)
  | [] => ([], Except.ok [])
  | tx :: rest =>
    match receiptsMap tx.hash with
    | none => (tx :: rest, Except.error (GoError.errorf "tx %s not find match receipt" [tx.hash]))
    | some receipt =>
      match tx.combineReceipt parse receipt with
      | (tx1, some e) => (tx1 :: rest, Except.error e)
      | (tx1, none) =>
        match attachTransfers tx1 receipt with
        | (tx2, some e) => (tx2 :: rest, Except.error e)
        | (tx2, none) =>
          match collect parse receiptsMap rest with
          | (rest1, Except.error e) => (tx2 :: rest1, Except.error e)
          | (rest1, Except.ok result) =>
            (tx2 :: rest1,
              Except.ok (if tx2.tokenTfs.length > 0 then tx2 :: result else result))

/-- Method `producer.GetRelatedTransactions`: the transactions or the error it
returns, the block and the producer after it. -/
def producer.GetRelatedTransactions (nd : Node) (p : producer) (b : jsonBlock) :
    Run (Except GoError (List jsonTransaction) × jsonBlock × producer) :=
  match p.fetchReceipts nd b with
  | Run.done (some e, b1, p1) => Run.done (Except.error e, b1, p1)
  | Run.done (none, b1, p1) =>
    match collect nd.ParseUint b1.receiptsMap b1.Transactions with
    | (txs, Except.error e) => Run.done (Except.error e, { b1 with Transactions := txs }, p1)
    | (txs, Except.ok result) => Run.done (Except.ok result, { b1 with Transactions := txs }, p1)
  | Run.panic q => Run.panic q
  | Run.outOfFuel => Run.outOfFuel

/-! ## Specification of the results -/

/-- A log is a token transfer, in the words of the specification: its topic
count is exactly 3 and its first topic is the Transfer signature. -/
def isTransferLog (tLog : receiptLogs) : Bool :=
  tLog.Topics.length == 3 && tLog.Topics[0]? == some transferEventHash

/-- The token-transfer record of a log of the transaction with hash `txHash`,
in the words of the specification: from is `topics[1]`, to is `topics[2]`,
the amount is the data of the log, the asset address its address and the
index its `logIndex`. -/
def recordOf (txHash : String) (tLog : receiptLogs) : transfer :=
  { from_ := tLog.Topics[1]?.getD "", to_ := tLog.Topics[2]?.getD "", amount := tLog.Data,
    assetChainName := tLog.Address, index := tLog.LogIndex, txHash := txHash,
    tradeType := contractTradeType, totag := "", fee := "" }

/-- A transaction of a resolved block is kept, in the words of the
specification: the status of its receipt is 1 and the receipt has a
qualifying Transfer log. -/
def jsonBlock.keeps (parse : String → Nat × Option GoError) (b : jsonBlock)
    (tx : jsonTransaction) : Bool :=
  match b.receiptsMap tx.Hash with
  | some receipt => decide ((parse receipt.Status).1 = 1) && receipt.Logs.any isTransferLog
  | none => false

/-- A transaction of a block with the receipts `receiptsMap` is settled: its
`hash` is set, and its token-transfer records are either none or those of the
logs of its successful receipt. -/
def jsonTransaction.Settled (parse : String → Nat × Option GoError) (receiptsMap : ReceiptMap)
    (tx : jsonTransaction) : Prop :=
  tx.hash = tx.Hash ∧
    (tx.tokenTfs = [] ∨
      ∃ receipt, receiptsMap tx.Hash = some receipt ∧ (parse receipt.Status).1 = 1 ∧
        tx.tokenTfs = (receipt.Logs.filter isTransferLog).map (recordOf tx.Hash))

/-- The block objects a program can hold: one not marked `receiptsReady` (as
`GetBlockByHeight` returns it), or one that a call of
`GetRelatedTransactions`, successful or not, has left behind. -/
inductive jsonBlock.Reachable (nd : Node) : jsonBlock → Prop where
  | fresh (b : jsonBlock) : b.receiptsReady = false → jsonBlock.Reachable nd b
  | call (p p1 : producer) (b b1 : jsonBlock) (res : Except GoError (List jsonTransaction)) :
      jsonBlock.Reachable nd b →
      p.GetRelatedTransactions nd b = Run.done (res, b1, p1) →
      jsonBlock.Reachable nd b1

/-! ## Example inputs -/

/-- An example of `strconv.ParseUint(s, 0, 64)` that knows three numerals. -/
def sampleParse (s : String) : Nat × Option GoError :=
  if s = "0x0" then (0, none)
  else if s = "0x1" then (1, none)
  else if s = "0x2" then (2, none)
  else (0, some (GoError.lib "strconv" "invalid syntax"))

/-- A Transfer log of 100 units of the token `0xtoken`. -/
def sampleLog : receiptLogs :=
  { LogIndex := "0x0", TransactionIndex := "0x0", TransactionHash := "t1", BlockHash := "B",
    BlockNumber := "0x1", Address := "0xtoken", Data := "0x64",
    Topics := [transferEventHash, "0xfrom", "0xto"] }

/-- A log of another event, with one topic. -/
def sampleOtherLog : receiptLogs :=
  { sampleLog with LogIndex := "0x1", Topics := ["0xabc"] }

/-- A receipt of the transaction `h` in the block `blockHash`. -/
def sampleReceipt (h blockHash status : String) (logs : List receiptLogs) :
    jsonTransactionReceipt :=
  { newReceipt with TransactionHash := h, BlockHash := blockHash, Status := status, Logs := logs }

/-- A transaction as the JSON decoder leaves it. -/
def sampleTx (h : String) : jsonTransaction :=
  { Hash := h, Nonce := "0x0", BlockHash := "B", From := "0xa", To := "0xb", TxType := "0x2",
    hash := "", from_ := "", to_ := "", tfs := [], tokenTfs := [], nonce := 0, status := 0,
    receiptStatus := 0, txType := 0 }

/-- The block `B` with the transactions `t1`, `t2`, `t3`, as `GetBlockByHeight`
returns it. -/
def sampleBlock : jsonBlock :=
  { Number := "0x1", Hash := "B", ParentHash := "A", Timestamp := "0x0",
    Transactions := [sampleTx "t1", sampleTx "t2", sampleTx "t3"], receiptsReady := false,
    receiptsMap := fun _ => none, height := 1, time := 0, hash := "B", parentHash := "A" }

/-- A node for examples that answers a batch of three receipt requests: `t1`
succeeded with a Transfer log and another log, `t2` succeeded without logs,
`t3` failed with a Transfer log. The receipts carry the block hash
`blockHash`. -/
def sampleNode (blockHash : String) : Node where
  rpc :=
    { marshal := fun a => Except.ok a
      unmarshal := fun raw slot =>
        if raw = "RC1" then (sampleReceipt "t1" blockHash "0x1" [sampleLog, sampleOtherLog], none)
        else if raw = "RC2" then (sampleReceipt "t2" blockHash "0x1" [], none)
        else if raw = "RC3" then (sampleReceipt "t3" blockHash "0x0" [sampleLog], none)
        else (slot, some (GoError.lib "encoding/json" "cannot unmarshal"))
      decode := fun buf =>
        if buf = "R" then
          some [some ⟨"2.0", "1", "RC1", none, 0⟩, some ⟨"2.0", "2", "RC2", none, 0⟩,
                some ⟨"2.0", "3", "RC3", none, 0⟩]
        else none
      server := fun _ body =>
        match body with
        | rpc.Body.batch [_, _, _] => Except.ok "R"
        | _ => Except.error (GoError.lib "net/http" "http status code err: 500") }
  ParseUint := sampleParse

/-- A freshly dialled producer. -/
def sampleStart : producer := ⟨⟨"2.0", 0, false, 0⟩, []⟩

/-- The transaction `h` after `convert` and `combineReceipt`. -/
def sampleConverted (h : String) (receiptStatus : Nat) (tokenTfs : List transfer) :
    jsonTransaction :=
  { sampleTx h with hash := h, from_ := "0xa", to_ := "0xb", txType := 2,
                    receiptStatus := receiptStatus, status := receiptStatus,
                    tokenTfs := tokenTfs }

/-- The record of the Transfer log of `t1`. -/
def sampleTransfer : transfer :=
  { from_ := "0xfrom", to_ := "0xto", totag := "", amount := "0x64", index := "0x0",
    txHash := "t1", fee := "", tradeType := "contract", assetChainName := "0xtoken" }

end eth

/-! # Properties -/

namespace rpc

/-! ## Response map -/

theorem ResponseMap.set_comm (m : ResponseMap) {a b : Nat} (h : a ≠ b)
    (x y : Option jsonRPCReceiveMessage) :
    (m.set a x).set b y = (m.set b y).set a x := by
  funext k
  unfold ResponseMap.set
  by_cases h1 : k = a
  · subst h1
    simp [h]
  · by_cases h2 : k = b
    · subst h2
      simp [h1]
    · simp [h1, h2]

/-- The loop of `getResponseMap` does not depend on the order of a response
list whose entries have pairwise distinct ids (so that at most one entry is
`nil` or has an id that does not parse). -/
theorem getResponseMapLoop_perm {l l' : List (Option jsonRPCReceiveMessage)}
    (hp : l.Perm l') (hnd : (l.map idOf).Nodup) (m : ResponseMap) :
    getResponseMapLoop l m = getResponseMapLoop l' m := by
  induction hp generalizing m with
  | nil => rfl
  | @cons x l1 l2 _ ih =>
    rw [List.map_cons, List.nodup_cons] at hnd
    cases x with
    | none => rfl
    | some r =>
      cases hr : ParseUint r.ID with
      | none => simp only [getResponseMapLoop, hr]
      | some n => simp only [getResponseMapLoop, hr]; exact ih hnd.2 _
  | swap x y l1 =>
    have hxy : idOf y ≠ idOf x := by
      intro h
      simp [h] at hnd
    cases x with
    | none =>
      cases y with
      | none => exact absurd rfl hxy
      | some q =>
        cases hq : ParseUint q.ID with
        | none => exact absurd (by simp [idOf, hq]) hxy
        | some k => simp only [getResponseMapLoop, hq]
    | some r =>
      cases hr : ParseUint r.ID with
      | none =>
        cases y with
        | none => exact absurd (by simp [idOf, hr]) hxy
        | some q =>
          cases hq : ParseUint q.ID with
          | none => exact absurd (by simp [idOf, hr, hq]) hxy
          | some k => simp only [getResponseMapLoop, hq, hr]
      | some n =>
        cases y with
        | none => simp only [getResponseMapLoop, hr]
        | some q =>
          cases hq : ParseUint q.ID with
          | none => simp only [getResponseMapLoop, hq, hr]
          | some k =>
            have hne : k ≠ n := by
              intro h
              exact hxy (by simp [idOf, hr, hq, h])
            simp only [getResponseMapLoop, hr, hq]
            rw [ResponseMap.set_comm _ hne]
  | @trans l1 l2 l3 h1 _ ih1 ih2 =>
    have hnd2 : (l2.map idOf).Nodup := (h1.map idOf).nodup_iff.mp hnd
    exact (ih1 hnd m).trans (ih2 hnd2 m)

theorem getResponseMapLoop_lookup :
    ∀ (l : List (Option jsonRPCReceiveMessage)) (m0 m : ResponseMap),
      getResponseMapLoop l m0 = Run.done (Except.ok m) → ∀ k : Nat,
        m k = m0 k ∨
          ∃ r, some r ∈ l ∧ ParseUint r.ID = some k ∧ m k = some (some { r with id := k }) := by
  intro l
  induction l with
  | nil =>
    intro m0 m h k
    simp only [getResponseMapLoop, Run.done.injEq, Except.ok.injEq] at h
    exact Or.inl (by rw [h])
  | cons x rest ih =>
    intro m0 m h k
    cases x with
    | none => simp [getResponseMapLoop] at h
    | some r =>
      cases hr : ParseUint r.ID with
      | none => simp [getResponseMapLoop, hr] at h
      | some n =>
        simp only [getResponseMapLoop, hr] at h
        rcases ih _ _ h k with h1 | ⟨q, hq, hqid, hqm⟩
        · by_cases hk : k = n
          · subst hk
            refine Or.inr ⟨r, List.mem_cons_self _ _, hr, ?_⟩
            rw [h1]
            simp [ResponseMap.set]
          · left
            rw [h1]
            simp [ResponseMap.set, hk]
        · exact Or.inr ⟨q, List.mem_cons_of_mem _ hq, hqid, hqm⟩

/-- A key of the map built by `getResponseMap` is the parsed id of a response
of the list, and it is bound to that response. -/
theorem getResponseMap_lookup {l : List (Option jsonRPCReceiveMessage)} {m : ResponseMap}
    (h : getResponseMap l = Run.done (Except.ok m)) (k : Nat) :
    m k = none ∨
      ∃ r, some r ∈ l ∧ ParseUint r.ID = some k ∧ m k = some (some { r with id := k }) :=
  getResponseMapLoop_lookup l _ m h k

/-- The map built by `getResponseMap` binds no key to the `nil` pointer. -/
theorem getResponseMap_no_nil {l : List (Option jsonRPCReceiveMessage)} {m : ResponseMap}
    (h : getResponseMap l = Run.done (Except.ok m)) (k : Nat) : m k ≠ some none := by
  rcases getResponseMap_lookup h k with h1 | ⟨r, _, _, h1⟩ <;> simp [h1]

/-- An id that no response carries is absent from the map. -/
theorem getResponseMap_absent {l : List (Option jsonRPCReceiveMessage)} {m : ResponseMap}
    (h : getResponseMap l = Run.done (Except.ok m)) (k : Nat)
    (hk : ∀ r, some r ∈ l → ParseUint r.ID ≠ some k) : m k = none := by
  rcases getResponseMap_lookup h k with h1 | ⟨r, hr, hid, _⟩
  · exact h1
  · exact absurd hid (hk r hr)

/-! ## The body of the correlation loop -/

theorem WithStack_eq_none {e : Option GoError} : WithStack e = none ↔ e = none := by
  cases e <;> simp [WithStack]

/-- The body lets the loop go on exactly when the response is there, has no
error object and a non-empty result, and the result unmarshals. -/
theorem handleElem_ok {α σ : Type} {env : Env α σ} {m : ResponseMap} {elem : BatchElem α σ}
    {req : jsonRPCSendMessage} (h : (handleElem env m elem req).2 = none) :
    ∃ res, m req.ID = some (some res) ∧ res.Error = none ∧ res.Result.length ≠ 0 ∧
      (env.unmarshal res.Result elem.Result).2 = none ∧
      (handleElem env m elem req).1 =
        { elem with Result := (env.unmarshal res.Result elem.Result).1, Error := none } := by
  unfold handleElem at h ⊢
  cases hm : m req.ID with
  | none => simp [hm] at h
  | some o =>
    cases o with
    | none => simp [hm] at h
    | some res =>
      cases he : res.Error with
      | some je => simp [hm, he] at h
      | none =>
        by_cases hl : res.Result.length = 0
        · simp [hm, he, hl] at h
        · simp only [hm, he, hl, if_false] at h ⊢
          rw [WithStack_eq_none] at h
          exact ⟨res, rfl, he, hl, h, by simp [h, WithStack]⟩

/-! ## The correlation loop -/

/-- What a returning run of the loop did: it processed a prefix of `n`
elements without error; with no error the prefix is the whole batch, with an
error element `n` is the one whose body returned it and the later elements
are as they were. -/
theorem handleBatchLoop_done {α σ : Type} (env : Env α σ) (m : ResponseMap) :
    ∀ (batch : List (BatchElem α σ)) (reqs : List jsonRPCSendMessage)
      (batch' : List (BatchElem α σ)) (r : Option GoError),
      handleBatchLoop env m batch reqs = Run.done (batch', r) →
      ∃ n, n ≤ batch.length ∧ batch'.length = batch.length ∧
        (∀ k, k < n → ∃ elem req, batch[k]? = some elem ∧ reqs[k]? = some req ∧
          (handleElem env m elem req).2 = none ∧
          batch'[k]? = some (handleElem env m elem req).1) ∧
        (r = none → n = batch.length) ∧
        (∀ e, r = some e → ∃ elem req, batch[n]? = some elem ∧ reqs[n]? = some req ∧
          (handleElem env m elem req).2 = some e ∧
          batch'[n]? = some (handleElem env m elem req).1 ∧
          batch'.drop (n + 1) = batch.drop (n + 1)) := by
  intro batch
  induction batch with
  | nil =>
    intro reqs batch' r h
    simp only [handleBatchLoop, Run.done.injEq, Prod.mk.injEq] at h
    obtain ⟨h1, h2⟩ := h
    subst h1 h2
    exact ⟨0, le_refl _, rfl, fun k hk => absurd hk (Nat.not_lt_zero k), fun _ => rfl,
      fun e he => by simp at he⟩
  | cons elem batch ih =>
    intro reqs batch' r h
    cases reqs with
    | nil => simp [handleBatchLoop] at h
    | cons req reqs =>
      rcases hb : handleElem env m elem req with ⟨elem1, oe⟩
      cases oe with
      | some e =>
        simp only [handleBatchLoop, hb, Run.done.injEq, Prod.mk.injEq] at h
        obtain ⟨h1, h2⟩ := h
        subst h1 h2
        refine ⟨0, Nat.zero_le _, rfl, fun k hk => absurd hk (Nat.not_lt_zero k),
          fun h0 => by simp at h0, fun e' he' => ?_⟩
        refine ⟨elem, req, by simp, by simp, ?_, ?_, rfl⟩
        · rw [hb]; exact he'
        · rw [hb]; simp
      | none =>
        simp only [handleBatchLoop, hb] at h
        cases hrec : handleBatchLoop env m batch reqs with
        | panic p => simp [hrec] at h
        | outOfFuel => simp [hrec] at h
        | done res =>
          obtain ⟨batch1, err⟩ := res
          simp only [hrec, Run.done.injEq, Prod.mk.injEq] at h
          obtain ⟨h1, h2⟩ := h
          subst h1 h2
          obtain ⟨n, hn, hlen, hpre, hnone, hsome⟩ := ih reqs batch1 err hrec
          refine ⟨n + 1, Nat.succ_le_succ hn, by simp [hlen], ?_, ?_, ?_⟩
          · intro k hk
            cases k with
            | zero => exact ⟨elem, req, by simp, by simp, by rw [hb], by rw [hb]; simp⟩
            | succ k =>
              obtain ⟨el, rq, h1, h2, h3, h4⟩ := hpre k (Nat.lt_of_succ_lt_succ hk)
              exact ⟨el, rq, by simpa using h1, by simpa using h2, h3, by simpa using h4⟩
          · intro h0
            simp [hnone h0]
          · intro e he
            obtain ⟨el, rq, h1, h2, h3, h4, h5⟩ := hsome e he
            exact ⟨el, rq, by simpa using h1, by simpa using h2, h3, by simpa using h4,
              by simpa using h5⟩

/-- The loop run forward: when the bodies of the elements before `n` let the
loop go on and the body of element `n` returns an error, the loop returns
that error, leaves element `n` as its body left it and the later elements as
they were. -/
theorem handleBatchLoop_fail {α σ : Type} (env : Env α σ) (m : ResponseMap) :
    ∀ (n : Nat) (batch : List (BatchElem α σ)) (reqs : List jsonRPCSendMessage)
      (elem : BatchElem α σ) (req : jsonRPCSendMessage) (e : GoError),
      batch[n]? = some elem → reqs[n]? = some req →
      (∀ k, k < n → ∀ el rq, batch[k]? = some el → reqs[k]? = some rq →
        (handleElem env m el rq).2 = none) →
      (handleElem env m elem req).2 = some e →
      ∃ batch', handleBatchLoop env m batch reqs = Run.done (batch', some e) ∧
        batch'.length = batch.length ∧
        batch'[n]? = some (handleElem env m elem req).1 ∧
        batch'.drop (n + 1) = batch.drop (n + 1) ∧
        (∀ k, k < n → ∀ el rq, batch[k]? = some el → reqs[k]? = some rq →
          batch'[k]? = some (handleElem env m el rq).1) := by
  intro n
  induction n with
  | zero =>
    intro batch reqs elem req e hb hr _ hf
    cases batch with
    | nil => simp at hb
    | cons el0 batch0 =>
      cases reqs with
      | nil => simp at hr
      | cons rq0 reqs0 =>
        simp only [List.getElem?_cons_zero, Option.some.injEq] at hb hr
        subst hb hr
        rcases hh : handleElem env m el0 rq0 with ⟨elem1, oe⟩
        rw [hh] at hf
        simp only at hf
        subst hf
        exact ⟨elem1 :: batch0, by simp [handleBatchLoop, hh], rfl, by simp, rfl,
          fun k hk => absurd hk (Nat.not_lt_zero k)⟩
  | succ n ih =>
    intro batch reqs elem req e hb hr hpre hf
    cases batch with
    | nil => simp at hb
    | cons el0 batch0 =>
      cases reqs with
      | nil => simp at hr
      | cons rq0 reqs0 =>
        simp only [List.getElem?_cons_succ] at hb hr
        have h0 := hpre 0 (Nat.succ_pos n) el0 rq0 (by simp) (by simp)
        rcases hh : handleElem env m el0 rq0 with ⟨elem1, oe⟩
        rw [hh] at h0
        simp only at h0
        subst h0
        obtain ⟨b1, hrun, hlen, hn, hdrop, hk⟩ := ih batch0 reqs0 elem req e hb hr
          (fun k hk el rq h1 h2 => hpre (k + 1) (Nat.succ_lt_succ hk) el rq
            (by simpa using h1) (by simpa using h2)) hf
        refine ⟨elem1 :: b1, by simp [handleBatchLoop, hh, hrun], by simp [hlen],
          by simpa using hn, by simpa using hdrop, ?_⟩
        intro k hk' el rq h1 h2
        cases k with
        | zero =>
          simp only [List.getElem?_cons_zero, Option.some.injEq] at h1 h2
          subst h1 h2
          simp [hh]
        | succ k =>
          simp only [List.getElem?_cons_succ] at h1 h2 ⊢
          exact hk k (Nat.lt_of_succ_lt_succ hk') el rq h1 h2

/-! ## The function `handleBatchResult` -/

/-- A run that returns no error processed every element: each one has the
response bound to its request id, unmarshalled into its slot, and no error. -/
theorem handleBatchResult_success {α σ : Type} {env : Env α σ} {batch : List (BatchElem α σ)}
    {reqs : List jsonRPCSendMessage} {l : List (Option jsonRPCReceiveMessage)}
    {batch' : List (BatchElem α σ)}
    (h : handleBatchResult env batch reqs l = Run.done (batch', none)) :
    batch'.length = batch.length ∧
    ∀ (k : Nat) (elem : BatchElem α σ), batch[k]? = some elem →
      ∃ (req : jsonRPCSendMessage) (res : jsonRPCReceiveMessage),
        reqs[k]? = some req ∧ some res ∈ l ∧ ParseUint res.ID = some req.ID ∧
        res.Error = none ∧ res.Result.length ≠ 0 ∧
        (env.unmarshal res.Result elem.Result).2 = none ∧
        batch'[k]? = some
          { elem with Result := (env.unmarshal res.Result elem.Result).1, Error := none } := by
  unfold handleBatchResult at h
  cases hm : getResponseMap l with
  | panic p => simp [hm] at h
  | outOfFuel => simp [hm] at h
  | done r =>
    cases r with
    | error e => simp [hm] at h
    | ok m =>
      simp only [hm] at h
      obtain ⟨n, _, hlen, hpre, hnone, _⟩ := handleBatchLoop_done env m batch reqs batch' none h
      have hn := hnone rfl
      refine ⟨hlen, fun k elem hk => ?_⟩
      have hklt : k < n := by
        rw [hn]
        exact (List.getElem?_eq_some.mp hk).1
      obtain ⟨el, rq, h1, h2, h3, h4⟩ := hpre k hklt
      rw [hk, Option.some.injEq] at h1
      subst h1
      obtain ⟨res, hres, herr, hlen0, hun, hval⟩ := handleElem_ok h3
      rcases getResponseMap_lookup hm rq.ID with h0 | ⟨r, hr, hid, hmr⟩
      · rw [h0] at hres
        exact absurd hres (by simp)
      · rw [hmr, Option.some.injEq, Option.some.injEq] at hres
        subst hres
        exact ⟨rq, r, h2, hr, hid, herr, hlen0, hun, by rw [h4, hval]⟩

/-- C3: order independence of batch correlation. For a decoded response list
whose ids (the numbers `getResponseMap` parses) are pairwise distinct,
`handleBatchResult` gives the same outcome and the same batch for every
permutation of the list, in particular for the reversed list, and when it
returns no error the slot of each element holds the unmarshalled result of
the response whose id is the id of the element's request. -/
theorem handleBatchResult_order_independent {α σ : Type} (env : Env α σ)
    (batch : List (BatchElem α σ)) (reqs : List jsonRPCSendMessage)
    {l l' : List (Option jsonRPCReceiveMessage)} (hp : l.Perm l')
    (hnd : (l.map idOf).Nodup) :
    handleBatchResult env batch reqs l' = handleBatchResult env batch reqs l ∧
    handleBatchResult env batch reqs l.reverse = handleBatchResult env batch reqs l ∧
    ∀ batch', handleBatchResult env batch reqs l' = Run.done (batch', none) →
      ∀ (k : Nat) (elem : BatchElem α σ) (req : jsonRPCSendMessage),
        batch[k]? = some elem → reqs[k]? = some req →
        ∃ (res : jsonRPCReceiveMessage) (elem' : BatchElem α σ),
          some res ∈ l ∧ ParseUint res.ID = some req.ID ∧
          batch'[k]? = some elem' ∧
          elem'.Result = (env.unmarshal res.Result elem.Result).1 := by
  have key : ∀ l2 : List (Option jsonRPCReceiveMessage), l.Perm l2 →
      handleBatchResult env batch reqs l2 = handleBatchResult env batch reqs l := by
    intro l2 h2
    unfold handleBatchResult getResponseMap
    rw [getResponseMapLoop_perm h2 hnd]
  refine ⟨key l' hp, key _ (List.reverse_perm l).symm, ?_⟩
  intro batch' h k elem req hk hr
  rw [key l' hp] at h
  obtain ⟨rq, res, h1, h2, h3, _, _, _, h4⟩ := (handleBatchResult_success h).2 k elem hk
  rw [hr, Option.some.injEq] at h1
  subst h1
  exact ⟨res, _, h2, h3, h4, rfl⟩

/-- C3, instance: the two results arrive in reverse order. -/
theorem handleBatchResult_order_independent_witness :
    handleBatchResult sampleEnv sampleBatch sampleRequests sampleResponses.reverse =
      handleBatchResult sampleEnv sampleBatch sampleRequests sampleResponses :=
  (handleBatchResult_order_independent sampleEnv sampleBatch sampleRequests
    (List.reverse_perm sampleResponses).symm (by decide)).1

/-- A call of `BatchSyncCall` that returns no error either had an empty batch
or ended in a run of `handleBatchResult` that returned no error. -/
theorem BatchSyncCall_nil {α σ : Type} {env : Env α σ} {c : Client} {net : List Body}
    {batch : List (BatchElem α σ)} {out : BatchOutcome α σ}
    (h : c.BatchSyncCall env net batch = Run.done out) (herr : out.err = none) :
    (batch = [] ∧ out.batch = []) ∨
      ∃ reqs l, handleBatchResult env batch reqs l = Run.done (out.batch, none) := by
  unfold Client.BatchSyncCall at h
  by_cases h0 : batch.length = 0
  · simp only [h0, if_true, Run.done.injEq] at h
    subst h
    exact Or.inl ⟨List.length_eq_zero.mp h0, List.length_eq_zero.mp h0⟩
  · right
    simp only [h0, if_false] at h
    rcases hb : buildRequests env c batch with ⟨r, c1⟩
    cases r with
    | error e =>
      simp only [hb, Run.done.injEq] at h
      subst h
      simp at herr
    | ok requestList =>
      simp only [hb] at h
      cases hf : c.fetchResponses env net requestList with
      | panic p => simp [hf] at h
      | outOfFuel => simp [hf] at h
      | done res =>
        obtain ⟨net1, r⟩ := res
        cases r with
        | error e =>
          simp only [hf, Run.done.injEq] at h
          subst h
          simp at herr
        | ok responseList =>
          simp only [hf] at h
          cases hh : handleBatchResult env batch requestList responseList with
          | panic p => simp [hh, returnBatchResult] at h
          | outOfFuel => simp [hh, returnBatchResult] at h
          | done res =>
            obtain ⟨batch1, err⟩ := res
            simp only [hh, returnBatchResult, Run.done.injEq] at h
            subst h
            simp only at herr
            subst herr
            exact ⟨requestList, responseList, hh⟩

/-- The steps of a call of `BatchSyncCall` on a batch with elements that
returns no error: the requests are built from the batch, the responses are
fetched for these requests, and `handleBatchResult` returns no error on
them. -/
theorem BatchSyncCall_nil_steps {α σ : Type} {env : Env α σ} {c : Client} {net : List Body}
    {batch : List (BatchElem α σ)} {out : BatchOutcome α σ}
    (h : c.BatchSyncCall env net batch = Run.done out) (herr : out.err = none)
    (hne : batch ≠ []) :
    ∃ reqs l, buildRequests env c batch = (Except.ok reqs, out.client) ∧
      c.fetchResponses env net reqs = Run.done (out.net, Except.ok l) ∧
      handleBatchResult env batch reqs l = Run.done (out.batch, none) := by
  unfold Client.BatchSyncCall at h
  have h0 : ¬ batch.length = 0 := fun h0 => hne (List.length_eq_zero.mp h0)
  simp only [h0, if_false] at h
  rcases hb : buildRequests env c batch with ⟨r, c1⟩
  cases r with
  | error e =>
    simp only [hb, Run.done.injEq] at h
    subst h
    simp at herr
  | ok requestList =>
    simp only [hb] at h
    cases hf : c.fetchResponses env net requestList with
    | panic p => simp [hf] at h
    | outOfFuel => simp [hf] at h
    | done res =>
      obtain ⟨net1, r⟩ := res
      cases r with
      | error e =>
        simp only [hf, Run.done.injEq] at h
        subst h
        simp at herr
      | ok responseList =>
        simp only [hf] at h
        cases hh : handleBatchResult env batch requestList responseList with
        | panic p => simp [hh, returnBatchResult] at h
        | outOfFuel => simp [hh, returnBatchResult] at h
        | done res =>
          obtain ⟨batch1, err⟩ := res
          simp only [hh, returnBatchResult, Run.done.injEq] at h
          subst h
          simp only at herr
          subst herr
          exact ⟨requestList, responseList, rfl, hf, hh⟩

/-- The request at position `k` of the list `buildRequests` returns is the
message built for the element at position `k`: its method, and its arguments
marshalled. -/
theorem buildRequests_elem {α σ : Type} (env : Env α σ) :
    ∀ (batch : List (BatchElem α σ)) (c c1 : Client) (reqs : List jsonRPCSendMessage),
      buildRequests env c batch = (Except.ok reqs, c1) →
      ∀ (k : Nat) (elem : BatchElem α σ), batch[k]? = some elem →
        ∃ req, reqs[k]? = some req ∧ req.Method = elem.Method ∧
          env.marshal elem.Args = Except.ok req.Params := by
  intro batch
  induction batch with
  | nil => intro c c1 reqs _ k elem hk; simp at hk
  | cons el rest ih =>
    intro c c1 reqs h k elem hk
    unfold buildRequests at h
    rcases hn : c.newMessage env el.Method el.Args with ⟨r, c2⟩
    cases r with
    | error e => simp [hn] at h
    | ok msg =>
      rcases hb : buildRequests env c2 rest with ⟨r2, c3⟩
      cases r2 with
      | error e => simp [hn, hb] at h
      | ok msgs =>
        simp only [hn, hb, Prod.mk.injEq, Except.ok.injEq] at h
        rw [← h.1]
        cases k with
        | zero =>
          simp only [List.getElem?_cons_zero, Option.some.injEq] at hk
          subst hk
          refine ⟨msg, by simp, ?_⟩
          unfold Client.newMessage at hn
          cases hm : env.marshal el.Args with
          | error e => simp [hm] at hn
          | ok params =>
            simp only [hm, Client.nextID, Prod.mk.injEq, Except.ok.injEq] at hn
            rw [← hn.1]
            exact ⟨rfl, rfl⟩
        | succ k =>
          simp only [List.getElem?_cons_succ] at hk ⊢
          exact ih c2 c3 msgs hb k elem hk

/-- C5: whenever `handleBatchResult` returns `nil`, every element of the batch
has `Error == nil` and its slot holds the unmarshalled result of a response
whose id is the id of the element's request, so that of `slot populated` and
`error set` exactly the first holds; and whenever `BatchSyncCall` returns
`nil` on a batch with elements, this holds for the requests it has built from
the batch (request `k` carries the method and the marshalled arguments of
element `k`) and the responses it has fetched for them. -/
theorem handleBatchResult_nil_invariant {α σ : Type} (env : Env α σ)
    (batch : List (BatchElem α σ)) :
    (∀ (reqs : List jsonRPCSendMessage) (l : List (Option jsonRPCReceiveMessage))
        (batch' : List (BatchElem α σ)),
      handleBatchResult env batch reqs l = Run.done (batch', none) →
      batch'.length = batch.length ∧
      ∀ (k : Nat) (elem : BatchElem α σ), batch[k]? = some elem →
        ∃ (req : jsonRPCSendMessage) (res : jsonRPCReceiveMessage) (elem' : BatchElem α σ),
          reqs[k]? = some req ∧ some res ∈ l ∧ ParseUint res.ID = some req.ID ∧
          batch'[k]? = some elem' ∧ elem'.Error = none ∧
          elem'.Result = (env.unmarshal res.Result elem.Result).1 ∧
          Xor' (elem'.Result = (env.unmarshal res.Result elem.Result).1)
            (elem'.Error ≠ none)) ∧
    (∀ (c : Client) (net : List Body) (out : BatchOutcome α σ),
      c.BatchSyncCall env net batch = Run.done out → out.err = none →
      out.batch.length = batch.length ∧
      (batch = [] → out.batch = [] ∧ out.net = net ∧ out.client = c) ∧
      (batch ≠ [] →
        ∃ (reqs : List jsonRPCSendMessage) (l : List (Option jsonRPCReceiveMessage)),
          buildRequests env c batch = (Except.ok reqs, out.client) ∧
          c.fetchResponses env net reqs = Run.done (out.net, Except.ok l) ∧
          ∀ (k : Nat) (elem : BatchElem α σ), batch[k]? = some elem →
            ∃ (req : jsonRPCSendMessage) (res : jsonRPCReceiveMessage)
              (elem' : BatchElem α σ),
              reqs[k]? = some req ∧ req.Method = elem.Method ∧
              env.marshal elem.Args = Except.ok req.Params ∧
              some res ∈ l ∧ ParseUint res.ID = some req.ID ∧
              out.batch[k]? = some elem' ∧ elem'.Error = none ∧
              elem'.Result = (env.unmarshal res.Result elem.Result).1 ∧
              Xor' (elem'.Result = (env.unmarshal res.Result elem.Result).1)
                (elem'.Error ≠ none))) := by
  constructor
  · intro reqs l batch' h
    obtain ⟨hlen, hall⟩ := handleBatchResult_success h
    refine ⟨hlen, fun k elem hk => ?_⟩
    obtain ⟨req, res, h1, h2, h3, _, _, _, h4⟩ := hall k elem hk
    exact ⟨req, res, _, h1, h2, h3, h4, rfl, rfl, Or.inl ⟨rfl, fun hne => hne rfl⟩⟩
  · intro c net out h herr
    refine ⟨?_, ?_, ?_⟩
    · rcases BatchSyncCall_nil h herr with ⟨hb, ho⟩ | ⟨reqs, l, hh⟩
      · rw [hb, ho]
      · exact (handleBatchResult_success hh).1
    · intro hb
      subst hb
      unfold Client.BatchSyncCall at h
      simp only [List.length_nil, if_true, Run.done.injEq] at h
      subst h
      exact ⟨rfl, rfl, rfl⟩
    · intro hne
      obtain ⟨reqs, l, hb, hf, hh⟩ := BatchSyncCall_nil_steps h herr hne
      refine ⟨reqs, l, hb, hf, fun k elem hk => ?_⟩
      obtain ⟨_, hall⟩ := handleBatchResult_success hh
      obtain ⟨req, res, h1, h2, h3, _, _, _, h4⟩ := hall k elem hk
      obtain ⟨req2, g1, g2, g3⟩ := buildRequests_elem env batch c out.client reqs hb k elem hk
      rw [h1, Option.some.injEq] at g1
      subst g1
      exact ⟨req, res, _, h1, g2, g3, h2, h3, h4, rfl, rfl, Or.inl ⟨rfl, fun hne => hne rfl⟩⟩

/-- C5, instance: `handleBatchResult` on the two results, and the whole
`BatchSyncCall` against a node that answers with them: two requests with the
ids 1 and 2 are built and posted in one body, both slots are filled from the
results with these ids, and no element has an error. -/
theorem handleBatchResult_nil_invariant_witness :
    (handleBatchResult sampleEnv sampleBatch sampleRequests sampleResponses =
        Run.done (sampleBatchDone, none) ∧
      sampleBatchDone.map (fun elem => (elem.Result, elem.Error)) =
        [(some "ra", none), (some "rb", none)]) ∧
    ∃ out : BatchOutcome String (Option String),
      Client.BatchSyncCall sampleLive ⟨"2.0", 0, false, 0⟩ [] sampleBatch = Run.done out ∧
      out.err = none ∧ out.net = [Body.batch sampleRequests] ∧
      out.batch.map (fun elem => (elem.Result, elem.Error)) =
        [(some "ra", none), (some "rb", none)] ∧
      ∃ (reqs : List jsonRPCSendMessage) (l : List (Option jsonRPCReceiveMessage)),
        buildRequests sampleLive ⟨"2.0", 0, false, 0⟩ sampleBatch =
          (Except.ok reqs, out.client) ∧
        Client.fetchResponses sampleLive ⟨"2.0", 0, false, 0⟩ [] reqs =
          Run.done (out.net, Except.ok l) ∧
        ∀ (k : Nat) (elem : BatchElem String (Option String)), sampleBatch[k]? = some elem →
          ∃ (req : jsonRPCSendMessage) (res : jsonRPCReceiveMessage)
            (elem' : BatchElem String (Option String)),
            reqs[k]? = some req ∧ req.Method = elem.Method ∧
            sampleLive.marshal elem.Args = Except.ok req.Params ∧
            some res ∈ l ∧ ParseUint res.ID = some req.ID ∧
            out.batch[k]? = some elem' ∧ elem'.Error = none ∧
            elem'.Result = (sampleLive.unmarshal res.Result elem.Result).1 ∧
            Xor' (elem'.Result = (sampleLive.unmarshal res.Result elem.Result).1)
              (elem'.Error ≠ none) :=
  ⟨⟨rfl, rfl⟩,
    ⟨⟨"2.0", 2, false, 0⟩, [Body.batch sampleRequests], sampleBatchDone, none⟩, rfl, rfl, rfl,
    rfl,
    ((handleBatchResult_nil_invariant sampleLive sampleBatch).2 ⟨"2.0", 0, false, 0⟩ []
      ⟨⟨"2.0", 2, false, 0⟩, [Body.batch sampleRequests], sampleBatchDone, none⟩ rfl rfl).2.2
      (by simp [sampleBatch])⟩

/-- Elements behind the position where the loop returned are as they were. -/
theorem getElem?_of_drop_eq {β : Type} {l1 l2 : List β} {i : Nat}
    (h : l1.drop (i + 1) = l2.drop (i + 1)) (k : Nat) (hk : i < k) : l1[k]? = l2[k]? := by
  have h1 := List.getElem?_drop l1 (i + 1) (k - (i + 1))
  have h2 := List.getElem?_drop l2 (i + 1) (k - (i + 1))
  have hk2 : i + 1 + (k - (i + 1)) = k := by omega
  rw [hk2] at h1 h2
  rw [← h1, ← h2, h]

/-- C8: fail-fast frame. When `handleBatchResult` returns an error from the
loop, there is an element `i` whose body returned that error; every element
behind `i` is unmodified, and every element before `i` has `Error == nil` and
its slot filled from the response bound to its request id. -/
theorem handleBatchResult_fail_fast {α σ : Type} (env : Env α σ)
    (batch : List (BatchElem α σ)) (reqs : List jsonRPCSendMessage)
    (l : List (Option jsonRPCReceiveMessage)) (m : ResponseMap)
    (batch' : List (BatchElem α σ)) (err : GoError)
    (hm : getResponseMap l = Run.done (Except.ok m))
    (h : handleBatchResult env batch reqs l = Run.done (batch', some err)) :
    ∃ (i : Nat) (elem : BatchElem α σ) (req : jsonRPCSendMessage),
      batch[i]? = some elem ∧ reqs[i]? = some req ∧
      (handleElem env m elem req).2 = some err ∧
      batch'[i]? = some (handleElem env m elem req).1 ∧
      batch'.drop (i + 1) = batch.drop (i + 1) ∧
      (∀ k : Nat, i < k → batch'[k]? = batch[k]?) ∧
      ∀ k : Nat, k < i →
        ∃ (el : BatchElem α σ) (rq : jsonRPCSendMessage) (res : jsonRPCReceiveMessage)
          (el' : BatchElem α σ),
          batch[k]? = some el ∧ reqs[k]? = some rq ∧ m rq.ID = some (some res) ∧
          batch'[k]? = some el' ∧ el'.Error = none ∧
          el'.Result = (env.unmarshal res.Result el.Result).1 := by
  unfold handleBatchResult at h
  simp only [hm] at h
  obtain ⟨n, _, _, hpre, _, hsome⟩ := handleBatchLoop_done env m batch reqs batch' _ h
  obtain ⟨elem, req, h1, h2, h3, h4, h5⟩ := hsome err rfl
  refine ⟨n, elem, req, h1, h2, h3, h4, h5, getElem?_of_drop_eq h5, fun k hk => ?_⟩
  obtain ⟨el, rq, g1, g2, g3, g4⟩ := hpre k hk
  obtain ⟨res, hres, _, _, _, hval⟩ := handleElem_ok g3
  exact ⟨el, rq, res, _, g1, g2, hres, g4, by rw [hval], by rw [hval]⟩

/-- C8, instance: three elements, the response of the second carries an error
object. -/
theorem handleBatchResult_fail_fast_witness :
    ∃ (i : Nat) (elem : BatchElem String (Option String)) (req : jsonRPCSendMessage),
      sampleBatch3[i]? = some elem ∧ sampleRequests3[i]? = some req ∧
      (handleElem sampleEnv sampleMap3 elem req).2 = some sampleError3 ∧
      sampleBatch3Done[i]? = some (handleElem sampleEnv sampleMap3 elem req).1 ∧
      sampleBatch3Done.drop (i + 1) = sampleBatch3.drop (i + 1) ∧
      (∀ k : Nat, i < k → sampleBatch3Done[k]? = sampleBatch3[k]?) ∧
      ∀ k : Nat, k < i →
        ∃ (el : BatchElem String (Option String)) (rq : jsonRPCSendMessage)
          (res : jsonRPCReceiveMessage) (el' : BatchElem String (Option String)),
          sampleBatch3[k]? = some el ∧ sampleRequests3[k]? = some rq ∧
          sampleMap3 rq.ID = some (some res) ∧
          sampleBatch3Done[k]? = some el' ∧ el'.Error = none ∧
          el'.Result = (sampleEnv.unmarshal res.Result el.Result).1 :=
  handleBatchResult_fail_fast sampleEnv sampleBatch3 sampleRequests3 sampleResponses3
    sampleMap3 sampleBatch3Done sampleError3 rfl rfl

/-- The function run forward: the map is built, the bodies of the elements
before `n` let the loop go on, and the body of element `n` returns an
error. -/
theorem handleBatchResult_fail_at {α σ : Type} {env : Env α σ}
    {batch : List (BatchElem α σ)} {reqs : List jsonRPCSendMessage}
    {l : List (Option jsonRPCReceiveMessage)} {m : ResponseMap} {n : Nat}
    {elem : BatchElem α σ} {req : jsonRPCSendMessage} {e : GoError}
    (hm : getResponseMap l = Run.done (Except.ok m))
    (hb : batch[n]? = some elem) (hr : reqs[n]? = some req)
    (hpre : ∀ k, k < n → ∀ el rq, batch[k]? = some el → reqs[k]? = some rq →
      (handleElem env m el rq).2 = none)
    (hf : (handleElem env m elem req).2 = some e) :
    ∃ batch', handleBatchResult env batch reqs l = Run.done (batch', some e) ∧
      batch'.length = batch.length ∧
      batch'[n]? = some (handleElem env m elem req).1 ∧
      batch'.drop (n + 1) = batch.drop (n + 1) := by
  obtain ⟨b1, h1, h2, h3, h4, _⟩ := handleBatchLoop_fail env m n batch reqs elem req e hb hr hpre hf
  exact ⟨b1, by simp only [handleBatchResult, hm, h1], h2, h3, h4⟩

/-- The error `not found response` is out of reach: `handleBatchResult` never
returns it, whatever the batch, the requests and the responses. -/
theorem handleBatchResult_never_not_found_response {α σ : Type} (env : Env α σ)
    (batch : List (BatchElem α σ)) (reqs : List jsonRPCSendMessage)
    (l : List (Option jsonRPCReceiveMessage)) (batch' : List (BatchElem α σ))
    (r : Option GoError) (h : handleBatchResult env batch reqs l = Run.done (batch', r)) :
    r ≠ some (GoError.new "not found response") := by
  unfold handleBatchResult at h
  cases hm : getResponseMap l with
  | panic p => simp [hm] at h
  | outOfFuel => simp [hm] at h
  | done res =>
    cases res with
    | error e =>
      simp only [hm, Run.done.injEq, Prod.mk.injEq] at h
      rw [← h.2]
      unfold getResponseMap at hm
      intro hc
      have : ∀ (l : List (Option jsonRPCReceiveMessage)) (m0 : ResponseMap) (e : GoError),
          getResponseMapLoop l m0 = Run.done (Except.error e) →
          e ≠ GoError.new "not found response" := by
        intro l
        induction l with
        | nil => intro m0 e h; simp [getResponseMapLoop] at h
        | cons x rest ih =>
          intro m0 e h
          cases x with
          | none => simp [getResponseMapLoop] at h
          | some q =>
            cases hq : ParseUint q.ID with
            | none =>
              simp only [getResponseMapLoop, hq, Run.done.injEq, Except.error.injEq] at h
              rw [← h]
              simp
            | some k =>
              simp only [getResponseMapLoop, hq] at h
              exact ih _ _ h
      exact this l _ e hm (Option.some.inj hc)
    | ok m =>
      simp only [hm] at h
      obtain ⟨n, _, _, _, _, hsome⟩ := handleBatchLoop_done env m batch reqs batch' r h
      intro hc
      obtain ⟨elem, req, _, _, h3, _⟩ := hsome _ hc
      have hnil := getResponseMap_no_nil hm req.ID
      unfold handleElem at h3
      cases hmr : m req.ID with
      | none => simp [hmr] at h3
      | some o =>
        cases o with
        | none => exact hnil hmr
        | some res =>
          cases he : res.Error with
          | some je => simp [hmr, he] at h3
          | none =>
            by_cases hl : res.Result.length = 0
            · simp [hmr, he, hl] at h3
            · simp only [hmr, he, hl, if_false] at h3
              cases hu : (env.unmarshal res.Result elem.Result).2 with
              | none => simp [hu, WithStack] at h3
              | some e => simp [hu, WithStack] at h3

/-- The loop of `getResponseMap` builds a map exactly from the lists without
a `nil` entry whose ids all parse. -/
theorem getResponseMapLoop_ok_iff :
    ∀ (l : List (Option jsonRPCReceiveMessage)) (m0 : ResponseMap),
      (∃ m, getResponseMapLoop l m0 = Run.done (Except.ok m)) ↔
        ∀ x ∈ l, ∃ r, x = some r ∧ ParseUint r.ID ≠ none := by
  intro l
  induction l with
  | nil => intro m0; simp [getResponseMapLoop]
  | cons x rest ih =>
    intro m0
    cases x with
    | none =>
      simp only [getResponseMapLoop, reduceCtorEq, exists_false, false_iff]
      intro h
      obtain ⟨r, hr, -⟩ := h none (List.mem_cons_self _ _)
      simp at hr
    | some q =>
      cases hq : ParseUint q.ID with
      | none =>
        simp only [getResponseMapLoop, hq, Run.done.injEq, reduceCtorEq, exists_false,
          false_iff]
        intro h
        obtain ⟨r, hr, hp⟩ := h (some q) (List.mem_cons_self _ _)
        simp only [Option.some.injEq] at hr
        subst hr
        exact hp hq
      | some n =>
        simp only [getResponseMapLoop, hq]
        rw [ih, List.forall_mem_cons]
        constructor
        · intro h
          exact ⟨⟨q, rfl, by rw [hq]; simp⟩, h⟩
        · intro h
          exact h.2

/-- The function `getResponseMap` builds a map exactly from the response lists
without a `nil` entry whose ids all parse as a decimal `uint64`. -/
theorem getResponseMap_ok_iff (l : List (Option jsonRPCReceiveMessage)) :
    (∃ m, getResponseMap l = Run.done (Except.ok m)) ↔
      ∀ x ∈ l, ∃ r, x = some r ∧ ParseUint r.ID ≠ none :=
  getResponseMapLoop_ok_iff l _

/-- When `getResponseMap` fails on an id, `handleBatchResult` returns its
error and touches no element. -/
theorem handleBatchResult_parse_error {α σ : Type} (env : Env α σ)
    (batch : List (BatchElem α σ)) (reqs : List jsonRPCSendMessage)
    (l : List (Option jsonRPCReceiveMessage)) (e : GoError)
    (hm : getResponseMap l = Run.done (Except.error e)) :
    handleBatchResult env batch reqs l = Run.done (batch, some e) := by
  simp only [handleBatchResult, hm]

/-- C7, as the code has it: when `getResponseMap` has built the map `m` from
the response list (no entry of the list is `nil` and every id is a decimal
`uint64`), every element before element `n` is processed without error and
the id of request `n` is the id of no response, `handleBatchResult` returns
the error `can not found result, ...` for that request, and leaves element
`n` (its `Error` and its slot) and every later element as they were. -/
theorem handleBatchResult_missing_response {α σ : Type} (env : Env α σ)
    (batch : List (BatchElem α σ)) (reqs : List jsonRPCSendMessage)
    (l : List (Option jsonRPCReceiveMessage)) (m : ResponseMap) (n : Nat)
    (elem : BatchElem α σ) (req : jsonRPCSendMessage)
    (hm : getResponseMap l = Run.done (Except.ok m))
    (hb : batch[n]? = some elem) (hr : reqs[n]? = some req)
    (hpre : ∀ k, k < n → ∀ el rq, batch[k]? = some el → reqs[k]? = some rq →
      (handleElem env m el rq).2 = none)
    (hmiss : ∀ r, some r ∈ l → ParseUint r.ID ≠ some req.ID) :
    ∃ batch', handleBatchResult env batch reqs l = Run.done (batch', some (missingError req)) ∧
      batch'[n]? = some elem ∧ batch'.drop (n + 1) = batch.drop (n + 1) ∧
      missingError req ≠ GoError.new "not found response" := by
  have hnone := getResponseMap_absent hm req.ID hmiss
  have hel : handleElem env m elem req = (elem, some (missingError req)) := by
    simp [handleElem, hnone, missingError]
  obtain ⟨b1, h1, _, h3, h4⟩ :=
    handleBatchResult_fail_at hm hb hr hpre (e := missingError req) (by rw [hel])
  rw [hel] at h3
  exact ⟨b1, h1, h3, h4, by simp [missingError]⟩

/-- C7, instance: no response for the first request of `sampleRequests`. -/
theorem handleBatchResult_missing_response_witness :
    ∃ batch', handleBatchResult sampleEnv sampleBatch sampleRequests sampleResponsesMissing =
        Run.done (batch', some (missingError (sampleRequest 1 "getrawtransaction" "[\"a\",1]"))) ∧
      batch'[0]? = some (sampleElem "getrawtransaction" "[\"a\",1]") ∧
      batch'.drop (0 + 1) = sampleBatch.drop (0 + 1) ∧
      missingError (sampleRequest 1 "getrawtransaction" "[\"a\",1]") ≠
        GoError.new "not found response" :=
  handleBatchResult_missing_response sampleEnv sampleBatch sampleRequests
    sampleResponsesMissing sampleMapMissing 0 _ _ rfl rfl rfl
    (fun k hk => absurd hk (Nat.not_lt_zero k))
    (fun r hr => by
      simp only [sampleResponsesMissing, sampleFailure, List.mem_singleton,
        Option.some.injEq] at hr
      subst hr
      decide)

/-- C7 fails as stated: the id of the first request occurs in no response, the
call returns the error `can not found result, ...`, and the `Error` of the
element is still `nil`, not `not found response`. -/
theorem handleBatchResult_missing_response_counterexample :
    handleBatchResult sampleEnv sampleBatch sampleRequests sampleResponsesMissing =
      Run.done (sampleBatch,
        some (missingError (sampleRequest 1 "getrawtransaction" "[\"a\",1]"))) ∧
    sampleBatch[0]? = some (sampleElem "getrawtransaction" "[\"a\",1]") ∧
    (sampleElem "getrawtransaction" "[\"a\",1]").Error ≠
      some (GoError.new "not found response") :=
  ⟨rfl, rfl, by simp [sampleElem]⟩

/-- C9, as the code has it: when every element before element `n` is processed
without error and the response bound to the id of request `n` carries an
error object or has an empty result, `handleBatchResult` sets the `Error` of
element `n` to the wrapped error object, respectively to `not found`, returns
that same error, leaves the slot of the element unwritten and the later
elements as they were. -/
theorem handleBatchResult_error_response {α σ : Type} (env : Env α σ)
    (batch : List (BatchElem α σ)) (reqs : List jsonRPCSendMessage)
    (l : List (Option jsonRPCReceiveMessage)) (m : ResponseMap) (n : Nat)
    (elem : BatchElem α σ) (req : jsonRPCSendMessage) (res : jsonRPCReceiveMessage)
    (hm : getResponseMap l = Run.done (Except.ok m))
    (hb : batch[n]? = some elem) (hr : reqs[n]? = some req)
    (hpre : ∀ k, k < n → ∀ el rq, batch[k]? = some el → reqs[k]? = some rq →
      (handleElem env m el rq).2 = none)
    (hres : m req.ID = some (some res))
    (hbad : res.Error ≠ none ∨ res.Result.length = 0) :
    ∃ batch' e, handleBatchResult env batch reqs l = Run.done (batch', some e) ∧
      e = (match res.Error with
        | some je => GoError.withStack (GoError.jsonError je.Code je.Message)
        | none => GoError.new "not found") ∧
      batch'[n]? = some { elem with Error := some e } ∧
      batch'.drop (n + 1) = batch.drop (n + 1) := by
  cases he : res.Error with
  | some je =>
    have hel : handleElem env m elem req =
        ({ elem with Error := some (GoError.withStack (GoError.jsonError je.Code je.Message)) },
          some (GoError.withStack (GoError.jsonError je.Code je.Message))) := by
      simp [handleElem, hres, he]
    obtain ⟨b1, h1, _, h3, h4⟩ := handleBatchResult_fail_at hm hb hr hpre
      (e := GoError.withStack (GoError.jsonError je.Code je.Message)) (by rw [hel])
    rw [hel] at h3
    exact ⟨b1, _, h1, rfl, h3, h4⟩
  | none =>
    have hl : res.Result.length = 0 := by
      rcases hbad with h | h
      · exact absurd he h
      · exact h
    have hel : handleElem env m elem req =
        ({ elem with Error := some (GoError.new "not found") },
          some (GoError.new "not found")) := by
      simp [handleElem, hres, he, hl]
    obtain ⟨b1, h1, _, h3, h4⟩ := handleBatchResult_fail_at hm hb hr hpre
      (e := GoError.new "not found") (by rw [hel])
    rw [hel] at h3
    exact ⟨b1, _, h1, rfl, h3, h4⟩

/-- C9, instance: in `sampleResponses3` the response to the second request
carries an error object, and the first element is processed without error. -/
theorem handleBatchResult_error_response_witness :
    ∃ batch' e, handleBatchResult sampleEnv sampleBatch3 sampleRequests3 sampleResponses3 =
        Run.done (batch', some e) ∧
      e = sampleError3 ∧
      batch'[1]? = some { sampleElem "getrawtransaction" "[\"b\",1]" with Error := some e } ∧
      batch'.drop (1 + 1) = sampleBatch3.drop (1 + 1) :=
  handleBatchResult_error_response sampleEnv sampleBatch3 sampleRequests3 sampleResponses3
    sampleMap3 1 (sampleElem "getrawtransaction" "[\"b\",1]")
    (sampleRequest 2 "getrawtransaction" "[\"b\",1]")
    ⟨"2.0", "2", "", some ⟨-5, "No such transaction"⟩, 2⟩ rfl rfl rfl
    (fun k hk el rq h1 h2 => by
      have hk0 : k = 0 := by omega
      subst hk0
      simp only [sampleBatch3, sampleRequests3, List.getElem?_cons_zero,
        Option.some.injEq] at h1 h2
      subst h1 h2
      rfl)
    rfl (Or.inl (by simp))

/-- C9 fails as stated: in `sampleResponsesMissing` the first request has no
response and the response to the second carries an error object; the second
element is the first one whose response is present with an error object, yet
the call returns the error of the first request and the `Error` of the second
element is still `nil`. -/
theorem handleBatchResult_error_response_counterexample :
    getResponseMap sampleResponsesMissing = Run.done (Except.ok sampleMapMissing) ∧
    sampleMapMissing 1 = none ∧
    sampleMapMissing 2 = some (some ⟨"2.0", "2", "", some ⟨-5, "No such transaction"⟩, 2⟩) ∧
    handleBatchResult sampleEnv sampleBatch sampleRequests sampleResponsesMissing =
      Run.done ([sampleElem "getrawtransaction" "[\"a\",1]",
          sampleElem "getrawtransaction" "[\"b\",1]"],
        some (missingError (sampleRequest 1 "getrawtransaction" "[\"a\",1]"))) ∧
    (sampleElem "getrawtransaction" "[\"b\",1]").Error = none ∧
    missingError (sampleRequest 1 "getrawtransaction" "[\"a\",1]") ≠ sampleError3 :=
  ⟨rfl, rfl, rfl, rfl, rfl, by simp [missingError, sampleError3]⟩

/-- The loop of `getResponseMap` returns when no response pointer is `nil`. -/
theorem getResponseMapLoop_returns :
    ∀ (l : List (Option jsonRPCReceiveMessage)) (m0 : ResponseMap),
      (∀ r ∈ l, r ≠ none) → ∃ res, getResponseMapLoop l m0 = Run.done res := by
  intro l
  induction l with
  | nil => intro m0 _; exact ⟨_, rfl⟩
  | cons x rest ih =>
    intro m0 h
    cases x with
    | none => exact absurd rfl (h none (List.mem_cons_self _ _))
    | some r =>
      cases hr : ParseUint r.ID with
      | none => exact ⟨_, by simp only [getResponseMapLoop, hr]; rfl⟩
      | some n =>
        obtain ⟨res, hres⟩ := ih (m0.set n (some { r with id := n }))
          (fun q hq => h q (List.mem_cons_of_mem _ hq))
        exact ⟨res, by simp only [getResponseMapLoop, hr, hres]⟩

/-- The correlation loop returns when there is a request for every element. -/
theorem handleBatchLoop_returns {α σ : Type} (env : Env α σ) (m : ResponseMap) :
    ∀ (batch : List (BatchElem α σ)) (reqs : List jsonRPCSendMessage),
      batch.length ≤ reqs.length → ∃ res, handleBatchLoop env m batch reqs = Run.done res := by
  intro batch
  induction batch with
  | nil => intro reqs _; exact ⟨_, rfl⟩
  | cons elem batch ih =>
    intro reqs h
    cases reqs with
    | nil => simp at h
    | cons req reqs =>
      rcases hb : handleElem env m elem req with ⟨elem1, oe⟩
      cases oe with
      | some e => exact ⟨_, by simp only [handleBatchLoop, hb]; rfl⟩
      | none =>
        obtain ⟨res, hres⟩ := ih reqs (by simpa using h)
        obtain ⟨batch1, err⟩ := res
        exact ⟨_, by simp only [handleBatchLoop, hb, hres]; rfl⟩

/-- C6, as the code has it: with a request for every element and no `nil`
response pointer `handleBatchResult` returns, and after it a prefix of `n`
elements has `Error == nil` and the slot filled from a response, every
element behind position `n` is as it was before the call, and without a
returned error the prefix is the whole batch. -/
theorem handleBatchResult_slots {α σ : Type} (env : Env α σ)
    (batch : List (BatchElem α σ)) (reqs : List jsonRPCSendMessage)
    (l : List (Option jsonRPCReceiveMessage))
    (hreq : batch.length ≤ reqs.length) (hnil : ∀ r ∈ l, r ≠ none) :
    ∃ (batch' : List (BatchElem α σ)) (r : Option GoError) (n : Nat),
      handleBatchResult env batch reqs l = Run.done (batch', r) ∧
      n ≤ batch.length ∧ batch'.length = batch.length ∧
      (r = none → n = batch.length) ∧
      (∀ k : Nat, k < n →
        ∃ (el : BatchElem α σ) (res : jsonRPCReceiveMessage) (el' : BatchElem α σ),
          batch[k]? = some el ∧ some res ∈ l ∧ batch'[k]? = some el' ∧ el'.Error = none ∧
          el'.Result = (env.unmarshal res.Result el.Result).1) ∧
      (∀ k : Nat, n < k → batch'[k]? = batch[k]?) := by
  obtain ⟨res, hm⟩ := getResponseMapLoop_returns l (fun _ => none) hnil
  cases res with
  | error e =>
    refine ⟨batch, some e, 0, ?_, Nat.zero_le _, rfl, fun h0 => by simp at h0,
      fun k hk => absurd hk (Nat.not_lt_zero k), fun _ _ => rfl⟩
    simp only [handleBatchResult, getResponseMap, hm]
  | ok m =>
    obtain ⟨res2, h⟩ := handleBatchLoop_returns env m batch reqs hreq
    obtain ⟨batch', r⟩ := res2
    obtain ⟨n, hn, hlen, hpre, hnone, hsome⟩ :=
      handleBatchLoop_done env m batch reqs batch' r h
    refine ⟨batch', r, n, ?_, hn, hlen, hnone, fun k hk => ?_, fun k hk => ?_⟩
    · simp only [handleBatchResult, getResponseMap, hm, h]
    · obtain ⟨el, rq, g1, _, g3, g4⟩ := hpre k hk
      obtain ⟨res, hres, _, _, _, hval⟩ := handleElem_ok g3
      rcases getResponseMap_lookup hm rq.ID with h0 | ⟨q, hq, _, hmq⟩
      · rw [h0] at hres
        exact absurd hres (by simp)
      · rw [hmq, Option.some.injEq, Option.some.injEq] at hres
        subst hres
        exact ⟨el, q, _, g1, hq, g4, by rw [hval], by rw [hval]⟩
    · cases r with
      | none =>
        have hk1 : batch.length ≤ k := by have := hnone rfl; omega
        rw [List.getElem?_eq_none hk1, List.getElem?_eq_none (by omega)]
      | some e =>
        obtain ⟨_, _, _, _, _, _, h5⟩ := hsome e rfl
        exact getElem?_of_drop_eq h5 k hk

/-- C6, instance: `sampleBatch3` with `sampleResponses3`. -/
theorem handleBatchResult_slots_witness :
    ∃ (batch' : List (BatchElem String (Option String))) (r : Option GoError) (n : Nat),
      handleBatchResult sampleEnv sampleBatch3 sampleRequests3 sampleResponses3 =
        Run.done (batch', r) ∧
      n ≤ sampleBatch3.length ∧ batch'.length = sampleBatch3.length ∧
      (r = none → n = sampleBatch3.length) ∧
      (∀ k : Nat, k < n →
        ∃ (el : BatchElem String (Option String)) (res : jsonRPCReceiveMessage)
          (el' : BatchElem String (Option String)),
          sampleBatch3[k]? = some el ∧ some res ∈ sampleResponses3 ∧
          batch'[k]? = some el' ∧ el'.Error = none ∧
          el'.Result = (sampleEnv.unmarshal res.Result el.Result).1) ∧
      (∀ k : Nat, n < k → batch'[k]? = sampleBatch3[k]?) :=
  handleBatchResult_slots sampleEnv sampleBatch3 sampleRequests3 sampleResponses3
    (by decide) (by decide)

/-- C6 fails as stated: the responses of `sampleResponses3` were received and
decoded, the call returns the error of the second element, and the third
element is untouched: its slot is still empty and its `Error` is `nil`. -/
theorem handleBatchResult_slots_counterexample :
    handleBatchResult sampleEnv sampleBatch3 sampleRequests3 sampleResponses3 =
      Run.done ([⟨"getrawtransaction", "[\"a\",1]", some "ra", none⟩,
          ⟨"getrawtransaction", "[\"b\",1]", none, some sampleError3⟩,
          ⟨"getrawtransaction", "[\"c\",1]", none, none⟩], some sampleError3) ∧
    sampleBatch3[2]? = some ⟨"getrawtransaction", "[\"c\",1]", none, none⟩ :=
  ⟨rfl, rfl⟩

/-! ## Batch splitting -/

theorem buildRequests_length {α σ : Type} (env : Env α σ) :
    ∀ (batch : List (BatchElem α σ)) (c c1 : Client) (reqs : List jsonRPCSendMessage),
      buildRequests env c batch = (Except.ok reqs, c1) → reqs.length = batch.length := by
  intro batch
  induction batch with
  | nil =>
    intro c c1 reqs h
    simp only [buildRequests, Prod.mk.injEq, Except.ok.injEq] at h
    rw [← h.1]
    rfl
  | cons elem rest ih =>
    intro c c1 reqs h
    unfold buildRequests at h
    rcases hm : c.newMessage env elem.Method elem.Args with ⟨r, c2⟩
    cases r with
    | error e => simp [hm] at h
    | ok msg =>
      simp only [hm] at h
      rcases hb : buildRequests env c2 rest with ⟨r2, c3⟩
      cases r2 with
      | error e => simp [hb] at h
      | ok msgs =>
        simp only [hb, Prod.mk.injEq, Except.ok.injEq] at h
        rw [← h.1, List.length_cons, List.length_cons, ih c2 c3 msgs hb]

/-- A sub-request is the next `C` requests, as far as there are that many. -/
theorem subRequest_eq (reqs : List jsonRPCSendMessage) (C k : Nat) :
    subRequest reqs C k = (reqs.drop (k * C)).take C := by
  unfold subRequest
  rw [Nat.succ_mul]
  by_cases h : k * C + C ≤ reqs.length
  · rw [Nat.min_eq_left h, Nat.add_sub_cancel_left]
  · rw [Nat.min_eq_right (by omega)]
    rw [List.take_of_length_le (by simp), List.take_of_length_le (by simp; omega)]

/-- Below `ceil(N/C)` every sub-request starts inside the request list. -/
theorem subRequest_start {N C k : Nat} (hC : 0 < C) (hk : k < (N + C - 1) / C) :
    k * C < N := by
  have h1 : (k + 1) * C ≤ N + C - 1 := (Nat.le_div_iff_mul_le hC).mp hk
  rw [Nat.succ_mul] at h1
  omega

theorem subRequest_length (reqs : List jsonRPCSendMessage) {C k : Nat} (hC : 0 < C)
    (hk : k < (reqs.length + C - 1) / C) :
    1 ≤ (subRequest reqs C k).length ∧ (subRequest reqs C k).length ≤ C := by
  have h := subRequest_start hC hk
  rw [subRequest_eq, List.length_take, List.length_drop]
  omega

theorem subRequest_flatten (reqs : List jsonRPCSendMessage) (C : Nat) :
    ∀ (r k0 : Nat), ((List.range' k0 r).map (subRequest reqs C)).flatten =
      (reqs.drop (k0 * C)).take (r * C) := by
  intro r
  induction r with
  | zero => intro k0; simp
  | succ r ih =>
    intro k0
    rw [List.range'_succ, List.map_cons, List.flatten_cons, ih (k0 + 1), subRequest_eq,
      Nat.succ_mul r C, Nat.add_comm (r * C) C, List.take_add, List.drop_drop, Nat.succ_mul]

/-- The splitting loop entered at the `k0`-th slice with enough fuel, when no
post and no decoding fails: it posts the slices `k0`, `k0+1`, ... up to the
end of the request list, and returns. -/
theorem splitLoop_posts {α σ : Type} (env : Env α σ) (reqs : List jsonRPCSendMessage)
    (C : Nat) (hC : 0 < C)
    (hnet : ∀ h b, ∃ buf rs, env.server h b = Except.ok buf ∧ env.decode buf = some rs) :
    ∀ (fuel k0 : Nat) (net : List Body) (resp : List (Option jsonRPCReceiveMessage)),
      k0 * C < reqs.length → reqs.length - k0 * C ≤ fuel →
      ∃ resps, splitLoop env reqs C reqs.length fuel (k0 * C) (k0 * C + C) net resp =
        Run.done (net ++ (List.range' k0 ((reqs.length - k0 * C + C - 1) / C)).map
          (fun k => Body.batch (subRequest reqs C k)), Except.ok resps) := by
  intro fuel
  induction fuel with
  | zero => intro k0 net resp h1 h2; omega
  | succ fuel ih =>
    intro k0 net resp h1 h2
    obtain ⟨buf, rs, hs, hd⟩ := hnet net (Body.batch (subRequest reqs C k0))
    have hj : (if reqs.length < k0 * C + C then reqs.length else k0 * C + C) =
        min ((k0 + 1) * C) reqs.length := by
      rw [Nat.succ_mul]
      split <;> omega
    have hslice : goSlice reqs (k0 * C) (min ((k0 + 1) * C) reqs.length) =
        Run.done (subRequest reqs C k0) := by
      unfold goSlice subRequest
      rw [if_pos]
      rw [Nat.succ_mul]
      omega
    unfold splitLoop
    simp only [hj, hslice, batchSyncRequest, hs, hd]
    by_cases hlast : k0 * C + C ≥ reqs.length
    · rw [if_pos hlast]
      have hr : (reqs.length - k0 * C + C - 1) / C = 1 :=
        Nat.div_eq_of_lt_le (by omega) (by omega)
      exact ⟨resp ++ rs, by rw [hr]; rfl⟩
    · rw [if_neg hlast]
      have hmin : min ((k0 + 1) * C) reqs.length = (k0 + 1) * C := by
        rw [Nat.succ_mul]
        omega
      have hk1 : (k0 + 1) * C < reqs.length := by
        rw [Nat.succ_mul]
        omega
      have hf : reqs.length - (k0 + 1) * C ≤ fuel := by
        rw [Nat.succ_mul]
        omega
      obtain ⟨resps, hrec⟩ := ih (k0 + 1) (net ++ [Body.batch (subRequest reqs C k0)])
        (resp ++ rs) hk1 hf
      have hr : (reqs.length - k0 * C + C - 1) / C =
          (reqs.length - (k0 + 1) * C + C - 1) / C + 1 := by
        rw [← Nat.add_div_right _ hC]
        congr 1
        rw [Nat.succ_mul]
        omega
      refine ⟨resps, ?_⟩
      rw [hmin, Nat.succ_mul k0 C] at *
      rw [hrec, hr, List.range'_succ, List.map_cons, List.append_assoc]
      rfl

/-- C4: batch splitting. With the cap `C = maxBatchNum > 0` enabled, a batch
of `N > C` elements whose requests are built, and no failing post or
decoding, `BatchSyncCall` posts exactly `ceil(N/C)` sub-requests one after
the other, the `k`-th being `requestList[k*C : min((k+1)*C, N)]`, and then
runs `handleBatchResult` on the collected responses; every sub-request has
between 1 and `C` elements, the sub-requests concatenated are the request
list, and for `N = 12`, `C = 5` their sizes are 5, 5, 2. -/
theorem BatchSyncCall_split {α σ : Type} (env : Env α σ) (c c1 : Client) (net : List Body)
    (batch : List (BatchElem α σ)) (requestList : List jsonRPCSendMessage)
    (hcap : c.enableMaxBatch = true) (hC : 0 < c.maxBatchNum)
    (hN : c.maxBatchNum < (batch.length : Int))
    (hreq : buildRequests env c batch = (Except.ok requestList, c1))
    (hnet : ∀ h b, ∃ buf rs, env.server h b = Except.ok buf ∧ env.decode buf = some rs) :
    ∃ responseList,
      c.fetchResponses env net requestList =
        Run.done (net ++
          (List.range ((requestList.length + c.maxBatchNum.toNat - 1) / c.maxBatchNum.toNat)).map
            (fun k => Body.batch (subRequest requestList c.maxBatchNum.toNat k)),
          Except.ok responseList) ∧
      c.BatchSyncCall env net batch =
        returnBatchResult c1
          (net ++
            (List.range
              ((requestList.length + c.maxBatchNum.toNat - 1) / c.maxBatchNum.toNat)).map
              (fun k => Body.batch (subRequest requestList c.maxBatchNum.toNat k)))
          (handleBatchResult env batch requestList responseList) ∧
      requestList.length = batch.length ∧
      (∀ k : Nat,
        k < (requestList.length + c.maxBatchNum.toNat - 1) / c.maxBatchNum.toNat →
        1 ≤ (subRequest requestList c.maxBatchNum.toNat k).length ∧
        ((subRequest requestList c.maxBatchNum.toNat k).length : Int) ≤ c.maxBatchNum) ∧
      ((List.range
        ((requestList.length + c.maxBatchNum.toNat - 1) / c.maxBatchNum.toNat)).map
        (subRequest requestList c.maxBatchNum.toNat)).flatten = requestList ∧
      (batch.length = 12 → c.maxBatchNum = 5 →
        (List.range
          ((requestList.length + c.maxBatchNum.toNat - 1) / c.maxBatchNum.toNat)).map
          (fun k => (subRequest requestList c.maxBatchNum.toNat k).length) = [5, 5, 2]) := by
  have hlen := buildRequests_length env batch c c1 requestList hreq
  have hCn : (c.maxBatchNum.toNat : Int) = c.maxBatchNum := Int.toNat_of_nonneg (le_of_lt hC)
  generalize hCdef : c.maxBatchNum.toNat = C at hCn ⊢
  have hC0 : 0 < C := by omega
  have hCN : C < requestList.length := by omega
  obtain ⟨resps, hloop⟩ := splitLoop_posts env requestList C hC0 hnet requestList.length 0 net []
    (by simpa using (by omega : 0 < requestList.length)) (by simp)
  simp only [Nat.zero_mul, Nat.zero_add, Nat.sub_zero] at hloop
  rw [← List.range_eq_range'] at hloop
  have hfetch : c.fetchResponses env net requestList =
      Run.done (net ++ (List.range ((requestList.length + C - 1) / C)).map
        (fun k => Body.batch (subRequest requestList C k)), Except.ok resps) := by
    unfold Client.fetchResponses
    have hcond : (!c.enableMaxBatch || decide (c.maxBatchNum ≤ 0) ||
        decide ((requestList.length : Int) ≤ c.maxBatchNum)) = false := by
      simp only [hcap, Bool.not_true, Bool.false_or, Bool.or_eq_false_iff,
        decide_eq_false_iff_not]
      omega
    simp only [hcond, hCdef, hloop]
    rfl
  refine ⟨resps, hfetch, ?_, hlen, ?_, ?_, ?_⟩
  · unfold Client.BatchSyncCall
    have hne : ¬ batch.length = 0 := by omega
    simp only [hne, if_false, hreq, hfetch]
  · intro k hk
    have h := subRequest_length requestList hC0 hk
    omega
  · have h := subRequest_flatten requestList C ((requestList.length + C - 1) / C) 0
    rw [← List.range_eq_range', Nat.zero_mul, List.drop_zero] at h
    rw [h]
    apply List.take_of_length_le
    have h2 : requestList.length + C - 1 < ((requestList.length + C - 1) / C + 1) * C := by
      have := Nat.lt_succ_self ((requestList.length + C - 1) / C)
      exact (Nat.div_lt_iff_lt_mul hC0).mp this
    rw [Nat.succ_mul] at h2
    omega
  · intro h12 h5
    have hC5 : C = 5 := by omega
    have hl12 : requestList.length = 12 := by omega
    subst hC5
    simp only [subRequest_eq, List.length_take, List.length_drop, hl12]
    decide

/-- C4, instance: twelve elements under the cap 5. -/
theorem BatchSyncCall_split_witness :
    ∃ responseList,
      sampleClient.fetchResponses sampleEnv [] sampleRequests12 =
        Run.done ([] ++
          (List.range ((sampleRequests12.length + sampleClient.maxBatchNum.toNat - 1) /
            sampleClient.maxBatchNum.toNat)).map
            (fun k => Body.batch (subRequest sampleRequests12 sampleClient.maxBatchNum.toNat k)),
          Except.ok responseList) ∧
      sampleClient.BatchSyncCall sampleEnv [] sampleBatch12 =
        returnBatchResult ⟨"2.0", 12, true, 5⟩
          ([] ++
            (List.range ((sampleRequests12.length + sampleClient.maxBatchNum.toNat - 1) /
              sampleClient.maxBatchNum.toNat)).map
              (fun k => Body.batch
                (subRequest sampleRequests12 sampleClient.maxBatchNum.toNat k)))
          (handleBatchResult sampleEnv sampleBatch12 sampleRequests12 responseList) ∧
      sampleRequests12.length = sampleBatch12.length ∧
      (∀ k : Nat,
        k < (sampleRequests12.length + sampleClient.maxBatchNum.toNat - 1) /
          sampleClient.maxBatchNum.toNat →
        1 ≤ (subRequest sampleRequests12 sampleClient.maxBatchNum.toNat k).length ∧
        ((subRequest sampleRequests12 sampleClient.maxBatchNum.toNat k).length : Int) ≤
          sampleClient.maxBatchNum) ∧
      ((List.range ((sampleRequests12.length + sampleClient.maxBatchNum.toNat - 1) /
        sampleClient.maxBatchNum.toNat)).map
        (subRequest sampleRequests12 sampleClient.maxBatchNum.toNat)).flatten =
          sampleRequests12 ∧
      (sampleBatch12.length = 12 → sampleClient.maxBatchNum = 5 →
        (List.range ((sampleRequests12.length + sampleClient.maxBatchNum.toNat - 1) /
          sampleClient.maxBatchNum.toNat)).map
          (fun k => (subRequest sampleRequests12 sampleClient.maxBatchNum.toNat k).length) =
            [5, 5, 2]) :=
  BatchSyncCall_split sampleEnv sampleClient ⟨"2.0", 12, true, 5⟩ [] sampleBatch12
    sampleRequests12 rfl (by decide) (by decide) rfl
    (fun _ _ => ⟨"[]", [], rfl, rfl⟩)

end rpc

/-! ## Consumers and the scheduler -/

/-- C2, as the code has it: for both consumers `NewBlock` returns `nil` for
every block and leaves the consumer at the height this block reports, so
that `GetCurrentBlockInfo` reports a height one more than before exactly when
the block reports one more than the height before, and a height not below
the one before exactly when the block reports such a height. -/
theorem consumer_NewBlock_height {β τ : Type} [features.Block β] (b : β) (txs : List τ) :
    (∀ c : btc.consumer,
      (c.NewBlock b txs).1 = none ∧
      ((c.NewBlock b txs).2.GetCurrentBlockInfo).1 =
        Except.ok { Hash := "", Height := features.Block.GetHeight b, ParentHash := "",
                    BlockTime := 0 } ∧
      ((c.NewBlock b txs).2.currentHeight = c.currentHeight + 1 ↔
        features.Block.GetHeight b = c.currentHeight + 1) ∧
      (c.currentHeight ≤ (c.NewBlock b txs).2.currentHeight ↔
        c.currentHeight ≤ features.Block.GetHeight b)) ∧
    (∀ c : eth.consumer,
      (c.NewBlock b txs).1 = none ∧
      ((c.NewBlock b txs).2.GetCurrentBlockInfo).1 =
        Except.ok { Hash := "", Height := features.Block.GetHeight b, ParentHash := "",
                    BlockTime := 0 } ∧
      ((c.NewBlock b txs).2.currentHeight = c.currentHeight + 1 ↔
        features.Block.GetHeight b = c.currentHeight + 1) ∧
      (c.currentHeight ≤ (c.NewBlock b txs).2.currentHeight ↔
        c.currentHeight ≤ features.Block.GetHeight b)) :=
  ⟨fun _ => ⟨rfl, rfl, Iff.rfl, Iff.rfl⟩, fun _ => ⟨rfl, rfl, Iff.rfl, Iff.rfl⟩⟩

/-- C2 fails as stated: a consumer at height 5, btc or eth, that is handed a
block of height 3 returns `nil` and then reports height 3, which is neither 6
nor at least 5. -/
theorem consumer_NewBlock_height_counterexample :
    ((⟨5⟩ : btc.consumer).NewBlock
        ({ Hash := "h3", Height := 3, ParentHash := "h2", BlockTime := 0 } :
          features.BlockInfo) ([] : List Unit)).1 = none ∧
    (((⟨5⟩ : btc.consumer).NewBlock
        ({ Hash := "h3", Height := 3, ParentHash := "h2", BlockTime := 0 } :
          features.BlockInfo) ([] : List Unit)).2.GetCurrentBlockInfo).1 =
      Except.ok { Hash := "", Height := 3, ParentHash := "", BlockTime := 0 } ∧
    ((⟨5⟩ : eth.consumer).NewBlock
        ({ Hash := "h3", Height := 3, ParentHash := "h2", BlockTime := 0 } :
          features.BlockInfo) ([] : List Unit)).1 = none ∧
    (((⟨5⟩ : eth.consumer).NewBlock
        ({ Hash := "h3", Height := 3, ParentHash := "h2", BlockTime := 0 } :
          features.BlockInfo) ([] : List Unit)).2.GetCurrentBlockInfo).1 =
      Except.ok { Hash := "", Height := 3, ParentHash := "", BlockTime := 0 } ∧
    ((3 : Int) ≠ 5 + 1) ∧ ((3 : Int) < 5) :=
  ⟨rfl, rfl, rfl, rfl, by decide, by decide⟩

namespace core

open features

theorem wrapInt_of_range {x : Int} (h1 : -2 ^ 63 ≤ x) (h2 : x < 2 ^ 63) : wrapInt x = x := by
  unfold wrapInt
  omega

/-- C10, as the code has it: for a btc consumer at height `h` and a producer
whose calls all succeed, with chain height `max ≥ h + 1` and with the block
it returns for `h + 1` reporting height `h + 1`, `worker` requests the block
at `h + 1`, hands that block and its resolved transactions to `NewBlock`,
returns `(false, nil)` and leaves the consumer at `h + 1`; the iteration
after it, when the chain is at `h + 2` or above, goes on to fetch the block
at `h + 2`. -/
theorem worker_advances {ω β τ : Type} [Block β] (producer : Producer ω β τ)
    (h max max2 : Int) (w w1 w2 w3 w4 : ω) (blk blk1 : β) (txs : List τ)
    (hh : -2 ^ 63 ≤ h) (hmax : h + 1 ≤ max) (hmax63 : max < 2 ^ 63)
    (hc : producer.GetChainHeight w = Run.done (Except.ok max, w1))
    (hb : producer.GetBlockByHeight (h + 1) w1 = Run.done (Except.ok blk, w2))
    (ht : producer.GetRelatedTransactions blk w2 = Run.done (Except.ok txs, blk1, w3))
    (hblk : Block.GetHeight blk1 = h + 1)
    (hc2 : producer.GetChainHeight w3 = Run.done (Except.ok max2, w4))
    (hmax2 : h + 2 ≤ max2) (hmax263 : max2 < 2 ^ 63) :
    worker producer (btc.consumer.asConsumer β τ) w ⟨h⟩ =
      Run.done ((false, none), w3, (btc.consumer.NewBlock ⟨h⟩ blk1 txs).2) ∧
    (btc.consumer.NewBlock ⟨h⟩ blk1 txs).2 = ⟨h + 1⟩ ∧
    worker producer (btc.consumer.asConsumer β τ) w3 ⟨h + 1⟩ =
      fetchAndDeliver producer (btc.consumer.asConsumer β τ) (h + 2) w4 ⟨h + 1⟩ := by
  have hw1 : wrapInt (h + 1) = h + 1 := wrapInt_of_range (by omega) (by omega)
  have hw2 : wrapInt (h + 1 + 1) = h + 2 := by
    rw [wrapInt_of_range (by omega) (by omega)]
    omega
  refine ⟨?_, ?_, ?_⟩
  · have hcond : ¬ (h + 1 > max ∧ max > 0) := by omega
    simp only [worker, btc.consumer.asConsumer, btc.consumer.GetCurrentBlockInfo,
      Block.GetHeight, hw1, hc, hcond, if_false, fetchAndDeliver, hb, ht,
      btc.consumer.NewBlock]
  · simp only [btc.consumer.NewBlock, hblk]
  · have hcond : ¬ (h + 2 > max2 ∧ max2 > 0) := by omega
    simp only [worker, btc.consumer.asConsumer, btc.consumer.GetCurrentBlockInfo,
      Block.GetHeight, hw2, hc2, hcond, if_false]

/-- C10, instance: chain height 100, consumer at 98. -/
theorem worker_advances_witness :
    worker sampleChain (btc.consumer.asConsumer BlockInfo Unit) () ⟨98⟩ =
      Run.done ((false, none), (),
        (btc.consumer.NewBlock ⟨98⟩
          ({ Hash := "h", Height := 99, ParentHash := "p", BlockTime := 0 } : BlockInfo)
          ([] : List Unit)).2) ∧
    (btc.consumer.NewBlock ⟨98⟩
        ({ Hash := "h", Height := 99, ParentHash := "p", BlockTime := 0 } : BlockInfo)
        ([] : List Unit)).2 = ⟨98 + 1⟩ ∧
    worker sampleChain (btc.consumer.asConsumer BlockInfo Unit) () ⟨98 + 1⟩ =
      fetchAndDeliver sampleChain (btc.consumer.asConsumer BlockInfo Unit) (98 + 2) ()
        ⟨98 + 1⟩ :=
  worker_advances sampleChain 98 100 100 () () () () ()
    { Hash := "h", Height := 99, ParentHash := "p", BlockTime := 0 }
    { Hash := "h", Height := 99, ParentHash := "p", BlockTime := 0 } []
    (by decide) (by decide) (by decide) rfl rfl rfl rfl rfl (by decide) (by decide)

/-- C10 fails as stated: every call of `sampleProducer` succeeds and the chain
height is 100, the consumer is at 99, `worker` returns `(false, nil)`, and
the consumer is left at height 7, the height the returned block reports. -/
theorem worker_advances_counterexample :
    worker sampleProducer (btc.consumer.asConsumer BlockInfo Unit) () ⟨99⟩ =
      Run.done ((false, none), (), ⟨7⟩) ∧ (7 : Int) ≠ 99 + 1 :=
  ⟨rfl, by decide⟩

end core

namespace btc

/-! ## The Bitcoin resolution pipeline -/

theorem sampleAsm_address (cr : common.Crypto) (h20 : ∀ b, (cr.ripemd160 b).length = 20) :
    common.GetAddressFromScriptSig cr sampleAsm false =
      Run.done (Except.ok (sampleAddress cr)) := by
  have hs : common.splitOnSpace sampleAsm.toList =
      ["3044".toList,
       "02aaaaaaaaaaaaaaaaaaaaaaaaaaaaaaaaaaaaaaaaaaaaaaaaaaaaaaaaaaaaaaaa".toList] := by
    decide
  have hd : common.hexDecode
      "02aaaaaaaaaaaaaaaaaaaaaaaaaaaaaaaaaaaaaaaaaaaaaaaaaaaaaaaaaaaaaaaa".toList =
        some samplePubKey := by
    decide
  unfold common.GetAddressFromScriptSig
  rw [hs]
  simp only [List.getLastD, List.getLast?, List.getLast, hd]
  simp [common.encodeScriptHash, common.Hash160, h20, samplePubKey, sampleAddress]

/-- C1 at an input where the code leaves it: the block lists one transaction
that is no coinbase and whose input carries a pay-to-pubkey-hash signature
script; the node answers every request correctly, and the hash libraries are
any with RIPEMD-160 digests of 20 bytes. `GetRelatedTransactions` returns
without error, the address of the input is decoded from its script, and its
`gotValue` is still false and its value empty: the ancestor `p0` is fetched
for the value, and the fetched transaction is not used. -/
theorem GetRelatedTransactions_half_resolved (cr : common.Crypto)
    (h20 : ∀ b, (cr.ripemd160 b).length = 20) :
    producer.GetRelatedTransactions (sampleNode cr) sampleStart sampleBlock =
      Run.done (Except.ok [sampleResolved cr],
        { sampleBlock with txes := [sampleResolved cr] }, sampleEnd) ∧
    (sampleResolved cr).isCoinbase = false ∧
    (sampleResolved cr).Vin.map (fun vin => (vin.gotAddress, vin.gotValue, vin.value)) =
      [(true, false, "")] := by
  refine ⟨?_, rfl, rfl⟩
  have h1 : sampleStart.batchTxes (sampleNode cr) sampleBlock.Txes =
      Run.done (Except.ok [sampleTx],
        ⟨⟨"2.0", 1, false, 0⟩, [rpc.Body.batch [⟨"2.0", 1, "getrawtransaction", "t1"⟩]]⟩) := rfl
  have h2 : jsonBlock.convertWithoutCheckNode (sampleNode cr).crypto
      { sampleBlock with txes := [sampleTx] } =
      Run.done ({ sampleBlock with txes := [
        { sampleTx with
          Vin := [{ PrevTxHash := "p0", PrevVoutIndex := 0, CoinBase := "",
                    ScriptSig := { Asm := sampleAsm, Hex := "" }, index := 0,
                    address := sampleAddress cr, value := "", gotAddress := true,
                    gotValue := false }],
          Vout := [{ Value := "0.5", Index := 0,
                     ScriptPubKey := { Address := "1Dest", Addresses := [] },
                     isConverted := true, fromAddress := "", toAddress := "1Dest",
                     value := "0.5" }] }] }, none) := by
    simp [jsonBlock.convertWithoutCheckNode, convertTxList, jsonTransaction.convert,
      jsonTransaction.isCoinbase, convertVins, jsonVin.convertAddressWithoutCheckNode,
      convertVouts, jsonVout.convert, getAddressFromScript, getSatoshiValue, sampleBlock,
      sampleTx, sampleNode, sampleAsm_address cr h20]
  unfold producer.GetRelatedTransactions
  rw [h1]
  simp only []
  unfold producer.convertTxes
  rw [h2]
  rfl

/-- C1, instance: the example hash libraries. -/
theorem GetRelatedTransactions_half_resolved_witness :
    producer.GetRelatedTransactions (sampleNode sampleCrypto) sampleStart sampleBlock =
      Run.done (Except.ok [sampleResolved sampleCrypto],
        { sampleBlock with txes := [sampleResolved sampleCrypto] }, sampleEnd) ∧
    (sampleResolved sampleCrypto).isCoinbase = false ∧
    (sampleResolved sampleCrypto).Vin.map
        (fun vin => (vin.gotAddress, vin.gotValue, vin.value)) = [(true, false, "")] :=
  GetRelatedTransactions_half_resolved sampleCrypto (fun _ => rfl)

end btc

namespace core

open features

/-! ## The scheduler: caught up, errors, waits -/

/-- The part of `worker` that fetches and delivers never reports the empty
outcome. -/
theorem fetchAndDeliver_not_empty {ω κ β τ : Type} (producer : Producer ω β τ)
    (consumer : Consumer κ β τ) (n : Int) (w : ω) (k : κ)
    (r : (Bool × Option GoError) × ω × κ)
    (h : fetchAndDeliver producer consumer n w k = Run.done r) : r.1.1 = false := by
  unfold fetchAndDeliver at h
  repeat' split at h
  all_goals first
    | (simp only [Run.done.injEq] at h; rw [← h])
    | (simp at h)

/-- C11: caught-up detection. When `GetCurrentBlockInfo` and `GetChainHeight`
succeed with heights `h` and `max`, `worker` returns `(true, nil)` if and
only if `next > max` and `max > 0`, where `next` is the `h + 1` the code
computes (`h + 1` itself for every `h` below the largest `int`); it then
returns straight after the height query, with the producer and the consumer
as the two queries left them: no block is fetched, nothing is resolved or
delivered. -/
theorem worker_caught_up {ω κ β τ : Type} (producer : Producer ω β τ)
    (consumer : Consumer κ β τ) (w w1 : ω) (k k1 : κ) (current : BlockInfo) (max : Int)
    (hc : consumer.GetCurrentBlockInfo k = Run.done (Except.ok current, k1))
    (hm : producer.GetChainHeight w = Run.done (Except.ok max, w1)) :
    ((∃ w2 k2, worker producer consumer w k = Run.done ((true, none), w2, k2)) ↔
      (wrapInt (current.Height + 1) > max ∧ max > 0)) ∧
    (wrapInt (current.Height + 1) > max ∧ max > 0 →
      worker producer consumer w k = Run.done ((true, none), w1, k1)) ∧
    (¬ (wrapInt (current.Height + 1) > max ∧ max > 0) →
      worker producer consumer w k =
        fetchAndDeliver producer consumer (wrapInt (current.Height + 1)) w1 k1) ∧
    (-2 ^ 63 ≤ current.Height → current.Height + 1 < 2 ^ 63 →
      wrapInt (current.Height + 1) = current.Height + 1) := by
  have hyes : wrapInt (current.Height + 1) > max ∧ max > 0 →
      worker producer consumer w k = Run.done ((true, none), w1, k1) := by
    intro hcond
    simp only [worker, hc, hm, Block.GetHeight, hcond, and_self, if_true]
  have hno : ¬ (wrapInt (current.Height + 1) > max ∧ max > 0) →
      worker producer consumer w k =
        fetchAndDeliver producer consumer (wrapInt (current.Height + 1)) w1 k1 := by
    intro hcond
    simp only [worker, hc, hm, Block.GetHeight, hcond, if_false]
  refine ⟨⟨?_, fun hcond => ⟨w1, k1, hyes hcond⟩⟩, hyes, hno,
    fun h1 h2 => wrapInt_of_range (by omega) h2⟩
  rintro ⟨w2, k2, hw⟩
  by_contra hcond
  rw [hno hcond] at hw
  have := fetchAndDeliver_not_empty producer consumer _ w1 k1 _ hw
  simp at this

/-- C11, instance: the scenario of the specification, consumer at height 100
and chain height 100. -/
theorem worker_caught_up_witness :
    ((∃ w2 k2, worker sampleChain (btc.consumer.asConsumer BlockInfo Unit) () ⟨100⟩ =
        Run.done ((true, none), w2, k2)) ↔
      (wrapInt ((100 : Int) + 1) > 100 ∧ (100 : Int) > 0)) ∧
    (wrapInt ((100 : Int) + 1) > 100 ∧ (100 : Int) > 0 →
      worker sampleChain (btc.consumer.asConsumer BlockInfo Unit) () ⟨100⟩ =
        Run.done ((true, none), (), ⟨100⟩)) ∧
    (¬ (wrapInt ((100 : Int) + 1) > 100 ∧ (100 : Int) > 0) →
      worker sampleChain (btc.consumer.asConsumer BlockInfo Unit) () ⟨100⟩ =
        fetchAndDeliver sampleChain (btc.consumer.asConsumer BlockInfo Unit)
          (wrapInt ((100 : Int) + 1)) () ⟨100⟩) ∧
    (-2 ^ 63 ≤ (100 : Int) → (100 : Int) + 1 < 2 ^ 63 →
      wrapInt ((100 : Int) + 1) = 100 + 1) :=
  worker_caught_up sampleChain (btc.consumer.asConsumer BlockInfo Unit) () () ⟨100⟩ ⟨100⟩
    { Hash := "", Height := 100, ParentHash := "", BlockTime := 0 } 100 rfl rfl

/-- C12: an error of any step ends the iteration. `worker` returns the error
of `GetCurrentBlockInfo`, `GetChainHeight`, `GetBlockByHeight` or
`GetRelatedTransactions` with `emptyLoop = false`, the producer is as the
failing call left it, and the consumer is as `GetCurrentBlockInfo` left it:
`NewBlock` is not called. An error of `NewBlock` is returned in the same
way. The btc and eth consumers are not changed by `GetCurrentBlockInfo`, so
after a failed iteration they report the height they reported before. -/
theorem worker_error {ω κ β τ : Type} [Block β] (producer : Producer ω β τ)
    (consumer : Consumer κ β τ) (w : ω) (k : κ) :
    (∀ (e : GoError) (k1 : κ),
      consumer.GetCurrentBlockInfo k = Run.done (Except.error e, k1) →
      worker producer consumer w k = Run.done ((false, some e), w, k1)) ∧
    (∀ (current : BlockInfo) (k1 : κ) (e : GoError) (w1 : ω),
      consumer.GetCurrentBlockInfo k = Run.done (Except.ok current, k1) →
      producer.GetChainHeight w = Run.done (Except.error e, w1) →
      worker producer consumer w k = Run.done ((false, some e), w1, k1)) ∧
    (∀ (current : BlockInfo) (k1 : κ) (max : Int) (w1 w2 : ω) (e : GoError),
      consumer.GetCurrentBlockInfo k = Run.done (Except.ok current, k1) →
      producer.GetChainHeight w = Run.done (Except.ok max, w1) →
      ¬ (wrapInt (current.Height + 1) > max ∧ max > 0) →
      producer.GetBlockByHeight (wrapInt (current.Height + 1)) w1 =
        Run.done (Except.error e, w2) →
      worker producer consumer w k = Run.done ((false, some e), w2, k1)) ∧
    (∀ (current : BlockInfo) (k1 : κ) (max : Int) (w1 w2 w3 : ω) (blk blk1 : β)
        (e : GoError),
      consumer.GetCurrentBlockInfo k = Run.done (Except.ok current, k1) →
      producer.GetChainHeight w = Run.done (Except.ok max, w1) →
      ¬ (wrapInt (current.Height + 1) > max ∧ max > 0) →
      producer.GetBlockByHeight (wrapInt (current.Height + 1)) w1 =
        Run.done (Except.ok blk, w2) →
      producer.GetRelatedTransactions blk w2 = Run.done (Except.error e, blk1, w3) →
      worker producer consumer w k = Run.done ((false, some e), w3, k1)) ∧
    (∀ (current : BlockInfo) (k1 k2 : κ) (max : Int) (w1 w2 w3 : ω) (blk blk1 : β)
        (txs : List τ) (e : GoError),
      consumer.GetCurrentBlockInfo k = Run.done (Except.ok current, k1) →
      producer.GetChainHeight w = Run.done (Except.ok max, w1) →
      ¬ (wrapInt (current.Height + 1) > max ∧ max > 0) →
      producer.GetBlockByHeight (wrapInt (current.Height + 1)) w1 =
        Run.done (Except.ok blk, w2) →
      producer.GetRelatedTransactions blk w2 = Run.done (Except.ok txs, blk1, w3) →
      consumer.NewBlock blk1 txs k1 = Run.done (some e, k2) →
      worker producer consumer w k = Run.done ((false, some e), w3, k2)) ∧
    (∀ c : btc.consumer, (btc.consumer.asConsumer β τ).GetCurrentBlockInfo c =
      Run.done (Except.ok { Hash := "", Height := c.currentHeight, ParentHash := "",
                            BlockTime := 0 }, c)) ∧
    (∀ c : eth.consumer, (eth.consumer.asConsumer β τ).GetCurrentBlockInfo c =
      Run.done (Except.ok { Hash := "", Height := c.currentHeight, ParentHash := "",
                            BlockTime := 0 }, c)) := by
  refine ⟨?_, ?_, ?_, ?_, ?_, fun _ => rfl, fun _ => rfl⟩
  · intro e k1 hc
    simp only [worker, hc]
  · intro current k1 e w1 hc hm
    simp only [worker, hc, hm]
  · intro current k1 max w1 w2 e hc hm hcond hb
    simp only [worker, hc, hm, Block.GetHeight, hcond, if_false, fetchAndDeliver, hb]
  · intro current k1 max w1 w2 w3 blk blk1 e hc hm hcond hb ht
    simp only [worker, hc, hm, Block.GetHeight, hcond, if_false, fetchAndDeliver, hb, ht]
  · intro current k1 k2 max w1 w2 w3 blk blk1 txs e hc hm hcond hb ht hn
    simp only [worker, hc, hm, Block.GetHeight, hcond, if_false, fetchAndDeliver, hb, ht, hn]

/-- C12, instance: the height query of `sampleBroken` fails with the btc
consumer at height 99. -/
theorem worker_error_witness :
    worker sampleBroken (btc.consumer.asConsumer BlockInfo Unit) () ⟨99⟩ =
      Run.done ((false, some (GoError.new "height")), (), ⟨99⟩) :=
  (worker_error sampleBroken (btc.consumer.asConsumer BlockInfo Unit) () ⟨99⟩).2.1
    { Hash := "", Height := 99, ParentHash := "", BlockTime := 0 } ⟨99⟩
    (GoError.new "height") () rfl rfl

/-- C19: adaptive wait. After an iteration in which `worker` returned
`(emptyLoop, err)` the loop resets its timer to `ErrorInterval` milliseconds
if `err` is not `nil`, whatever the error is, to `EmptyInterval` milliseconds
if `err` is `nil` and `emptyLoop` is true, and to `minDuration`, at which the
timer fires at once, otherwise. The milliseconds are the `int64` product
`time.Millisecond * interval`, which is the exact product for every interval
of at most 9223372036854 ms in absolute value. -/
theorem tick_wait {ω κ β τ : Type} (app : App) (producer : Producer ω β τ)
    (consumer : Consumer κ β τ) (w w1 : ω) (k k1 : κ) (emptyLoop : Bool)
    (err : Option GoError)
    (h : worker producer consumer w k = Run.done ((emptyLoop, err), w1, k1)) :
    tick app producer consumer w k = Run.done (resetDuration app emptyLoop err, w1, k1) ∧
    (∀ e, err = some e →
      resetDuration app emptyLoop err = wrapInt (Millisecond * app.ErrorInterval)) ∧
    (err = none → emptyLoop = true →
      resetDuration app emptyLoop err = wrapInt (Millisecond * app.EmptyInterval)) ∧
    (err = none → emptyLoop = false →
      resetDuration app emptyLoop err = minDuration ∧
      firesAtOnce (resetDuration app emptyLoop err)) ∧
    (∀ x : Int, -9223372036854 ≤ x → x ≤ 9223372036854 →
      wrapInt (Millisecond * x) = 1000000 * x) := by
  refine ⟨by simp only [tick, h], ?_, ?_, ?_, ?_⟩
  · intro e he
    subst he
    rfl
  · intro he hl
    subst he hl
    rfl
  · intro he hl
    subst he hl
    exact ⟨rfl, by unfold firesAtOnce resetDuration minDuration; simp⟩
  · intro x h1 h2
    unfold Millisecond
    exact wrapInt_of_range (by omega) (by omega)

/-- C19, instance: the height query fails, the timer is reset to the error
interval of 3000 ms. -/
theorem tick_wait_witness :
    tick ⟨1000, 3000⟩ sampleBroken (btc.consumer.asConsumer BlockInfo Unit) () ⟨99⟩ =
      Run.done (resetDuration ⟨1000, 3000⟩ false (some (GoError.new "height")), (), ⟨99⟩) ∧
    (∀ e, some (GoError.new "height") = some e →
      resetDuration ⟨1000, 3000⟩ false (some (GoError.new "height")) =
        wrapInt (Millisecond * (⟨1000, 3000⟩ : App).ErrorInterval)) ∧
    (some (GoError.new "height") = none → false = true →
      resetDuration ⟨1000, 3000⟩ false (some (GoError.new "height")) =
        wrapInt (Millisecond * (⟨1000, 3000⟩ : App).EmptyInterval)) ∧
    (some (GoError.new "height") = none → false = false →
      resetDuration ⟨1000, 3000⟩ false (some (GoError.new "height")) = minDuration ∧
      firesAtOnce (resetDuration ⟨1000, 3000⟩ false (some (GoError.new "height")))) ∧
    (∀ x : Int, -9223372036854 ≤ x → x ≤ 9223372036854 →
      wrapInt (Millisecond * x) = 1000000 * x) :=
  tick_wait ⟨1000, 3000⟩ sampleBroken (btc.consumer.asConsumer BlockInfo Unit) () () ⟨99⟩
    ⟨99⟩ false (some (GoError.new "height")) rfl

end core

namespace rpc

/-! ## Request ids -/

/-- One call of `newMessage` whose parameter marshals takes the id after the
counter and leaves the counter at it. -/
theorem newMessage_ok {α σ : Type} (env : Env α σ) (c : Client) (method : String) (param : α)
    (params : String) (hm : env.marshal param = Except.ok params) :
    c.newMessage env method param =
      (Except.ok { Version := c.version, ID := (c.idCounter + 1) % 2 ^ 64, Method := method,
                   Params := params },
        { c with idCounter := (c.idCounter + 1) % 2 ^ 64 }) := by
  simp only [Client.newMessage, hm, Client.nextID]

/-- The ids of the messages built one after the other are the counter values
that follow the counter of the client, modulo `2 ^ 64`. -/
theorem buildRequests_ids {α σ : Type} (env : Env α σ) :
    ∀ (batch : List (BatchElem α σ)) (c c1 : Client) (reqs : List jsonRPCSendMessage),
      c.idCounter < 2 ^ 64 →
      buildRequests env c batch = (Except.ok reqs, c1) →
      reqs.map (fun msg => msg.ID) =
        (List.range batch.length).map (fun i => (c.idCounter + 1 + i) % 2 ^ 64) ∧
      c1.idCounter = (c.idCounter + batch.length) % 2 ^ 64 := by
  intro batch
  induction batch with
  | nil =>
    intro c c1 reqs hc h
    simp only [buildRequests, Prod.mk.injEq, Except.ok.injEq] at h
    obtain ⟨h1, h2⟩ := h
    subst h1 h2
    refine ⟨by simp, ?_⟩
    rw [List.length_nil]
    omega
  | cons elem rest ih =>
    intro c c1 reqs hc h
    unfold buildRequests at h
    cases hmar : env.marshal elem.Args with
    | error e => simp [Client.newMessage, hmar] at h
    | ok params =>
      rw [newMessage_ok env c elem.Method elem.Args params hmar] at h
      simp only at h
      rcases hb : buildRequests env { c with idCounter := (c.idCounter + 1) % 2 ^ 64 } rest
        with ⟨r2, c3⟩
      rw [hb] at h
      cases r2 with
      | error e => simp at h
      | ok msgs =>
        simp only [Prod.mk.injEq, Except.ok.injEq] at h
        obtain ⟨h1, h2⟩ := h
        subst h1 h2
        obtain ⟨hids, hcnt⟩ := ih _ _ _ (by simp only; omega) hb
        simp only at hids hcnt
        refine ⟨?_, ?_⟩
        · rw [List.length_cons, List.range_succ_eq_map, List.map_cons, List.map_cons,
            List.map_map, hids]
          refine congrArg₂ _ (by simp) (List.map_congr_left fun i _ => ?_)
          simp only [Function.comp, Nat.succ_eq_add_one]
          omega
        · rw [hcnt, List.length_cons]
          omega

/-- C14: request ids. For a freshly dialled client the messages `newMessage`
creates one after the other carry the ids 1, 2, 3, ... (the counter is a
`uint64`, so the `k`-th id is `k` modulo `2 ^ 64`); as long as fewer than
`2 ^ 64` messages were created, the `k`-th message carries id `k`, the ids
strictly increase and none is reused, and a batch of `N` elements that follows
`m` messages carries the ids `m + 1` to `m + N` in element order. A call
whose parameter does not marshal takes no id. -/
theorem newMessage_ids {α σ : Type} (env : Env α σ) (version : String)
    (batch : List (BatchElem α σ)) (reqs : List jsonRPCSendMessage) (c1 : Client)
    (hreq : buildRequests env (DialWithoutAuth version) batch = (Except.ok reqs, c1)) :
    reqs.map (fun msg => msg.ID) =
      (List.range batch.length).map (fun i => (1 + i) % 2 ^ 64) ∧
    (batch.length < 2 ^ 64 →
      reqs.map (fun msg => msg.ID) = List.range' 1 batch.length ∧
      (∀ k : Nat, 1 ≤ k → k ≤ batch.length →
        ∃ msg, reqs[k - 1]? = some msg ∧ msg.ID = k) ∧
      (reqs.map (fun msg => msg.ID)).Pairwise (fun a b => a < b) ∧
      (reqs.map (fun msg => msg.ID)).Nodup ∧
      c1.idCounter = batch.length ∧
      ∀ (batch2 : List (BatchElem α σ)) (reqs2 : List jsonRPCSendMessage) (c2 : Client),
        buildRequests env c1 batch2 = (Except.ok reqs2, c2) →
        batch.length + batch2.length < 2 ^ 64 →
        reqs2.map (fun msg => msg.ID) = List.range' (batch.length + 1) batch2.length ∧
        c2.idCounter = batch.length + batch2.length) ∧
    (∀ (c : Client) (method : String) (param : α) (e : GoError),
      env.marshal param = Except.error e → (c.newMessage env method param).2 = c) := by
  obtain ⟨hids, hcnt⟩ := buildRequests_ids env batch _ c1 reqs
    (by simp [DialWithoutAuth]) hreq
  simp only [DialWithoutAuth, Nat.zero_add] at hids hcnt
  refine ⟨hids, fun hN => ?_, fun c method param e he => by simp [Client.newMessage, he]⟩
  have hrange : reqs.map (fun msg => msg.ID) = List.range' 1 batch.length := by
    rw [hids, List.range'_eq_map_range]
    refine List.map_congr_left fun i hi => ?_
    have := List.mem_range.mp hi
    omega
  have hc1 : c1.idCounter = batch.length := by
    rw [hcnt]
    omega
  refine ⟨hrange, ?_, ?_, ?_, hc1, ?_⟩
  · intro k hk1 hk2
    have hlen : reqs.length = batch.length := by
      have := congrArg List.length hrange
      simpa using this
    have hlt : k - 1 < reqs.length := by omega
    refine ⟨reqs[k - 1], List.getElem?_eq_getElem hlt, ?_⟩
    have h1 : (reqs.map (fun msg => msg.ID))[k - 1]? = some (reqs[k - 1]).ID := by
      rw [List.getElem?_map, List.getElem?_eq_getElem hlt]
      rfl
    have h2 := List.getElem?_range' 1 1 (show k - 1 < batch.length by omega)
    rw [hrange, h2] at h1
    simp only [Option.some.injEq] at h1
    omega
  · rw [hrange]
    exact List.pairwise_lt_range' 1 batch.length
  · rw [hrange]
    exact List.nodup_range' 1 batch.length
  · intro batch2 reqs2 c2 h2 hN2
    obtain ⟨hids2, hcnt2⟩ := buildRequests_ids env batch2 c1 c2 reqs2 (by omega) h2
    rw [hc1] at hids2 hcnt2
    refine ⟨?_, by rw [hcnt2]; omega⟩
    rw [hids2, List.range'_eq_map_range]
    refine List.map_congr_left fun i hi => ?_
    have := List.mem_range.mp hi
    omega

/-- C14, instance: the twelve requests of `sampleBatch12` from a fresh
client. -/
theorem newMessage_ids_witness :
    sampleRequests12.map (fun msg => msg.ID) =
      (List.range sampleBatch12.length).map (fun i => (1 + i) % 2 ^ 64) :=
  (newMessage_ids sampleEnv "2.0" sampleBatch12 sampleRequests12 ⟨"2.0", 12, false, 0⟩ rfl).1

end rpc

namespace btc

open features

/-! ## The height query of the Bitcoin adapter -/

/-- `GetChainHeight` of the btc producer returns no error, whatever the call
does. -/
theorem GetChainHeight_no_error (env : rpc.CallEnv (List String) Int) (p : producer) :
    ∃ (n : Int) (p1 : producer), p.GetChainHeight env = (Except.ok n, p1) := by
  unfold producer.GetChainHeight
  rcases h : p.client.SyncCall env p.net 0 getChainHeightMethod [] with ⟨⟨height, err⟩, c1, net1⟩
  cases err with
  | none => exact ⟨height, ⟨c1, net1⟩, rfl⟩
  | some e => exact ⟨0, ⟨c1, net1⟩, rfl⟩

/-- C13 at an input where the code leaves it: when the `getblockcount` call
fails with an error `e`, `GetChainHeight` returns `(0, nil)`, and an
iteration of `worker` over this height query does not return `e`: with
`max = 0` it is never caught up and goes on to fetch the next block. -/
theorem GetChainHeight_swallows_error {κ β τ : Type} (env : rpc.CallEnv (List String) Int)
    (p : producer) (slot : Int) (e : GoError) (c1 : rpc.Client) (net1 : List rpc.Body)
    (hfail : p.client.SyncCall env p.net 0 getChainHeightMethod [] = ((slot, some e), c1, net1))
    (other : Producer producer β τ) (consumer : Consumer κ β τ) (k k1 : κ)
    (current : BlockInfo)
    (hc : consumer.GetCurrentBlockInfo k = Run.done (Except.ok current, k1)) :
    p.GetChainHeight env = (Except.ok 0, ⟨c1, net1⟩) ∧
    core.worker (producer.withHeightQuery env other) consumer p k =
      core.fetchAndDeliver (producer.withHeightQuery env other) consumer
        (wrapInt (current.Height + 1)) ⟨c1, net1⟩ k1 := by
  have hg : p.GetChainHeight env = (Except.ok 0, ⟨c1, net1⟩) := by
    simp only [producer.GetChainHeight, hfail]
  refine ⟨hg, ?_⟩
  have hcond : ¬ (wrapInt (current.Height + 1) > 0 ∧ (0 : Int) > 0) := by omega
  simp only [core.worker, hc, producer.withHeightQuery, hg, Block.GetHeight, hcond, if_false]

/-- C13, instance: the node answers `getblockcount` with the status 500, the
consumer is at height 99; `GetChainHeight` returns `(0, nil)` and the
iteration goes on to fetch the block at height 100. -/
theorem GetChainHeight_swallows_error_witness :
    sampleStart.GetChainHeight rpc.sampleDown =
      (Except.ok 0, ⟨⟨"2.0", 1, false, 0⟩,
        [rpc.Body.single ⟨"2.0", 1, "getblockcount", "null"⟩]⟩) ∧
    core.worker (producer.withHeightQuery rpc.sampleDown core.sampleFetch)
        (btc.consumer.asConsumer BlockInfo Unit) sampleStart ⟨99⟩ =
      core.fetchAndDeliver (producer.withHeightQuery rpc.sampleDown core.sampleFetch)
        (btc.consumer.asConsumer BlockInfo Unit) (wrapInt ((99 : Int) + 1))
        ⟨⟨"2.0", 1, false, 0⟩, [rpc.Body.single ⟨"2.0", 1, "getblockcount", "null"⟩]⟩ ⟨99⟩ :=
  GetChainHeight_swallows_error rpc.sampleDown sampleStart 0
    (GoError.errorf "http status code err: %d, msg: %s" ["500", ""])
    ⟨"2.0", 1, false, 0⟩ [rpc.Body.single ⟨"2.0", 1, "getblockcount", "null"⟩] rfl
    core.sampleFetch (btc.consumer.asConsumer BlockInfo Unit) ⟨99⟩ ⟨99⟩
    { Hash := "", Height := 99, ParentHash := "", BlockTime := 0 } rfl

/-- The iteration of the instance above runs to the end: the height query
failed, `worker` returns `(false, nil)` and the consumer has advanced. -/
theorem worker_fetches_after_failed_height_query :
    core.worker (producer.withHeightQuery rpc.sampleDown core.sampleFetch)
        (btc.consumer.asConsumer BlockInfo Unit) sampleStart ⟨99⟩ =
      Run.done ((false, none),
        ⟨⟨"2.0", 1, false, 0⟩, [rpc.Body.single ⟨"2.0", 1, "getblockcount", "null"⟩]⟩,
        ⟨100⟩) :=
  rfl

end btc

namespace eth

/-- Helper: the records of `getTokenTransfer` are those of the qualifying logs,
in log order. -/
theorem getTokenTransfer_eq (rTx : jsonTransaction) (logs : List receiptLogs) :
    producer.getTokenTransfer rTx logs =
      ((logs.filter isTransferLog).map (recordOf rTx.hash), none) := by
  induction logs with
  | nil => rfl
  | cons tLog logs ih =>
    rcases h : tLog.Topics with _ | ⟨t0, _ | ⟨t1, _ | ⟨t2, _ | ⟨t3, r⟩⟩⟩⟩
    · simp [producer.getTokenTransfer, isTransferLog, h, ih]
    · simp [producer.getTokenTransfer, isTransferLog, h, ih]
    · simp [producer.getTokenTransfer, isTransferLog, h, ih]
    · by_cases h0 : t0 = transferEventHash
      · simp [producer.getTokenTransfer, isTransferLog, recordOf, h, ih, h0]
      · simp [producer.getTokenTransfer, isTransferLog, h, ih, h0]
    · simp [producer.getTokenTransfer, isTransferLog, h, ih]

/-- Helper: a qualifying log has the Transfer signature and two more topics. -/
theorem isTransferLog_iff (tLog : receiptLogs) :
    isTransferLog tLog = true ↔
      ∃ topic1 topic2, tLog.Topics = [transferEventHash, topic1, topic2] := by
  rcases h : tLog.Topics with _ | ⟨t0, _ | ⟨t1, _ | ⟨t2, _ | ⟨t3, r⟩⟩⟩⟩ <;>
    simp [isTransferLog, h]

/-- Helper: `attachTransfers` never fails, and what it attaches. -/
theorem attachTransfers_eq (tx : jsonTransaction) (receipt : jsonTransactionReceipt) :
    attachTransfers tx receipt =
      (if tx.receiptStatus = 1 then
        { tx with tokenTfs := (receipt.Logs.filter isTransferLog).map (recordOf tx.hash) }
       else tx, none) := by
  unfold attachTransfers
  simp only [getTokenTransfer_eq, jsonTransaction.receiptStatusSuccess]
  by_cases h : tx.receiptStatus = 1 <;> simp [h]

end eth

namespace eth

/-- Helper: a successful round of the result loop, unfolded once. -/
theorem collect_cons_ok (parse : String → Nat × Option GoError) (rm : ReceiptMap)
    (tx : jsonTransaction) (rest txs1 result : List jsonTransaction)
    (h : collect parse rm (tx :: rest) = (txs1, Except.ok result)) :
    ∃ receipt rest1 result1, rm tx.hash = some receipt ∧ (parse receipt.Status).2 = none ∧
      collect parse rm rest = (rest1, Except.ok result1) ∧
      txs1 = (attachTransfers (tx.combineReceipt parse receipt).1 receipt).1 :: rest1 ∧
      result =
        if (attachTransfers (tx.combineReceipt parse receipt).1 receipt).1.tokenTfs.length > 0
        then (attachTransfers (tx.combineReceipt parse receipt).1 receipt).1 :: result1
        else result1 := by
  unfold collect at h
  cases hrm : rm tx.hash with
  | none => simp [hrm] at h
  | some receipt =>
    rcases hp : parse receipt.Status with ⟨v, _ | e⟩
    · rcases hc : collect parse rm rest with ⟨rest1, e | result1⟩
      · simp [hrm, jsonTransaction.combineReceipt, hp, attachTransfers_eq, hc] at h
      · simp only [hrm, jsonTransaction.combineReceipt, hp, attachTransfers_eq, hc] at h
        refine ⟨receipt, rest1, result1, rfl, by simp [hp], rfl, ?_⟩
        simp only [jsonTransaction.combineReceipt, hp, attachTransfers_eq]
        simp only [Prod.mk.injEq, Except.ok.injEq] at h
        exact ⟨h.1.symm, h.2.symm⟩
    · simp [hrm, jsonTransaction.combineReceipt, hp] at h

end eth

namespace eth

/-- Helper: the fields of a transaction after a successful round of the result
loop, and that a further round leaves it as it is. -/
theorem resolved_fields (parse : String → Nat × Option GoError) (tx tx2 : jsonTransaction)
    (receipt : jsonTransactionReceipt) (hp : (parse receipt.Status).2 = none)
    (htx : tx2 = (attachTransfers (tx.combineReceipt parse receipt).1 receipt).1) :
    tx2.Hash = tx.Hash ∧ tx2.hash = tx.hash ∧ tx2.receiptStatus = (parse receipt.Status).1 ∧
    tx2.tokenTfs =
      (if (parse receipt.Status).1 = 1 then
        (receipt.Logs.filter isTransferLog).map (recordOf tx.hash)
       else tx.tokenTfs) ∧
    tx2.combineReceipt parse receipt = (tx2, none) ∧
    attachTransfers tx2 receipt = (tx2, none) := by
  rcases hq : parse receipt.Status with ⟨v, _ | e⟩
  · subst htx
    by_cases hv : v = 1
    · simp [jsonTransaction.combineReceipt, hq, attachTransfers_eq, hv]
    · simp [jsonTransaction.combineReceipt, hq, attachTransfers_eq, hv]
  · simp [hq] at hp

/-- Helper: the result loop repeats itself on the transactions it has left. -/
theorem collect_idem (parse : String → Nat × Option GoError) (rm : ReceiptMap) :
    ∀ (txs txs1 result : List jsonTransaction),
      collect parse rm txs = (txs1, Except.ok result) →
      collect parse rm txs1 = (txs1, Except.ok result) := by
  intro txs
  induction txs with
  | nil =>
    intro txs1 result h
    simp only [collect, Prod.mk.injEq, Except.ok.injEq] at h
    rw [← h.1, ← h.2]; rfl
  | cons tx rest ih =>
    intro txs1 result h
    obtain ⟨receipt, rest1, result1, hrm, hp, hc, ht, hr⟩ := collect_cons_ok parse rm tx rest _ _ h
    obtain ⟨-, hh, -, -, hcomb, hatt⟩ := resolved_fields parse tx _ receipt hp rfl
    have hrest := ih rest1 result1 hc
    rw [ht, hr]
    unfold collect
    simp only [hh, hrm, hcomb, hatt, hrest]

end eth

namespace eth

/-- Helper: the three ways in which the block `if !b.receiptsReady` ends. -/
theorem fetchReceipts_cases (nd : Node) (p p0 : producer) (b b0 : jsonBlock)
    (err : Option GoError) (h : p.fetchReceipts nd b = Run.done (err, b0, p0)) :
    (b.receiptsReady = true ∧ err = none ∧ b0 = b ∧ p0 = p) ∨
    (b.receiptsReady = false ∧ err ≠ none ∧ b0.receiptsReady = false) ∨
    (b.receiptsReady = false ∧ err = none ∧
      ∃ txs m, convertAll nd.ParseUint b.Transactions = (txs, none) ∧
        b0 = { b with Transactions := txs, receiptsMap := m, receiptsReady := true }) := by
  unfold producer.fetchReceipts at h
  by_cases hr : b.receiptsReady = true
  · rw [if_pos hr] at h
    simp only [Run.done.injEq, Prod.mk.injEq] at h
    exact Or.inl ⟨hr, h.1.symm, h.2.1.symm, h.2.2.symm⟩
  · rw [if_neg hr] at h
    have hr : b.receiptsReady = false := by simpa using hr
    right
    rcases hc : convertAll nd.ParseUint b.Transactions with ⟨txs, _ | e⟩
    · simp only [hc] at h
      rcases hf : batchTransactionReceiptBatchSearch nd.rpc p (txs.map fun item => item.Hash)
        with ⟨⟨e | receipts, p1⟩⟩ | q | _
      · simp only [hf, Run.done.injEq, Prod.mk.injEq] at h
        refine Or.inl ⟨hr, ?_, ?_⟩
        · rw [← h.1]; simp
        · rw [← h.2.1]; exact hr
      · simp only [hf] at h
        by_cases hl : txs.length ≠ receipts.length
        · rw [if_pos hl] at h
          simp only [Run.done.injEq, Prod.mk.injEq] at h
          refine Or.inl ⟨hr, ?_, ?_⟩
          · rw [← h.1]; simp
          · rw [← h.2.1]; exact hr
        · rw [if_neg hl] at h
          rcases hm : fillReceiptsMap { b with Transactions := txs } receipts 0 (fun _ => none)
            with ⟨m, _ | e⟩ | q | _
          · simp only [hm, Run.done.injEq, Prod.mk.injEq] at h
            exact Or.inr ⟨hr, h.1.symm, txs, m, rfl, h.2.1.symm⟩
          · simp only [hm, Run.done.injEq, Prod.mk.injEq] at h
            refine Or.inl ⟨hr, ?_, ?_⟩
            · rw [← h.1]; simp
            · rw [← h.2.1]; exact hr
          · simp [hm] at h
          · simp [hm] at h
      · simp [hf] at h
      · simp [hf] at h
    · simp only [hc, Run.done.injEq, Prod.mk.injEq] at h
      refine Or.inl ⟨hr, ?_, ?_⟩
      · rw [← h.1]; simp
      · rw [← h.2.1]; exact hr

end eth

namespace eth

/-- C16: for every list of receipt logs, `getTokenTransfer` returns no error
and, in log order, exactly one record for each log that has exactly 3 topics
and whose first topic is the Transfer signature `0xddf252ad…`; the record of
such a log has from = `topics[1]`, to = `topics[2]`, amount = the data of the
log, asset address = its address, index = its `logIndex`, and the hash of the
transaction; every other log contributes no record. -/
theorem getTokenTransfer_records (rTx : jsonTransaction) (logs : List receiptLogs) :
    (producer.getTokenTransfer rTx logs).2 = none ∧
    (producer.getTokenTransfer rTx logs).1 =
      (logs.filter isTransferLog).map (recordOf rTx.hash) ∧
    (∀ tLog : receiptLogs, isTransferLog tLog = true ↔
      tLog.Topics.length = 3 ∧
        tLog.Topics[0]? =
          some "0xddf252ad1be2c89b69c2b068fc378daa952ba7f163c4a11628f55a4df523b3ef") ∧
    (∀ tLog : receiptLogs, isTransferLog tLog = true →
      ∃ topic1 topic2, tLog.Topics = [transferEventHash, topic1, topic2] ∧
        recordOf rTx.hash tLog =
          { from_ := topic1, to_ := topic2, amount := tLog.Data,
            assetChainName := tLog.Address, index := tLog.LogIndex, txHash := rTx.hash,
            tradeType := "contract", totag := "", fee := "" }) := by
  refine ⟨by rw [getTokenTransfer_eq], by rw [getTokenTransfer_eq], ?_, ?_⟩
  · intro tLog
    simp [isTransferLog, transferEventHash]
  · intro tLog h
    obtain ⟨topic1, topic2, ht⟩ := (isTransferLog_iff tLog).1 h
    exact ⟨topic1, topic2, ht, by simp [recordOf, ht, contractTradeType]⟩

/-- C18: after `GetRelatedTransactions` has succeeded on a block object, the
block is marked `receiptsReady`, and a further call on it, by a producer in
any state, skips the fetch, leaves the producer as it is (no request is
issued), leaves the block as it is, and returns the same transactions in the
same order with the same fields, token-transfer records included. -/
theorem GetRelatedTransactions_idempotent (nd : Node) (p p1 : producer) (b b1 : jsonBlock)
    (result : List jsonTransaction)
    (h : p.GetRelatedTransactions nd b = Run.done (Except.ok result, b1, p1)) :
    b1.receiptsReady = true ∧
    ∀ q : producer,
      q.fetchReceipts nd b1 = Run.done (none, b1, q) ∧
      q.GetRelatedTransactions nd b1 = Run.done (Except.ok result, b1, q) := by
  unfold producer.GetRelatedTransactions at h
  rcases hf : p.fetchReceipts nd b with ⟨⟨_ | e, b0, p0⟩⟩ | q | _
  · rcases hc : collect nd.ParseUint b0.receiptsMap b0.Transactions with ⟨txs, e | res⟩
    · simp [hf, hc] at h
    · simp only [hf, hc, Run.done.injEq, Prod.mk.injEq, Except.ok.injEq] at h
      obtain ⟨hres, hb, -⟩ := h
      have hready : b0.receiptsReady = true := by
        rcases fetchReceipts_cases nd p p0 b b0 none hf with h1 | h1 | h1
        · rw [h1.2.2.1]; exact h1.1
        · exact absurd rfl h1.2.1
        · obtain ⟨-, -, txs0, m, -, hb0⟩ := h1
          rw [hb0]
      subst hres hb
      have hfetch : ∀ q : producer,
          q.fetchReceipts nd { b0 with Transactions := txs } =
            Run.done (none, { b0 with Transactions := txs }, q) := by
        intro q
        unfold producer.fetchReceipts
        rw [if_pos hready]
      refine ⟨hready, fun q => ⟨hfetch q, ?_⟩⟩
      unfold producer.GetRelatedTransactions
      rw [hfetch q]
      simp only [collect_idem nd.ParseUint b0.receiptsMap _ _ _ hc]
  · simp [hf] at h
  · simp [hf] at h
  · simp [hf] at h

/-- Example for C18: the first call on the block `B` posts one batch and
returns `t1` with its record; the second call on the block it left returns
the same and leaves producer and block as they are. -/
theorem GetRelatedTransactions_idempotent_witness :
    ∃ b1 p1,
      sampleStart.GetRelatedTransactions (sampleNode "B") sampleBlock =
        Run.done (Except.ok [sampleConverted "t1" 1 [sampleTransfer]], b1, p1) ∧
      p1.net.length = 1 ∧
      p1.GetRelatedTransactions (sampleNode "B") b1 =
        Run.done (Except.ok [sampleConverted "t1" 1 [sampleTransfer]], b1, p1) :=
  ⟨_, _, rfl, rfl,
    ((GetRelatedTransactions_idempotent (sampleNode "B") sampleStart _ sampleBlock _ _ rfl).2
      _).2⟩

end eth

namespace eth

/-- Helper: a string of length zero is the empty string. -/
theorem length_zero_iff (s : String) : s.length = 0 ↔ s = "" := by
  constructor
  · intro h
    apply String.ext
    exact List.length_eq_zero.1 h
  · intro h; rw [h]; rfl

/-- Helper: the validation loop stops with an error at a receipt whose block
hash is empty or not that of the block. -/
theorem fillReceiptsMap_bad (b : jsonBlock) :
    ∀ (receipts : List jsonTransactionReceipt) (index : Nat) (m : ReceiptMap),
      (∃ r ∈ receipts, r.BlockHash = "" ∨ r.BlockHash ≠ b.Hash) →
      index + receipts.length ≤ b.Transactions.length →
      ∃ m1 e, fillReceiptsMap b receipts index m = Run.done (m1, some e) := by
  intro receipts
  induction receipts with
  | nil => intro index m h; simp at h
  | cons r rest ih =>
    intro index m h hl
    unfold fillReceiptsMap
    by_cases h0 : r.BlockHash.length = 0
    · rw [if_pos h0]
      have hi : index < b.Transactions.length := by
        simp only [List.length_cons] at hl; omega
      rw [List.getElem?_eq_getElem hi]
      exact ⟨_, _, rfl⟩
    · rw [if_neg h0]
      by_cases h1 : r.BlockHash ≠ b.Hash
      · rw [if_pos h1]
        exact ⟨_, _, rfl⟩
      · rw [if_neg h1]
        apply ih
        · obtain ⟨r1, hr1, hbad⟩ := h
          rcases List.mem_cons.1 hr1 with heq | hin
          · subst heq
            rcases hbad with hb | hb
            · exact absurd ((length_zero_iff _).2 hb) h0
            · exact absurd hb h1
          · exact ⟨r1, hin, hbad⟩
        · simp only [List.length_cons] at hl; omega

/-- C17: for a block not marked `receiptsReady` whose transactions convert and
whose receipts were fetched: if a fetched receipt has an empty block hash or
a block hash other than the `Hash` of the block, `GetRelatedTransactions`
returns an error and no transactions, and leaves the block not marked
`receiptsReady`. -/
theorem GetRelatedTransactions_receipt_mismatch (nd : Node) (p p1 : producer) (b : jsonBlock)
    (txs : List jsonTransaction) (receipts : List jsonTransactionReceipt)
    (hready : b.receiptsReady = false)
    (hconv : convertAll nd.ParseUint b.Transactions = (txs, none))
    (hfetch : batchTransactionReceiptBatchSearch nd.rpc p (txs.map fun item => item.Hash) =
      Run.done (Except.ok receipts, p1))
    (hbad : ∃ r ∈ receipts, r.BlockHash = "" ∨ r.BlockHash ≠ b.Hash) :
    ∃ e b1, p.GetRelatedTransactions nd b = Run.done (Except.error e, b1, p1) ∧
      b1.receiptsReady = false := by
  unfold producer.GetRelatedTransactions producer.fetchReceipts
  rw [if_neg (by simp [hready])]
  simp only [hconv, hfetch]
  by_cases hl : txs.length ≠ receipts.length
  · rw [if_pos hl]
    exact ⟨_, _, rfl, hready⟩
  · rw [if_neg hl]
    have hlen : txs.length = receipts.length := by simpa using hl
    obtain ⟨m1, e, hm⟩ := fillReceiptsMap_bad { b with Transactions := txs } receipts 0
      (fun _ => none) hbad (by simp [hlen])
    rw [hm]
    exact ⟨_, _, rfl, hready⟩

/-- Example for C17: the node answers with receipts of the block `X` for the
transactions of the block `B`. -/
theorem GetRelatedTransactions_receipt_mismatch_witness :
    ∃ e b1 p1, sampleStart.GetRelatedTransactions (sampleNode "X") sampleBlock =
        Run.done (Except.error e, b1, p1) ∧
      b1.receiptsReady = false :=
  have h := GetRelatedTransactions_receipt_mismatch (sampleNode "X") sampleStart _ sampleBlock
    _ [sampleReceipt "t1" "X" "0x1" [sampleLog, sampleOtherLog], sampleReceipt "t2" "X" "0x1" [],
      sampleReceipt "t3" "X" "0x0" [sampleLog]] rfl rfl rfl
    ⟨sampleReceipt "t1" "X" "0x1" [sampleLog, sampleOtherLog], List.mem_cons_self _ _,
      Or.inr (by decide)⟩
  ⟨h.choose, h.choose_spec.choose, _, h.choose_spec.choose_spec⟩

end eth

namespace eth

/-- Helper: after the conversion loop the transactions are the same ones, with
`hash` set and no token-transfer records. -/
theorem convertAll_ok (parse : String → Nat × Option GoError) :
    ∀ (txs txs1 : List jsonTransaction), convertAll parse txs = (txs1, none) →
      txs1.map (fun tx => tx.Hash) = txs.map (fun tx => tx.Hash) ∧
      ∀ tx ∈ txs1, tx.hash = tx.Hash ∧ tx.tokenTfs = [] := by
  intro txs
  induction txs with
  | nil =>
    intro txs1 h
    simp only [convertAll, Prod.mk.injEq] at h
    rw [← h.1]; simp
  | cons tx rest ih =>
    intro txs1 h
    unfold convertAll at h
    rcases hp : parse tx.TxType with ⟨v, _ | e⟩
    · rcases hn : parse tx.Nonce with ⟨n, _ | e⟩
      · rcases hc : convertAll parse rest with ⟨rest1, err⟩
        simp only [jsonTransaction.convert, hp, hn, WithStack, hc, Prod.mk.injEq] at h
        obtain ⟨h1, h2⟩ := h
        subst h2
        obtain ⟨ihm, iha⟩ := ih rest1 hc
        subst h1
        refine ⟨by simp [ihm], ?_⟩
        intro t ht
        rcases List.mem_cons.1 ht with heq | hin
        · subst heq; exact ⟨rfl, rfl⟩
        · exact iha t hin
      · simp [jsonTransaction.convert, hp, hn, WithStack] at h
    · simp [jsonTransaction.convert, hp] at h

end eth

namespace eth

/-- Helper: a round of the result loop on a settled transaction leaves it
settled, with the records its receipt calls for. -/
theorem resolved_settled (parse : String → Nat × Option GoError) (rm : ReceiptMap)
    (tx tx2 : jsonTransaction) (receipt : jsonTransactionReceipt)
    (hs : tx.Settled parse rm) (hrm : rm tx.hash = some receipt)
    (hp : (parse receipt.Status).2 = none)
    (htx : tx2 = (attachTransfers (tx.combineReceipt parse receipt).1 receipt).1) :
    tx2.Settled parse rm ∧ tx2.Hash = tx.Hash ∧ rm tx2.Hash = some receipt ∧
    tx2.receiptStatus = (parse receipt.Status).1 ∧
    tx2.tokenTfs =
      (if (parse receipt.Status).1 = 1 then
        (receipt.Logs.filter isTransferLog).map (recordOf tx2.Hash)
       else []) := by
  obtain ⟨hH, hh, hst, htf, -, -⟩ := resolved_fields parse tx tx2 receipt hp htx
  obtain ⟨hs1, hs2⟩ := hs
  have hrm2 : rm tx2.Hash = some receipt := by rw [hH, ← hs1]; exact hrm
  have htf2 : tx2.tokenTfs =
      (if (parse receipt.Status).1 = 1 then
        (receipt.Logs.filter isTransferLog).map (recordOf tx2.Hash)
       else []) := by
    rw [htf, hH, ← hs1]
    by_cases hv : (parse receipt.Status).1 = 1
    · rw [if_pos hv, if_pos hv]
    · rw [if_neg hv, if_neg hv]
      rcases hs2 with h0 | ⟨r, hr, hv1, -⟩
      · exact h0
      · rw [← hs1, hrm] at hr
        injection hr with hr
        subst hr
        exact absurd hv1 hv
  refine ⟨⟨by rw [hh, hH]; exact hs1, ?_⟩, hH, hrm2, hst, htf2⟩
  by_cases hv : (parse receipt.Status).1 = 1
  · exact Or.inr ⟨receipt, hrm2, hv, by rw [htf2, if_pos hv]⟩
  · exact Or.inl (by rw [htf2, if_neg hv])

/-- Helper: the result loop leaves settled transactions settled, whether it
succeeds or not. -/
theorem collect_settled (parse : String → Nat × Option GoError) (rm : ReceiptMap) :
    ∀ (txs txs1 : List jsonTransaction) (res : Except GoError (List jsonTransaction)),
      (∀ tx ∈ txs, tx.Settled parse rm) → collect parse rm txs = (txs1, res) →
      ∀ tx ∈ txs1, tx.Settled parse rm := by
  intro txs
  induction txs with
  | nil =>
    intro txs1 res _ h
    simp only [collect, Prod.mk.injEq] at h
    rw [← h.1]; simp
  | cons tx rest ih =>
    intro txs1 res hs h
    have hs0 := hs tx (List.mem_cons_self _ _)
    have hsr : ∀ t ∈ rest, t.Settled parse rm := fun t ht => hs t (List.mem_cons_of_mem _ ht)
    unfold collect at h
    cases hrm : rm tx.hash with
    | none =>
      simp only [hrm, Prod.mk.injEq] at h
      rw [← h.1]; exact hs
    | some receipt =>
      rcases hp : parse receipt.Status with ⟨v, _ | e⟩
      · have hq : (parse receipt.Status).2 = none := by rw [hp]
        obtain ⟨h2, -⟩ := resolved_settled parse rm tx _ receipt hs0 hrm hq rfl
        simp only [jsonTransaction.combineReceipt, hp, attachTransfers_eq] at h2
        rcases hc : collect parse rm rest with ⟨rest1, e | result1⟩
        · simp only [hrm, jsonTransaction.combineReceipt, hp, attachTransfers_eq, hc,
            Prod.mk.injEq] at h
          rw [← h.1]
          intro t ht
          rcases List.mem_cons.1 ht with heq | hin
          · rw [heq]; exact h2
          · exact ih rest1 _ hsr hc t hin
        · simp only [hrm, jsonTransaction.combineReceipt, hp, attachTransfers_eq, hc,
            Prod.mk.injEq] at h
          rw [← h.1]
          intro t ht
          rcases List.mem_cons.1 ht with heq | hin
          · rw [heq]; exact h2
          · exact ih rest1 _ hsr hc t hin
      · simp only [hrm, jsonTransaction.combineReceipt, hp, Prod.mk.injEq] at h
        rw [← h.1]
        intro t ht
        rcases List.mem_cons.1 ht with heq | hin
        · rw [heq]; exact hs0
        · exact hsr t hin

end eth

namespace eth

/-- Helper: a transaction with the records its receipt calls for has a record
exactly when the block keeps it. -/
theorem keeps_iff (parse : String → Nat × Option GoError) (b : jsonBlock)
    (tx : jsonTransaction) (receipt : jsonTransactionReceipt)
    (hrm : b.receiptsMap tx.Hash = some receipt)
    (htf : tx.tokenTfs =
      (if (parse receipt.Status).1 = 1 then
        (receipt.Logs.filter isTransferLog).map (recordOf tx.Hash)
       else [])) :
    (tx.tokenTfs.length > 0 ↔ b.keeps parse tx = true) ∧
    (tx.tokenTfs ≠ [] ↔ b.keeps parse tx = true) := by
  have h : tx.tokenTfs ≠ [] ↔ b.keeps parse tx = true := by
    unfold jsonBlock.keeps
    rw [hrm, htf]
    by_cases hv : (parse receipt.Status).1 = 1
    · simp [hv, List.filter_eq_nil_iff]
    · simp [hv]
  exact ⟨by rw [← h]; exact List.length_pos, h⟩

/-- Helper: on settled transactions a successful result loop returns the
transactions the block keeps. -/
theorem collect_kept (parse : String → Nat × Option GoError) (b : jsonBlock) :
    ∀ (txs txs1 result : List jsonTransaction),
      (∀ tx ∈ txs, tx.Settled parse b.receiptsMap) →
      collect parse b.receiptsMap txs = (txs1, Except.ok result) →
      txs1.map (fun tx => tx.Hash) = txs.map (fun tx => tx.Hash) ∧
      result = txs1.filter (b.keeps parse) ∧
      ∀ tx ∈ txs1, ∃ receipt, b.receiptsMap tx.Hash = some receipt ∧
        tx.receiptStatus = (parse receipt.Status).1 ∧
        tx.tokenTfs =
          (if (parse receipt.Status).1 = 1 then
            (receipt.Logs.filter isTransferLog).map (recordOf tx.Hash)
           else []) := by
  intro txs
  induction txs with
  | nil =>
    intro txs1 result _ h
    simp only [collect, Prod.mk.injEq, Except.ok.injEq] at h
    rw [← h.1, ← h.2]; simp
  | cons tx rest ih =>
    intro txs1 result hs h
    have hs0 := hs tx (List.mem_cons_self _ _)
    have hsr : ∀ t ∈ rest, t.Settled parse b.receiptsMap :=
      fun t ht => hs t (List.mem_cons_of_mem _ ht)
    obtain ⟨receipt, rest1, result1, hrm, hp, hc, ht, hr⟩ :=
      collect_cons_ok parse b.receiptsMap tx rest _ _ h
    obtain ⟨-, hH, hrm2, hst, htf⟩ :=
      resolved_settled parse b.receiptsMap tx _ receipt hs0 hrm hp rfl
    obtain ⟨ihm, ihr, iha⟩ := ih rest1 result1 hsr hc
    obtain ⟨hk, -⟩ := keeps_iff parse b _ receipt hrm2 htf
    rw [ht, hr]
    refine ⟨by simp [hH, ihm], ?_, ?_⟩
    · rw [List.filter_cons]
      by_cases hkeep :
          b.keeps parse (attachTransfers (tx.combineReceipt parse receipt).1 receipt).1 = true
      · rw [if_pos (hk.2 hkeep), if_pos hkeep, ihr]
      · rw [if_neg (fun hlen => hkeep (hk.1 hlen)), if_neg hkeep, ihr]
    · intro t ht1
      rcases List.mem_cons.1 ht1 with heq | hin
      · rw [heq]; exact ⟨receipt, hrm2, hst, htf⟩
      · exact iha t hin

end eth

namespace eth

/-- Helper: when the block `if !b.receiptsReady` ends without error, the
block has the same transactions, all settled. -/
theorem fetchReceipts_settled (nd : Node) (p p0 : producer) (b b0 : jsonBlock)
    (hb : b.receiptsReady = true →
      ∀ tx ∈ b.Transactions, tx.Settled nd.ParseUint b.receiptsMap)
    (h : p.fetchReceipts nd b = Run.done (none, b0, p0)) :
    b0.Transactions.map (fun tx => tx.Hash) = b.Transactions.map (fun tx => tx.Hash) ∧
    ∀ tx ∈ b0.Transactions, tx.Settled nd.ParseUint b0.receiptsMap := by
  rcases fetchReceipts_cases nd p p0 b b0 none h with h1 | h1 | h1
  · obtain ⟨hr, -, hb0, -⟩ := h1
    rw [hb0]
    exact ⟨rfl, hb hr⟩
  · exact absurd rfl h1.2.1
  · obtain ⟨-, -, txs, m, hc, hb0⟩ := h1
    obtain ⟨hm, ha⟩ := convertAll_ok nd.ParseUint _ _ hc
    rw [hb0]
    exact ⟨hm, fun tx ht => ⟨(ha tx ht).1, Or.inl (ha tx ht).2⟩⟩

/-- Helper: the transactions of a reachable block marked `receiptsReady` are
settled. -/
theorem reachable_settled (nd : Node) (b : jsonBlock) (hb : jsonBlock.Reachable nd b) :
    b.receiptsReady = true → ∀ tx ∈ b.Transactions, tx.Settled nd.ParseUint b.receiptsMap := by
  induction hb with
  | fresh b h =>
    intro hr
    rw [h] at hr
    exact absurd hr (by decide)
  | call p p1 b b1 res _ hcall ih =>
    intro hr
    unfold producer.GetRelatedTransactions at hcall
    rcases hf : p.fetchReceipts nd b with ⟨⟨_ | e, b0, p0⟩⟩ | q | _
    · obtain ⟨-, hs⟩ := fetchReceipts_settled nd p p0 b b0 ih hf
      rcases hc : collect nd.ParseUint b0.receiptsMap b0.Transactions with ⟨txs1, e | res1⟩
      · simp only [hf, hc, Run.done.injEq, Prod.mk.injEq] at hcall
        rw [← hcall.2.1]
        exact collect_settled nd.ParseUint b0.receiptsMap _ _ _ hs hc
      · simp only [hf, hc, Run.done.injEq, Prod.mk.injEq] at hcall
        rw [← hcall.2.1]
        exact collect_settled nd.ParseUint b0.receiptsMap _ _ _ hs hc
    · simp only [hf, Run.done.injEq, Prod.mk.injEq] at hcall
      rcases fetchReceipts_cases nd p p0 b b0 (some e) hf with h1 | h1 | h1
      · exact absurd h1.2.1 (by simp)
      · rw [← hcall.2.1, h1.2.2] at hr
        exact absurd hr (by decide)
      · exact absurd h1.2.1 (by simp)
    · simp [hf] at hcall
    · simp [hf] at hcall

/-- C15: for every block object a program can hold on which
`GetRelatedTransactions` succeeds: the block has the same transactions in the
same order as before, each with a receipt, the parsed status of that receipt
and the records of the qualifying logs of that receipt if the status is 1, no
records otherwise; the returned list is the block's transactions, in block
order, whose receipt has status 1 and at least one qualifying Transfer log;
and a transaction is returned exactly when it has a token-transfer record. -/
theorem GetRelatedTransactions_kept (nd : Node) (p p1 : producer) (b b1 : jsonBlock)
    (result : List jsonTransaction) (hb : jsonBlock.Reachable nd b)
    (h : p.GetRelatedTransactions nd b = Run.done (Except.ok result, b1, p1)) :
    b1.Transactions.map (fun tx => tx.Hash) = b.Transactions.map (fun tx => tx.Hash) ∧
    result = b1.Transactions.filter (b1.keeps nd.ParseUint) ∧
    (∀ tx ∈ b1.Transactions, ∃ receipt, b1.receiptsMap tx.Hash = some receipt ∧
      tx.receiptStatus = (nd.ParseUint receipt.Status).1 ∧
      tx.tokenTfs =
        (if (nd.ParseUint receipt.Status).1 = 1 then
          (receipt.Logs.filter isTransferLog).map (recordOf tx.Hash)
         else [])) ∧
    (∀ tx ∈ b1.Transactions, tx ∈ result ↔ tx.tokenTfs ≠ []) := by
  unfold producer.GetRelatedTransactions at h
  rcases hf : p.fetchReceipts nd b with ⟨⟨_ | e, b0, p0⟩⟩ | q | _
  · obtain ⟨hm, hs⟩ := fetchReceipts_settled nd p p0 b b0 (reachable_settled nd b hb) hf
    rcases hc : collect nd.ParseUint b0.receiptsMap b0.Transactions with ⟨txs1, e | res1⟩
    · simp [hf, hc] at h
    · simp only [hf, hc, Run.done.injEq, Prod.mk.injEq, Except.ok.injEq] at h
      obtain ⟨hres, hb1, -⟩ := h
      obtain ⟨hm1, hr1, ha1⟩ := collect_kept nd.ParseUint b0 _ _ _ hs hc
      subst hres hb1
      refine ⟨hm1.trans hm, hr1, ha1, ?_⟩
      intro tx ht
      obtain ⟨receipt, hrm, -, htf⟩ := ha1 tx ht
      have hk := (keeps_iff nd.ParseUint { b0 with Transactions := txs1 } tx receipt hrm htf).2
      rw [hk, hr1, List.mem_filter]
      exact ⟨fun hx => hx.2, fun hx => ⟨ht, hx⟩⟩
  · simp [hf] at h
  · simp [hf] at h
  · simp [hf] at h

/-- Example for C15: of the transactions of the block `B`, `t1` succeeded with
a Transfer log, `t2` succeeded without logs and `t3` failed; `t1` alone is
returned. -/
theorem GetRelatedTransactions_kept_witness :
    ∃ b1 p1,
      sampleStart.GetRelatedTransactions (sampleNode "B") sampleBlock =
        Run.done (Except.ok [sampleConverted "t1" 1 [sampleTransfer]], b1, p1) ∧
      b1.Transactions = [sampleConverted "t1" 1 [sampleTransfer], sampleConverted "t2" 1 [],
        sampleConverted "t3" 0 []] ∧
      [sampleConverted "t1" 1 [sampleTransfer]] =
        b1.Transactions.filter (b1.keeps (sampleNode "B").ParseUint) :=
  ⟨_, _, rfl, rfl,
    (GetRelatedTransactions_kept (sampleNode "B") sampleStart _ sampleBlock _ _
      (jsonBlock.Reachable.fresh _ rfl) rfl).2.1⟩

end eth

namespace btc

/-! ## The ancestor round -/

/-- C20 at an input where the code leaves it: when the first input of the
first transaction of the block is unresolved, its ancestor was fetched, and
its `PrevVoutIndex` is negative (an output index that no ancestor has),
`convertWithCheckNode` returns no error: the bounds check passes and the
access `preTx.Vout[vin.PrevVoutIndex]` panics. -/
theorem convertWithCheckNode_negative_index (b : jsonBlock) (txes restTx : List jsonTransaction)
    (tx preTx : jsonTransaction) (vin : jsonVin) (rest : List jsonVin)
    (hb : b.txes = tx :: restTx) (hv : tx.Vin = vin :: rest)
    (hg : vin.gotAddress = false)
    (hm : buildTxMap txes vin.PrevTxHash = some preTx)
    (hneg : vin.PrevVoutIndex < 0) (hmin : -2 ^ 63 ≤ vin.PrevVoutIndex) :
    b.convertWithCheckNode txes = Run.panic "index out of range" := by
  have hw : wrapInt (vin.PrevVoutIndex + 1) = vin.PrevVoutIndex + 1 := by
    unfold wrapInt; omega
  have hlen : ¬ ((preTx.Vout.length : Int) < wrapInt (vin.PrevVoutIndex + 1)) := by
    rw [hw]; omega
  have h1 : checkVin (buildTxMap txes) tx vin = Run.panic "index out of range" := by
    unfold checkVin
    simp only [hg, Bool.false_eq_true, if_false, hm, hlen, hneg, if_true]
  simp only [jsonBlock.convertWithCheckNode, hb, checkTxes, hv, checkVins, h1]

/-- Example for C20: the input of `t1` points at the output `-1` of the
fetched ancestor `p0`. -/
theorem convertWithCheckNode_negative_index_witness :
    ({ sampleBlock with txes := [sampleSpend (-1)] } : jsonBlock).convertWithCheckNode
      [sampleAncestor] = Run.panic "index out of range" :=
  convertWithCheckNode_negative_index _ [sampleAncestor] [] (sampleSpend (-1)) sampleAncestor
    _ [] rfl rfl rfl rfl (by decide) (by decide)

end btc

namespace btc

/-- Helper: converting an output again changes nothing. -/
theorem jsonVout_convert_idem (v : jsonVout) : v.convert.1.convert.1 = v.convert.1 := by
  simp [jsonVout.convert, getAddressFromScript, getSatoshiValue]

/-- Helper: `jsonVout.convert` returns no error. -/
theorem jsonVout_convert_ok (v : jsonVout) : v.convert = (v.convert.1, none) := by
  simp [jsonVout.convert, getAddressFromScript, getSatoshiValue]

/-- Helper: writing the converted output back does not change the outputs up
to conversion. -/
theorem map_convert_set (l : List jsonVout) (i : Nat) (v : jsonVout) (h : l[i]? = some v) :
    (l.set i v.convert.1).map (fun o => o.convert.1) = l.map (fun o => o.convert.1) := by
  apply List.ext_getElem?
  intro n
  rw [List.getElem?_map, List.getElem?_map, List.getElem?_set]
  by_cases hn : i = n
  · subst hn
    obtain ⟨hi, hv⟩ := List.getElem?_eq_some.1 h
    simp [hi, h, jsonVout_convert_idem]
  · simp [hn]

end btc

namespace btc

/-- Helper: one input of the ancestor round, for an index the bounds check
covers: the round does not panic, it fails exactly when the referenced output
is not among the ancestors, and otherwise resolves the input. -/
theorem checkVin_in_range (m m0 : TxMap) (tx : jsonTransaction) (vin : jsonVin)
    (ha : m.Agrees m0)
    (hr : vin.gotAddress = false → 0 ≤ vin.PrevVoutIndex ∧ vin.PrevVoutIndex < 2 ^ 63 - 1) :
    ∃ m1 vin1 err, checkVin m tx vin = Run.done (m1, vin1, err) ∧ m1.Agrees m0 ∧
      (err = none ↔ (vin.gotAddress = false → hasAncestor m0 vin = true)) ∧
      (err = none → vin1 = resolveVin m0 vin) := by
  by_cases hg : vin.gotAddress = true
  · exact ⟨m, vin, none, by simp [checkVin, hg], ha, by simp [hg], fun _ => by simp [resolveVin, hg]⟩
  · have hg1 : vin.gotAddress = false := by simpa using hg
    obtain ⟨h0, h1⟩ := hr hg1
    have hagree := ha vin.PrevTxHash
    cases hm : m vin.PrevTxHash with
    | none =>
      have hm0 : m0 vin.PrevTxHash = none := by
        rw [hm] at hagree
        simpa using hagree.symm
      exact ⟨m, vin, some (GoError.errorf "lost pre tx(%s) while check %s's vin(%d)"
          [vin.PrevTxHash, tx.Hash, toString vin.index]),
        by simp only [checkVin, hg1, hm, Bool.false_eq_true, if_false], ha,
        by simp [hasAncestor, hm0, hg1], by simp⟩
    | some preTx =>
      rw [hm] at hagree
      cases hm0 : m0 vin.PrevTxHash with
      | none => rw [hm0] at hagree; simp at hagree
      | some preTx0 =>
        rw [hm0] at hagree
        simp only [Option.map_some', Option.some.injEq] at hagree
        have hlen : preTx.Vout.length = preTx0.Vout.length := by
          have := congrArg List.length hagree
          simpa using this
        have hw : wrapInt (vin.PrevVoutIndex + 1) = vin.PrevVoutIndex + 1 := by
          unfold wrapInt; omega
        by_cases hlt : (preTx.Vout.length : Int) < vin.PrevVoutIndex + 1
        · refine ⟨m, vin, some (GoError.errorf
              "lost pre tx(%s)'s vout(%d) while check %s's vin(%d)"
              [vin.PrevTxHash, toString vin.PrevVoutIndex, tx.Hash, toString vin.index]),
            by simp only [checkVin, hg1, hm, hw, hlt, Bool.false_eq_true, if_false, if_true],
            ha, ?_, by simp⟩
          simp only [hasAncestor, hm0, hg1, reduceCtorEq, false_iff, true_implies,
            decide_eq_true_eq, not_and]
          omega
        · have hi : vin.PrevVoutIndex.toNat < preTx.Vout.length := by omega
          have hi0 : vin.PrevVoutIndex.toNat < preTx0.Vout.length := by omega
          have hv : preTx.Vout[vin.PrevVoutIndex.toNat]? =
              some (preTx.Vout[vin.PrevVoutIndex.toNat]) := List.getElem?_eq_getElem hi
          have hv0 : preTx0.Vout[vin.PrevVoutIndex.toNat]? =
              some (preTx0.Vout[vin.PrevVoutIndex.toNat]) := List.getElem?_eq_getElem hi0
          have hsame : (preTx.Vout[vin.PrevVoutIndex.toNat]).convert.1 =
              (preTx0.Vout[vin.PrevVoutIndex.toNat]).convert.1 := by
            have := congrArg (fun l => l[vin.PrevVoutIndex.toNat]?) hagree
            simpa [List.getElem?_map, hv, hv0] using this
          have hneg : ¬ vin.PrevVoutIndex < 0 := by omega
          refine ⟨m.set vin.PrevTxHash
              { preTx with
                Vout := preTx.Vout.set vin.PrevVoutIndex.toNat
                  (preTx.Vout[vin.PrevVoutIndex.toNat]).convert.1 },
            { vin with address := (preTx.Vout[vin.PrevVoutIndex.toNat]).convert.1.toAddress,
                       value := (preTx.Vout[vin.PrevVoutIndex.toNat]).convert.1.value,
                       gotAddress := true, gotValue := true }, none, ?_, ?_, ?_, ?_⟩
          · simp only [checkVin, hg1, hm, hw, hlt, hneg, hv, Bool.false_eq_true, if_false]
            rw [jsonVout_convert_ok]
          · intro h
            unfold TxMap.set
            by_cases hh : h = vin.PrevTxHash
            · subst hh
              simp only [if_true, Option.map_some', hm0, Option.some.injEq]
              rw [map_convert_set _ _ _ hv]
              exact hagree
            · simp only [hh, if_false]
              exact ha h
          · simp only [hasAncestor, hm0, hg1, true_iff, true_implies, decide_eq_true_eq]
            omega
          · intro _
            simp only [resolveVin, hg1, hm0, hv0, hsame, Bool.false_eq_true, if_false]

end btc

namespace btc

/-- Helper: the inputs of one transaction in the ancestor round, for indexes
the bounds check covers. -/
theorem checkVins_in_range (m0 : TxMap) (tx : jsonTransaction) :
    ∀ (vins : List jsonVin) (m : TxMap), m.Agrees m0 →
      (∀ vin ∈ vins, vin.gotAddress = false →
        0 ≤ vin.PrevVoutIndex ∧ vin.PrevVoutIndex < 2 ^ 63 - 1) →
      ∃ m1 vins1 err, checkVins tx m vins = Run.done (m1, vins1, err) ∧ m1.Agrees m0 ∧
        (err = none ↔ ∀ vin ∈ vins, vin.gotAddress = false → hasAncestor m0 vin = true) ∧
        (err = none → vins1 = vins.map (resolveVin m0)) := by
  intro vins
  induction vins with
  | nil =>
    intro m ha _
    exact ⟨m, [], none, rfl, ha, by simp, by simp⟩
  | cons vin rest ih =>
    intro m ha hr
    obtain ⟨m1, vin1, err1, h1, ha1, hiff1, hres1⟩ :=
      checkVin_in_range m m0 tx vin ha (hr vin (List.mem_cons_self _ _))
    cases err1 with
    | some e =>
      refine ⟨m1, vin1 :: rest, some e, by simp only [checkVins, h1], ha1, ?_, by simp⟩
      constructor
      · intro h; exact absurd h (by simp)
      · intro h
        exact absurd (hiff1.2 (h vin (List.mem_cons_self _ _))) (by simp)
    | none =>
      obtain ⟨m2, rest1, err2, h2, ha2, hiff2, hres2⟩ :=
        ih m1 ha1 (fun v hv => hr v (List.mem_cons_of_mem _ hv))
      refine ⟨m2, vin1 :: rest1, err2, by simp only [checkVins, h1, h2], ha2, ?_, ?_⟩
      · rw [hiff2, List.forall_mem_cons]
        exact ⟨fun h => ⟨hiff1.1 rfl, h⟩, fun h => h.2⟩
      · intro h
        rw [hres1 rfl, hres2 h, List.map_cons]

/-- Helper: the transactions of the block in the ancestor round, for indexes
the bounds check covers. -/
theorem checkTxes_in_range (m0 : TxMap) :
    ∀ (txs : List jsonTransaction) (m : TxMap), m.Agrees m0 →
      (∀ tx ∈ txs, ∀ vin ∈ tx.Vin, vin.gotAddress = false →
        0 ≤ vin.PrevVoutIndex ∧ vin.PrevVoutIndex < 2 ^ 63 - 1) →
      ∃ txs1 err, checkTxes m txs = Run.done (txs1, err) ∧
        (err = none ↔
          ∀ tx ∈ txs, ∀ vin ∈ tx.Vin, vin.gotAddress = false → hasAncestor m0 vin = true) ∧
        (err = none →
          txs1 = txs.map fun tx => { tx with Vin := tx.Vin.map (resolveVin m0) }) := by
  intro txs
  induction txs with
  | nil =>
    intro m _ _
    exact ⟨[], none, rfl, by simp, by simp⟩
  | cons tx rest ih =>
    intro m ha hr
    obtain ⟨m1, vins1, err1, h1, ha1, hiff1, hres1⟩ :=
      checkVins_in_range m0 tx tx.Vin m ha (hr tx (List.mem_cons_self _ _))
    cases err1 with
    | some e =>
      refine ⟨{ tx with Vin := vins1 } :: rest, some e, by simp only [checkTxes, h1], ?_,
        by simp⟩
      constructor
      · intro h; exact absurd h (by simp)
      · intro h
        exact absurd (hiff1.2 (h tx (List.mem_cons_self _ _))) (by simp)
    | none =>
      obtain ⟨rest1, err2, h2, hiff2, hres2⟩ :=
        ih m1 ha1 (fun t ht => hr t (List.mem_cons_of_mem _ ht))
      refine ⟨{ tx with Vin := vins1 } :: rest1, err2, by simp only [checkTxes, h1, h2], ?_, ?_⟩
      · rw [hiff2, List.forall_mem_cons]
        exact ⟨fun h => ⟨hiff1.1 rfl, h⟩, fun h => h.2⟩
      · intro h
        rw [hres1 rfl, hres2 h, List.map_cons]

/-- The ancestor round for indexes the bounds check covers: when every
unresolved input of the block has `0 ≤ PrevVoutIndex < 2 ^ 63 - 1`,
`convertWithCheckNode` returns; it returns an error exactly when some
unresolved input references a transaction that is not among the fetched
ancestors or an output index that this ancestor does not have; and without
an error every input that was unresolved has the decoded address and value
of the ancestor output at `PrevVoutIndex` and both flags, and every input
that was resolved is as it was. -/
theorem convertWithCheckNode_in_range (b : jsonBlock) (txes : List jsonTransaction)
    (hr : ∀ tx ∈ b.txes, ∀ vin ∈ tx.Vin, vin.gotAddress = false →
      0 ≤ vin.PrevVoutIndex ∧ vin.PrevVoutIndex < 2 ^ 63 - 1) :
    ∃ b1 err, b.convertWithCheckNode txes = Run.done (b1, err) ∧
      (err = none ↔
        ∀ tx ∈ b.txes, ∀ vin ∈ tx.Vin, vin.gotAddress = false →
          hasAncestor (buildTxMap txes) vin = true) ∧
      (err = none →
        b1 = { b with
          txes := b.txes.map fun tx =>
            { tx with Vin := tx.Vin.map (resolveVin (buildTxMap txes)) } }) ∧
      (∀ vin : jsonVin, vin.gotAddress = true → resolveVin (buildTxMap txes) vin = vin) ∧
      (∀ vin : jsonVin, vin.gotAddress = false → hasAncestor (buildTxMap txes) vin = true →
        ∃ preTx vout, buildTxMap txes vin.PrevTxHash = some preTx ∧
          preTx.Vout[vin.PrevVoutIndex.toNat]? = some vout ∧
          resolveVin (buildTxMap txes) vin =
            { vin with address := vout.ScriptPubKey.Address, value := vout.Value,
                       gotAddress := true, gotValue := true }) := by
  obtain ⟨txs1, err, h1, hiff, hres⟩ :=
    checkTxes_in_range (buildTxMap txes) b.txes (buildTxMap txes) (fun _ => rfl) hr
  refine ⟨{ b with txes := txs1 }, err, by simp only [jsonBlock.convertWithCheckNode, h1],
    hiff, fun h => by rw [hres h], ?_, ?_⟩
  · intro vin hg
    simp [resolveVin, hg]
  · intro vin hg hanc
    unfold hasAncestor at hanc
    cases hm : buildTxMap txes vin.PrevTxHash with
    | none => simp [hm] at hanc
    | some preTx =>
      simp only [hm, decide_eq_true_eq] at hanc
      have hi : vin.PrevVoutIndex.toNat < preTx.Vout.length := by omega
      refine ⟨preTx, preTx.Vout[vin.PrevVoutIndex.toNat], rfl, List.getElem?_eq_getElem hi, ?_⟩
      simp [resolveVin, hg, hm, List.getElem?_eq_getElem hi, jsonVout.convert,
        getAddressFromScript, getSatoshiValue]

/-- Example of the ancestor round: the input of `t1` spends the output 0 of
the fetched ancestor `p0` and takes its address and value. -/
theorem convertWithCheckNode_in_range_run :
    ({ sampleBlock with txes := [sampleSpend 0] } : jsonBlock).convertWithCheckNode
        [sampleAncestor] =
      Run.done ({ sampleBlock with
        txes := [{ sampleSpend 0 with
          Vin := [{ PrevTxHash := "p0", PrevVoutIndex := 0, CoinBase := "",
                    ScriptSig := { Asm := sampleAsm, Hex := "" }, index := 0,
                    address := "1Src", value := "0.7", gotAddress := true,
                    gotValue := true }] }] }, none) :=
  rfl

end btc

namespace btc

/-! ## Attribute propagation -/

/-- Helper: the output object after the inner loop of `fillFromAddress` has
the value and address of the last input. -/
theorem foldl_fill (vins : List jsonVin) :
    ∀ vout : jsonVout,
      vins.foldl (fun o vin => { o with value := vin.value, fromAddress := vin.address }) vout =
        match vins.getLast? with
        | none => vout
        | some l => { vout with value := l.value, fromAddress := l.address } := by
  induction vins with
  | nil => intro vout; rfl
  | cons vin rest ih =>
    intro vout
    rw [List.foldl_cons, ih]
    cases rest with
    | nil => rfl
    | cons v2 rest2 =>
      rw [List.getLast?_cons_cons]
      cases h : List.getLast? (v2 :: rest2) with
      | none => simp at h
      | some l => rfl

/-- Helper: the entries `fillFromAddress` appends for one output, when the
transaction has inputs. -/
theorem fillVout_last (init : List jsonVin) (last : jsonVin) (vout : jsonVout) :
    fillVout (init ++ [last]) vout =
      List.replicate (init.length + 1)
        { vout with value := last.value, fromAddress := last.address } := by
  unfold fillVout
  rw [foldl_fill]
  simp

end btc

namespace btc

/-- C21 at an input where the code leaves it: for a transaction with `m`
outputs and `n ≥ 1` inputs `fillFromAddress` returns `nil` and leaves `m * n`
output entries, but the `n` entries of an output are one object, which the
inner loop has overwritten `n` times: every entry carries the address and
the value of the last input. An input whose address is not that of the last
input has no entry with its address as `fromAddress`. -/
theorem fillFromAddress_aliases (t : jsonTransaction) (init : List jsonVin) (last : jsonVin)
    (hv : t.Vin = init ++ [last]) :
    t.fillFromAddress =
      ({ t with
         Vout := t.Vout.flatMap fun o =>
           List.replicate t.Vin.length
             { o with value := last.value, fromAddress := last.address } }, none) ∧
    t.fillFromAddress.1.Vout.length = t.Vout.length * t.Vin.length ∧
    (∀ e ∈ t.fillFromAddress.1.Vout,
      e.fromAddress = last.address ∧ e.value = last.value ∧
      ∃ o ∈ t.Vout, e.toAddress = o.toAddress) ∧
    (∀ vin ∈ t.Vin, vin.address ≠ last.address →
      ∀ e ∈ t.fillFromAddress.1.Vout, e.fromAddress ≠ vin.address) := by
  have h1 : t.fillFromAddress =
      ({ t with
         Vout := t.Vout.flatMap fun o =>
           List.replicate t.Vin.length
             { o with value := last.value, fromAddress := last.address } }, none) := by
    have hf : fillVout t.Vin = fun o =>
        List.replicate t.Vin.length
          { o with value := last.value, fromAddress := last.address } := by
      funext o
      rw [hv, fillVout_last, List.length_append, List.length_singleton]
    unfold jsonTransaction.fillFromAddress
    rw [hf]
  have h2 : ∀ e ∈ t.fillFromAddress.1.Vout,
      e.fromAddress = last.address ∧ e.value = last.value ∧
      ∃ o ∈ t.Vout, e.toAddress = o.toAddress := by
    intro e he
    rw [h1] at he
    simp only [List.mem_flatMap, List.mem_replicate] at he
    obtain ⟨o, ho, -, heq⟩ := he
    subst heq
    exact ⟨rfl, rfl, o, ho, rfl⟩
  refine ⟨h1, ?_, h2, ?_⟩
  · rw [h1]
    simp [List.length_flatMap, Function.comp_def]
  · intro vin _ hne e he
    rw [(h2 e he).1]
    exact fun h => hne h.symm

/-- Example for C21: one output, an input from `1A` and an input from `1B`;
both entries name `1B` with its value, none names `1A`. -/
theorem fillFromAddress_aliases_witness :
    sampleTwoInputs.fillFromAddress.1.Vout.map (fun e => (e.fromAddress, e.value, e.toAddress)) =
      [("1B", "0.4", "1Dest"), ("1B", "0.4", "1Dest")] ∧
    ∀ e ∈ sampleTwoInputs.fillFromAddress.1.Vout, e.fromAddress ≠ "1A" :=
  ⟨rfl,
    (fillFromAddress_aliases sampleTwoInputs [sampleInput "1A" "0.3"] (sampleInput "1B" "0.4")
      rfl).2.2.2 (sampleInput "1A" "0.3") (List.mem_cons_self _ _) (by decide)⟩

end btc

namespace btc

/-! ## Conversion of outputs -/

/-- Helper: what `convert` writes; it does not read `isConverted`. -/
theorem jsonVout_convert_eq (v : jsonVout) :
    v.convert =
      ({ v with toAddress := v.ScriptPubKey.Address, value := v.Value, isConverted := true },
        none) := by
  simp only [jsonVout.convert, getAddressFromScript, getSatoshiValue]

/-- Helper: a reachable output with the flag set carries the address of its
script and its raw value. -/
theorem reachable_converted (v : jsonVout) (hr : v.Reachable) (hflag : v.isConverted = true) :
    v.toAddress = v.ScriptPubKey.Address ∧ v.value = v.Value := by
  cases hr with
  | decoded _ h => rw [h] at hflag; exact absurd hflag (by decide)
  | converted w _ => rw [jsonVout_convert_eq]; exact ⟨rfl, rfl⟩

/-- C23: for every output on which `convert` can be called with `isConverted`
already true (an output that an earlier `convert` has left), the call returns
`nil` and leaves the output exactly as it was, `toAddress` and `value`
included; every output that `convert` leaves has the flag set and is such an
output; and in the ancestor round an unresolved input that references such an
output takes the stored `toAddress` and `value`, and the ancestors are as
they were. -/
theorem jsonVout_convert_again (v : jsonVout) (hr : v.Reachable)
    (hflag : v.isConverted = true) :
    v.convert = (v, none) ∧
    v.convert.1.toAddress = v.toAddress ∧ v.convert.1.value = v.value ∧
    (∀ w : jsonVout, w.Reachable → w.convert.1.Reachable ∧ w.convert.1.isConverted = true) ∧
    (∀ (m : TxMap) (tx preTx : jsonTransaction) (vin : jsonVin),
      vin.gotAddress = false → m vin.PrevTxHash = some preTx →
      0 ≤ vin.PrevVoutIndex → vin.PrevVoutIndex < 2 ^ 63 - 1 →
      preTx.Vout[vin.PrevVoutIndex.toNat]? = some v →
      ∃ m1, checkVin m tx vin =
          Run.done (m1, { vin with address := v.toAddress, value := v.value,
                                   gotAddress := true, gotValue := true }, none) ∧
        ∀ h, m1 h = m h) := by
  obtain ⟨ha, hv⟩ := reachable_converted v hr hflag
  have hsame : v.convert = (v, none) := by
    rw [jsonVout_convert_eq]
    cases v
    simp_all
  refine ⟨hsame, by rw [hsame], by rw [hsame], ?_, ?_⟩
  · intro w hw
    exact ⟨jsonVout.Reachable.converted w hw, by rw [jsonVout_convert_eq]⟩
  · intro m tx preTx vin hg hm h0 h1 hvout
    obtain ⟨hi, hget⟩ := List.getElem?_eq_some.1 hvout
    have hw : wrapInt (vin.PrevVoutIndex + 1) = vin.PrevVoutIndex + 1 := by
      unfold wrapInt; omega
    have hlt : ¬ ((preTx.Vout.length : Int) < vin.PrevVoutIndex + 1) := by omega
    have hneg : ¬ vin.PrevVoutIndex < 0 := by omega
    refine ⟨m.set vin.PrevTxHash
      { preTx with Vout := preTx.Vout.set vin.PrevVoutIndex.toNat v }, ?_, ?_⟩
    · simp only [checkVin, hg, hm, hw, hlt, hneg, hvout, hsame, Bool.false_eq_true, if_false]
    · intro h
      unfold TxMap.set
      by_cases hh : h = vin.PrevTxHash
      · subst hh
        have hset : preTx.Vout.set vin.PrevVoutIndex.toNat v = preTx.Vout := by
          apply List.ext_getElem?
          intro n
          rw [List.getElem?_set]
          by_cases hn : vin.PrevVoutIndex.toNat = n
          · subst hn
            simp [hi, hvout]
          · simp [hn]
        simp only [if_true, hset, hm]
      · simp only [hh, if_false]

/-- Example for C23: the output of 0.7 to `1Src` of the ancestor `p0`, after
its conversion; a further `convert` leaves it as it is. -/
theorem jsonVout_convert_again_witness :
    (sampleOutput "1Src" "0.7").isConverted = true ∧
    (sampleOutput "1Src" "0.7").convert = (sampleOutput "1Src" "0.7", none) :=
  ⟨rfl,
    (jsonVout_convert_again (sampleOutput "1Src" "0.7")
      (jsonVout.Reachable.converted
        { Value := "0.7", Index := 0, ScriptPubKey := { Address := "1Src", Addresses := [] },
          isConverted := false, fromAddress := "", toAddress := "", value := "" }
        (jsonVout.Reachable.decoded _ rfl)) rfl).1⟩

/-- A run of the ancestor round in which two unresolved inputs reference the
same output of `p0`: both take its address and value. -/
theorem convertWithCheckNode_shared_output_run :
    ({ sampleBlock with
        txes := [{ sampleTx with Vin := (sampleSpend 0).Vin ++ (sampleSpend 0).Vin }] } :
      jsonBlock).convertWithCheckNode [sampleAncestor] =
      Run.done ({ sampleBlock with
        txes := [{ sampleTx with
          Vin := [
            { PrevTxHash := "p0", PrevVoutIndex := 0, CoinBase := "",
              ScriptSig := { Asm := sampleAsm, Hex := "" }, index := 0,
              address := "1Src", value := "0.7", gotAddress := true, gotValue := true },
            { PrevTxHash := "p0", PrevVoutIndex := 0, CoinBase := "",
              ScriptSig := { Asm := sampleAsm, Hex := "" }, index := 0,
              address := "1Src", value := "0.7", gotAddress := true,
              gotValue := true }] }] }, none) :=
  rfl

end btc

namespace common

/-! ## Addresses from signature scripts -/

/-- Helper: only the empty token decodes to no bytes. -/
theorem hexDecode_eq_nil (l : List Char) : hexDecode l = some [] ↔ l = [] := by
  cases l with
  | nil => simp [hexDecode]
  | cons a l1 =>
    cases l1 with
    | nil => simp [hexDecode]
    | cons b rest =>
      simp only [hexDecode, reduceCtorEq, iff_false]
      cases hexVal a <;> cases hexVal b <;> cases hexDecode rest <;> simp

/-- Helper: `encodeScriptHash` returns. -/
theorem encodeScriptHash_returns (cr : Crypto) (pubKeyByte inputID : List Nat) :
    ∃ r, encodeScriptHash cr pubKeyByte inputID = Run.done r := by
  unfold encodeScriptHash
  split
  · exact ⟨_, rfl⟩
  · exact ⟨_, rfl⟩

/-- C25 at an input where the code leaves it: `GetAddressFromScriptSig` is
not total. With `first` the first and `last` the last token of the asm
string: if `first` is empty it returns the error "asm can't be null"; if
`first` is not empty and `last` is not empty it returns an address or an
error; if `first` is not empty and `last` is empty (an asm string that ends
in a space), `hex.DecodeString` gives no bytes and no error, and the access
`pubKeyByte[len(pubKeyByte)-1]` is at index -1: the function panics. -/
theorem GetAddressFromScriptSig_empty_last_token (cr : Crypto) (asm : String)
    (isTest : Bool) (first : List Char) (rest : List (List Char))
    (hsplit : splitOnSpace asm.toList = first :: rest) :
    (first = [] →
      GetAddressFromScriptSig cr asm isTest =
        Run.done (Except.error (GoError.new "asm can't be null"))) ∧
    (first ≠ [] → (first :: rest).getLastD [] ≠ [] →
      ∃ r, GetAddressFromScriptSig cr asm isTest = Run.done r) ∧
    (first ≠ [] → (first :: rest).getLastD [] = [] →
      GetAddressFromScriptSig cr asm isTest = Run.panic "index out of range [-1]") := by
  refine ⟨?_, ?_, ?_⟩
  · intro h
    unfold GetAddressFromScriptSig
    simp only [hsplit, h, List.length_nil, if_true]
  · intro h hl
    have hlen : ¬ first.length = 0 := by simpa using h
    unfold GetAddressFromScriptSig
    simp only [hsplit, hlen, if_false]
    cases hd : hexDecode ((first :: rest).getLastD []) with
    | none => exact ⟨_, rfl⟩
    | some pubKeyByte =>
      simp only []
      split
      · exact encodeScriptHash_returns cr pubKeyByte [0]
      · cases hg : pubKeyByte.getLast? with
        | none =>
          have : pubKeyByte = [] := List.getLast?_eq_none_iff.1 hg
          rw [this] at hd
          exact absurd ((hexDecode_eq_nil _).1 hd) hl
        | some lastByte =>
          simp only []
          split
          · exact encodeScriptHash_returns cr pubKeyByte [5]
          · exact encodeScriptHash_returns cr pubKeyByte []
  · intro h hl
    have hlen : ¬ first.length = 0 := by simpa using h
    have hd : hexDecode ((first :: rest).getLastD []) = some [] := (hexDecode_eq_nil _).2 hl
    unfold GetAddressFromScriptSig
    simp only [hsplit, hlen, if_false, hd]
    simp

/-- Example for C25: a signature followed by a space. -/
theorem GetAddressFromScriptSig_empty_last_token_witness :
    GetAddressFromScriptSig btc.sampleCrypto "3044 " false =
      Run.panic "index out of range [-1]" :=
  (GetAddressFromScriptSig_empty_last_token btc.sampleCrypto "3044 " false "3044".toList [[]]
    (by decide)).2.2 (by decide) (by decide)

end common

namespace btc

/-! ## Local conversion of inputs -/

/-- Helper: `GetAddressFromScriptSig` on a last token that decodes to bytes
which are no public key and do not end in `OP_CHECKSIG`. -/
theorem GetAddressFromScriptSig_unrecognised (cr : common.Crypto) (asm : String)
    (isTest : Bool) (first : List Char) (rest : List (List Char)) (pubKeyByte : List Nat)
    (lastByte : Nat)
    (hsplit : common.splitOnSpace asm.toList = first :: rest) (hfirst : first ≠ [])
    (hdec : common.hexDecode ((first :: rest).getLastD []) = some pubKeyByte)
    (hkey : ¬ ((pubKeyByte.length = 65 ∧ pubKeyByte.head? = some 4) ∨
      (pubKeyByte.length = 33 ∧ (pubKeyByte.head? = some 2 ∨ pubKeyByte.head? = some 3))))
    (hlast : pubKeyByte.getLast? = some lastByte) (hop : lastByte ≠ common.OP_CHECKSIG)
    (hhash : (common.Hash160 cr pubKeyByte).length = 20) :
    common.GetAddressFromScriptSig cr asm isTest =
      Run.done (Except.ok (common.CheckEncode cr (common.Hash160 cr pubKeyByte) [])) := by
  have hlen : ¬ first.length = 0 := by simpa using hfirst
  unfold common.GetAddressFromScriptSig
  simp only [hsplit, hlen, if_false, hdec, hkey, hlast, hop, common.encodeScriptHash, hhash,
    ne_eq, not_true_eq_false]

/-- C22 at an input where the code leaves it: when the last token of the asm
string decodes to bytes that are neither a 65-byte key with leading 4, nor a
33-byte key with leading 2 or 3, nor a script ending in `OP_CHECKSIG` (and
there is at least one byte), `GetAddressFromScriptSig` returns no error but
the encoding of the hash under an empty version, and
`convertAddressWithoutCheckNode` leaves the input with `gotAddress` true and
that string as its address. -/
theorem convertAddressWithoutCheckNode_unrecognised (cr : common.Crypto) (v : jsonVin)
    (isTest : Bool) (index : Int) (first : List Char) (rest : List (List Char))
    (pubKeyByte : List Nat) (lastByte : Nat)
    (hsplit : common.splitOnSpace v.ScriptSig.Asm.toList = first :: rest) (hfirst : first ≠ [])
    (hdec : common.hexDecode ((first :: rest).getLastD []) = some pubKeyByte)
    (hkey : ¬ ((pubKeyByte.length = 65 ∧ pubKeyByte.head? = some 4) ∨
      (pubKeyByte.length = 33 ∧ (pubKeyByte.head? = some 2 ∨ pubKeyByte.head? = some 3))))
    (hlast : pubKeyByte.getLast? = some lastByte) (hop : lastByte ≠ common.OP_CHECKSIG)
    (hhash : (common.Hash160 cr pubKeyByte).length = 20) :
    v.convertAddressWithoutCheckNode cr isTest index =
      Run.done { v with index := index,
                        address := common.CheckEncode cr (common.Hash160 cr pubKeyByte) [],
                        gotAddress := true } := by
  unfold jsonVin.convertAddressWithoutCheckNode
  rw [GetAddressFromScriptSig_unrecognised cr v.ScriptSig.Asm isTest first rest pubKeyByte
    lastByte hsplit hfirst hdec hkey hlast hop hhash]

/-- Example for C22: the last token is the one byte 0; the input comes out
resolved, with the address the example encoder gives. -/
theorem convertAddressWithoutCheckNode_unrecognised_witness :
    (sampleUnrecognised.convertAddressWithoutCheckNode sampleCrypto false 0) =
      Run.done { sampleUnrecognised with address := "1ExampleAddress", gotAddress := true } :=
  convertAddressWithoutCheckNode_unrecognised sampleCrypto sampleUnrecognised false 0
    "3044".toList ["00".toList] [0] 0 (by decide) (by decide) (by decide) (by decide) rfl
    (by decide) rfl

end btc

namespace btc

/-! ## Conversion of transactions -/

/-- Helper: the loop over the outputs converts every output and returns no
error. -/
theorem convertVouts_eq (vouts : List jsonVout) :
    convertVouts vouts = (vouts.map fun o => o.convert.1, none) := by
  induction vouts with
  | nil => rfl
  | cons o rest ih =>
    unfold convertVouts
    rw [jsonVout_convert_ok o, ih]
    rfl

/-- Helper: the loop over the inputs, when it returns, has kept the inputs in
number and order, and has given the input at position `k` the index
`i + k`. -/
theorem convertVins_kept (cr : common.Crypto) (isTest : Bool) :
    ∀ (vins out : List jsonVin) (i : Int), convertVins cr isTest vins i = Run.done out →
      List.Forall₂ (fun vin vin1 : jsonVin =>
        vin1.PrevTxHash = vin.PrevTxHash ∧ vin1.PrevVoutIndex = vin.PrevVoutIndex ∧
        vin1.CoinBase = vin.CoinBase ∧ vin1.ScriptSig = vin.ScriptSig ∧
        vin1.value = vin.value ∧ vin1.gotValue = vin.gotValue) vins out ∧
      out.map (fun vin1 => vin1.index) = (List.range vins.length).map (fun k : Nat => i + (k : Int)) := by
  intro vins
  induction vins with
  | nil =>
    intro out i h
    simp only [convertVins, Run.done.injEq] at h
    rw [← h]
    exact ⟨List.Forall₂.nil, rfl⟩
  | cons vin rest ih =>
    intro out i h
    unfold convertVins at h
    rcases hv : vin.convertAddressWithoutCheckNode cr isTest i with vin1 | q | _
    · rcases hr : convertVins cr isTest rest (i + 1) with rest1 | q | _
      · simp only [hv, hr, Run.done.injEq] at h
        obtain ⟨ih1, ih2⟩ := ih rest1 (i + 1) hr
        have hfields : vin1.PrevTxHash = vin.PrevTxHash ∧
            vin1.PrevVoutIndex = vin.PrevVoutIndex ∧ vin1.CoinBase = vin.CoinBase ∧
            vin1.ScriptSig = vin.ScriptSig ∧ vin1.value = vin.value ∧
            vin1.gotValue = vin.gotValue ∧ vin1.index = i := by
          unfold jsonVin.convertAddressWithoutCheckNode at hv
          rcases hg : common.GetAddressFromScriptSig cr vin.ScriptSig.Asm isTest
            with (e | a) | q | _
          · simp only [hg, Run.done.injEq] at hv
            rw [← hv]
            exact ⟨rfl, rfl, rfl, rfl, rfl, rfl, rfl⟩
          · simp only [hg, Run.done.injEq] at hv
            rw [← hv]
            exact ⟨rfl, rfl, rfl, rfl, rfl, rfl, rfl⟩
          · simp [hg] at hv
          · simp [hg] at hv
        rw [← h]
        refine ⟨List.Forall₂.cons ⟨hfields.1, hfields.2.1, hfields.2.2.1, hfields.2.2.2.1,
          hfields.2.2.2.2.1, hfields.2.2.2.2.2.1⟩ ih1, ?_⟩
        rw [List.map_cons, ih2, hfields.2.2.2.2.2.2, List.length_cons, List.range_succ_eq_map,
          List.map_cons, List.map_map]
        congr 1
        · simp
        · apply List.map_congr_left
          intro k _
          simp only [Function.comp_apply, Nat.succ_eq_add_one, Nat.cast_add, Nat.cast_one]
          omega
      · simp [hv, hr] at h
      · simp [hv, hr] at h
    · simp [hv] at h
    · simp [hv] at h

/-- Helper: the loop over the inputs returns when `GetAddressFromScriptSig`
returns for the script of every input. -/
theorem convertVins_returns (cr : common.Crypto) (isTest : Bool) :
    ∀ (vins : List jsonVin) (i : Int),
      (∀ vin ∈ vins, ∃ r, common.GetAddressFromScriptSig cr vin.ScriptSig.Asm isTest =
        Run.done r) →
      ∃ out, convertVins cr isTest vins i = Run.done out := by
  intro vins
  induction vins with
  | nil => intro i _; exact ⟨[], rfl⟩
  | cons vin rest ih =>
    intro i h
    obtain ⟨r, hr⟩ := h vin (List.mem_cons_self _ _)
    obtain ⟨rest1, hrest⟩ := ih (i + 1) (fun v hv => h v (List.mem_cons_of_mem _ hv))
    unfold convertVins jsonVin.convertAddressWithoutCheckNode
    rw [hr]
    cases r with
    | error e => simp only [hrest]; exact ⟨_, rfl⟩
    | ok a => simp only [hrest]; exact ⟨_, rfl⟩

end btc

namespace btc

/-- Helper: `convert` on a coinbase transaction. -/
theorem convert_of_coinbase (cr : common.Crypto) (t : jsonTransaction) (height : Int)
    (isTest : Bool) (hc : t.isCoinbase = true) :
    t.convert cr height isTest =
      Run.done ({ t with txType := "1", Vin := [],
                         Vout := t.Vout.map fun o => o.convert.1 }, none) := by
  unfold jsonTransaction.convert
  simp only [hc, if_true, convertVins, convertVouts_eq]

/-- Helper: `convert` on a transaction that is no coinbase, when it returns. -/
theorem convert_of_other (cr : common.Crypto) (t t1 : jsonTransaction) (height : Int)
    (isTest : Bool) (err : Option GoError) (hc : t.isCoinbase = false)
    (h : t.convert cr height isTest = Run.done (t1, err)) :
    err = none ∧ t1.Hash = t.Hash ∧ t1.txType = t.txType ∧
    List.Forall₂ (fun vin vin1 : jsonVin =>
      vin1.PrevTxHash = vin.PrevTxHash ∧ vin1.PrevVoutIndex = vin.PrevVoutIndex ∧
      vin1.CoinBase = vin.CoinBase ∧ vin1.ScriptSig = vin.ScriptSig ∧
      vin1.value = vin.value ∧ vin1.gotValue = vin.gotValue) t.Vin t1.Vin := by
  unfold jsonTransaction.convert at h
  simp only [hc, Bool.false_eq_true, if_false, convertVouts_eq] at h
  rcases hvins : convertVins cr isTest t.Vin 0 with vins | q | _
  · simp only [hvins, Run.done.injEq, Prod.mk.injEq] at h
    obtain ⟨hf, -⟩ := convertVins_kept cr isTest t.Vin vins 0 hvins
    rw [← h.1, ← h.2]
    exact ⟨rfl, rfl, rfl, hf⟩
  · simp [hvins] at h
  · simp [hvins] at h

/-- C24: coinbase handling. `isCoinbase` is true exactly for a transaction
with one input whose coinbase field is not empty. `convert` on such a
transaction returns `nil`, sets `txType` to "1" and replaces the inputs by the
empty list. `convert` on any other transaction, when
`GetAddressFromScriptSig` returns for the script of every input, returns
`nil`, leaves `txType` as it is and keeps the inputs in number and order (each
with its own reference, coinbase field, script and value, and its position
as `index`); and whenever `convert` returns on such a transaction it has left
`txType` and kept the inputs so. -/
theorem jsonTransaction_convert_coinbase (cr : common.Crypto) (t : jsonTransaction)
    (height : Int) (isTest : Bool) :
    (t.isCoinbase = true ↔ ∃ vin, t.Vin = [vin] ∧ vin.CoinBase ≠ "") ∧
    (t.isCoinbase = true →
      t.convert cr height isTest =
        Run.done ({ t with txType := "1", Vin := [],
                           Vout := t.Vout.map fun o => o.convert.1 }, none)) ∧
    (t.isCoinbase = false →
      (∀ vin ∈ t.Vin, ∃ r, common.GetAddressFromScriptSig cr vin.ScriptSig.Asm isTest =
        Run.done r) →
      ∃ vins, t.convert cr height isTest =
          Run.done ({ t with Vin := vins, Vout := t.Vout.map fun o => o.convert.1 }, none) ∧
        vins.length = t.Vin.length ∧
        vins.map (fun vin1 => vin1.index) =
          (List.range t.Vin.length).map (fun k : Nat => (k : Int))) ∧
    (t.isCoinbase = false → ∀ (t1 : jsonTransaction) (err : Option GoError),
      t.convert cr height isTest = Run.done (t1, err) →
      err = none ∧ t1.txType = t.txType ∧
      List.Forall₂ (fun vin vin1 : jsonVin =>
        vin1.PrevTxHash = vin.PrevTxHash ∧ vin1.PrevVoutIndex = vin.PrevVoutIndex ∧
        vin1.CoinBase = vin.CoinBase ∧ vin1.ScriptSig = vin.ScriptSig ∧
        vin1.value = vin.value ∧ vin1.gotValue = vin.gotValue) t.Vin t1.Vin) := by
  refine ⟨?_, ?_, ?_, ?_⟩
  · unfold jsonTransaction.isCoinbase
    rcases hv : t.Vin with _ | ⟨vin, _ | ⟨v2, rest⟩⟩
    · simp
    · simp only [decide_eq_true_eq, List.cons.injEq, and_true, exists_eq_left', gt_iff_lt]
      rw [Nat.pos_iff_ne_zero, ne_eq, eth.length_zero_iff]
    · simp
  · exact convert_of_coinbase cr t height isTest
  · intro hc hret
    obtain ⟨vins, hvins⟩ := convertVins_returns cr isTest t.Vin 0 hret
    obtain ⟨hf, hidx⟩ := convertVins_kept cr isTest t.Vin vins 0 hvins
    refine ⟨vins, ?_, hf.length_eq.symm, ?_⟩
    · unfold jsonTransaction.convert
      simp only [hc, Bool.false_eq_true, if_false, hvins, convertVouts_eq]
    · rw [hidx]
      simp
  · intro hc t1 err h
    obtain ⟨he, -, ht, hf⟩ := convert_of_other cr t t1 height isTest err hc h
    exact ⟨he, ht, hf⟩

/-- Example for C24: the coinbase transaction `c1`. -/
theorem jsonTransaction_convert_coinbase_witness :
    sampleCoinbase.isCoinbase = true ∧
    sampleCoinbase.convert sampleCrypto 1 false =
      Run.done ({ sampleCoinbase with
        txType := "1", Vin := [],
        Vout := [{ Value := "50", Index := 0,
                   ScriptPubKey := { Address := "1Miner", Addresses := [] },
                   isConverted := true, fromAddress := "", toAddress := "1Miner",
                   value := "50" }] }, none) :=
  ⟨rfl, (jsonTransaction_convert_coinbase sampleCrypto sampleCoinbase 1 false).2.1 rfl⟩

end btc

namespace btc

/-! ## Index safety in the ancestor round -/

/-- C28 at an input where the code leaves it: for an unresolved input whose
ancestor `preTx` was fetched, and every `int64` value of `PrevVoutIndex`:
with `0 ≤ PrevVoutIndex < len(Vout)` the output is read and the input
resolved; with `len(Vout) ≤ PrevVoutIndex < 2^63 - 1` the "lost pre tx vout"
error is returned; with a negative `PrevVoutIndex`, or the largest `int64`
(where `PrevVoutIndex+1` wraps to the smallest), the bounds check
`int64(len(preTx.Vout)) < vin.PrevVoutIndex+1` passes and the access
`preTx.Vout[vin.PrevVoutIndex]` is out of range: the loop body panics, and
so does `convertWithCheckNode` on a block that reaches this input first. -/
theorem checkVin_index_cases (b : jsonBlock) (txes restTx : List jsonTransaction)
    (tx preTx : jsonTransaction) (vin : jsonVin) (rest : List jsonVin)
    (hb : b.txes = tx :: restTx) (hv : tx.Vin = vin :: rest)
    (hg : vin.gotAddress = false)
    (hm : buildTxMap txes vin.PrevTxHash = some preTx)
    (hlo : -2 ^ 63 ≤ vin.PrevVoutIndex) (hhi : vin.PrevVoutIndex ≤ 2 ^ 63 - 1)
    (hlen : (preTx.Vout.length : Int) < 2 ^ 63) :
    (0 ≤ vin.PrevVoutIndex → vin.PrevVoutIndex < preTx.Vout.length →
      ∃ m1 vin1, checkVin (buildTxMap txes) tx vin = Run.done (m1, vin1, none) ∧
        vin1 = resolveVin (buildTxMap txes) vin) ∧
    ((preTx.Vout.length : Int) ≤ vin.PrevVoutIndex → vin.PrevVoutIndex < 2 ^ 63 - 1 →
      checkVin (buildTxMap txes) tx vin =
        Run.done (buildTxMap txes, vin, some (GoError.errorf
          "lost pre tx(%s)'s vout(%d) while check %s's vin(%d)"
          [vin.PrevTxHash, toString vin.PrevVoutIndex, tx.Hash, toString vin.index]))) ∧
    (vin.PrevVoutIndex < 0 ∨ vin.PrevVoutIndex = 2 ^ 63 - 1 →
      checkVin (buildTxMap txes) tx vin = Run.panic "index out of range" ∧
      b.convertWithCheckNode txes = Run.panic "index out of range") := by
  refine ⟨?_, ?_, ?_⟩
  · intro h0 h1
    obtain ⟨m1, vin1, err, hc, -, hiff, hres⟩ :=
      checkVin_in_range (buildTxMap txes) (buildTxMap txes) tx vin (fun _ => rfl)
        (fun _ => ⟨h0, by omega⟩)
    have herr : err = none := by
      rw [hiff]
      intro _
      simp only [hasAncestor, hm, decide_eq_true_eq]
      exact ⟨h0, h1⟩
    subst herr
    exact ⟨m1, vin1, hc, hres rfl⟩
  · intro h0 h1
    have hw : wrapInt (vin.PrevVoutIndex + 1) = vin.PrevVoutIndex + 1 := by
      unfold wrapInt; omega
    have hlt : (preTx.Vout.length : Int) < vin.PrevVoutIndex + 1 := by omega
    simp only [checkVin, hg, hm, hw, hlt, Bool.false_eq_true, if_false, if_true]
  · intro hbad
    have hcheck : ¬ ((preTx.Vout.length : Int) < wrapInt (vin.PrevVoutIndex + 1)) := by
      unfold wrapInt
      omega
    have h1 : checkVin (buildTxMap txes) tx vin = Run.panic "index out of range" := by
      unfold checkVin
      simp only [hg, Bool.false_eq_true, if_false, hm, hcheck]
      by_cases hneg : vin.PrevVoutIndex < 0
      · simp only [hneg, if_true]
      · have hnone : preTx.Vout[vin.PrevVoutIndex.toNat]? = none := by
          apply List.getElem?_eq_none
          omega
        simp only [hneg, if_false, hnone]
    exact ⟨h1, by simp only [jsonBlock.convertWithCheckNode, hb, checkTxes, hv, checkVins, h1]⟩

/-- Example for C28: the input of `t1` points at the output 9223372036854775807
of the fetched ancestor `p0`. -/
theorem checkVin_index_cases_witness :
    ({ sampleBlock with txes := [sampleSpend 9223372036854775807] } :
      jsonBlock).convertWithCheckNode [sampleAncestor] = Run.panic "index out of range" :=
  ((checkVin_index_cases { sampleBlock with txes := [sampleSpend 9223372036854775807] }
    [sampleAncestor] [] (sampleSpend 9223372036854775807) sampleAncestor _ [] rfl rfl rfl rfl
    (by decide) (by decide) (by decide)).2.2 (Or.inr (by decide))).2

end btc

namespace rpc

/-! ## Termination of the splitting loop -/

/-- Helper: the splitting loop entered at the `k0`-th slice with one unit of
fuel per remaining request returns, whatever the node does: it has posted
the slices `k0`, `k0+1`, ... of some number of rounds between 1 and the
number of slices left, and fewer rounds only with an error. -/
theorem splitLoop_returns {α σ : Type} (env : Env α σ) (reqs : List jsonRPCSendMessage)
    (C : Nat) (hC : 0 < C) :
    ∀ (fuel k0 : Nat) (net : List Body) (resp : List (Option jsonRPCReceiveMessage)),
      k0 * C < reqs.length → reqs.length - k0 * C ≤ fuel →
      ∃ r res, 1 ≤ r ∧ r ≤ (reqs.length - k0 * C + C - 1) / C ∧
        splitLoop env reqs C reqs.length fuel (k0 * C) (k0 * C + C) net resp =
          Run.done (net ++ (List.range' k0 r).map
            (fun k => Body.batch (subRequest reqs C k)), res) ∧
        (r < (reqs.length - k0 * C + C - 1) / C → ∃ e, res = Except.error e) := by
  intro fuel
  induction fuel with
  | zero => intro k0 net resp h1 h2; omega
  | succ fuel ih =>
    intro k0 net resp h1 h2
    have hj : (if reqs.length < k0 * C + C then reqs.length else k0 * C + C) =
        min ((k0 + 1) * C) reqs.length := by
      rw [Nat.succ_mul]
      split <;> omega
    have hslice : goSlice reqs (k0 * C) (min ((k0 + 1) * C) reqs.length) =
        Run.done (subRequest reqs C k0) := by
      unfold goSlice subRequest
      rw [if_pos]
      rw [Nat.succ_mul]
      omega
    have hpos : 1 ≤ (reqs.length - k0 * C + C - 1) / C :=
      (Nat.le_div_iff_mul_le hC).2 (by omega)
    unfold splitLoop
    simp only [hj, hslice, batchSyncRequest]
    cases hs : env.server net (Body.batch (subRequest reqs C k0)) with
    | error e =>
      exact ⟨1, Except.error e, le_refl 1, hpos, rfl, fun _ => ⟨e, rfl⟩⟩
    | ok buf =>
      simp only []
      cases hd : env.decode buf with
      | none =>
        exact ⟨1, Except.error (pasteError buf), le_refl 1, hpos, rfl, fun _ => ⟨_, rfl⟩⟩
      | some rs =>
        simp only []
        by_cases hlast : k0 * C + C ≥ reqs.length
        · rw [if_pos hlast]
          have hr : (reqs.length - k0 * C + C - 1) / C = 1 :=
            Nat.div_eq_of_lt_le (by omega) (by omega)
          exact ⟨1, Except.ok (resp ++ rs), le_refl 1, hpos, rfl, fun h => by omega⟩
        · rw [if_neg hlast]
          have hmin : min ((k0 + 1) * C) reqs.length = (k0 + 1) * C := by
            rw [Nat.succ_mul]
            omega
          have hk1 : (k0 + 1) * C < reqs.length := by
            rw [Nat.succ_mul]
            omega
          have hf : reqs.length - (k0 + 1) * C ≤ fuel := by
            rw [Nat.succ_mul]
            omega
          obtain ⟨r, res, hr1, hr2, hrec, herr⟩ :=
            ih (k0 + 1) (net ++ [Body.batch (subRequest reqs C k0)]) (resp ++ rs) hk1 hf
          have hr : (reqs.length - k0 * C + C - 1) / C =
              (reqs.length - (k0 + 1) * C + C - 1) / C + 1 := by
            rw [← Nat.add_div_right _ hC]
            congr 1
            rw [Nat.succ_mul]
            omega
          refine ⟨r + 1, res, by omega, by omega, ?_, fun h => herr (by omega)⟩
          rw [hmin, Nat.succ_mul k0 C] at *
          rw [hrec, List.range'_succ, List.map_cons, List.append_assoc]
          rfl

end rpc

namespace rpc

/-- C29: the splitting loop of `BatchSyncCall` terminates. With the cap
`C = maxBatchNum > 0` enabled and `N > C` requests, whatever the node
answers, the loop returns without running out of rounds and without a slice
out of bounds: it has posted the slices `requestList[k*C : min((k+1)*C, N)]`
for `k = 0, ..., r - 1`, one per round, with `1 ≤ r ≤ ceil(N/C)`; it leaves
before round `ceil(N/C)` only by returning the error of a failed post or
decoding. Every slice has `0 ≤ k*C < min((k+1)*C, N) ≤ N`, and the start of
slice `k + 1` is the start of slice `k` plus `C`. -/
theorem fetchResponses_terminates {α σ : Type} (env : Env α σ) (c : Client) (net : List Body)
    (requestList : List jsonRPCSendMessage)
    (hcap : c.enableMaxBatch = true) (hC : 0 < c.maxBatchNum)
    (hN : c.maxBatchNum < (requestList.length : Int)) :
    (∃ r res,
      c.fetchResponses env net requestList =
        Run.done (net ++ (List.range r).map
          (fun k => Body.batch (subRequest requestList c.maxBatchNum.toNat k)), res) ∧
      1 ≤ r ∧
      r ≤ (requestList.length + c.maxBatchNum.toNat - 1) / c.maxBatchNum.toNat ∧
      (r < (requestList.length + c.maxBatchNum.toNat - 1) / c.maxBatchNum.toNat →
        ∃ e, res = Except.error e)) ∧
    (∀ k : Nat,
      k < (requestList.length + c.maxBatchNum.toNat - 1) / c.maxBatchNum.toNat →
      k * c.maxBatchNum.toNat < min ((k + 1) * c.maxBatchNum.toNat) requestList.length ∧
      min ((k + 1) * c.maxBatchNum.toNat) requestList.length ≤ requestList.length ∧
      (k + 1) * c.maxBatchNum.toNat = k * c.maxBatchNum.toNat + c.maxBatchNum.toNat ∧
      goSlice requestList (k * c.maxBatchNum.toNat)
          (min ((k + 1) * c.maxBatchNum.toNat) requestList.length) =
        Run.done (subRequest requestList c.maxBatchNum.toNat k)) := by
  have hCn : (c.maxBatchNum.toNat : Int) = c.maxBatchNum := Int.toNat_of_nonneg (le_of_lt hC)
  generalize hCdef : c.maxBatchNum.toNat = C at hCn ⊢
  have hC0 : 0 < C := by omega
  have hCN : C < requestList.length := by omega
  constructor
  · obtain ⟨r, res, hr1, hr2, hloop, herr⟩ :=
      splitLoop_returns env requestList C hC0 requestList.length 0 net []
        (by simpa using (by omega : 0 < requestList.length)) (by simp)
    simp only [Nat.zero_mul, Nat.zero_add, Nat.sub_zero] at hloop hr2 herr
    rw [← List.range_eq_range'] at hloop
    refine ⟨r, res, ?_, hr1, hr2, herr⟩
    unfold Client.fetchResponses
    have hcond : (!c.enableMaxBatch || decide (c.maxBatchNum ≤ 0) ||
        decide ((requestList.length : Int) ≤ c.maxBatchNum)) = false := by
      simp only [hcap, Bool.not_true, Bool.false_or, Bool.or_eq_false_iff,
        decide_eq_false_iff_not]
      omega
    simp only [hcond, hCdef, hloop]
    rfl
  · intro k hk
    have hstart := subRequest_start hC0 hk
    have hsucc : (k + 1) * C = k * C + C := Nat.succ_mul k C
    refine ⟨by omega, Nat.min_le_right _ _, hsucc, ?_⟩
    unfold goSlice subRequest
    rw [if_pos]
    omega

/-- Example for C29: twelve requests under the cap 5, which take three rounds,
against a node that fails on the second post. -/
theorem fetchResponses_terminates_witness :
    ∃ r res,
      sampleClient.fetchResponses sampleFlaky [] sampleRequests12 =
        Run.done ([] ++ (List.range r).map
          (fun k => Body.batch (subRequest sampleRequests12 sampleClient.maxBatchNum.toNat k)),
          res) ∧
      1 ≤ r ∧
      r ≤ (sampleRequests12.length + sampleClient.maxBatchNum.toNat - 1) /
        sampleClient.maxBatchNum.toNat ∧
      (r < (sampleRequests12.length + sampleClient.maxBatchNum.toNat - 1) /
          sampleClient.maxBatchNum.toNat →
        ∃ e, res = Except.error e) :=
  (fetchResponses_terminates sampleFlaky sampleClient [] sampleRequests12 rfl (by decide)
    (by decide)).1

/-- The run of the example above: the loop leaves in its second round, with
the error of the second post. -/
theorem fetchResponses_flaky_run :
    sampleClient.fetchResponses sampleFlaky [] sampleRequests12 =
      Run.done ([Body.batch (subRequest sampleRequests12 5 0),
                 Body.batch (subRequest sampleRequests12 5 1)],
        Except.error (GoError.lib "net/http" "http status code err: 500")) ∧
    (sampleRequests12.length + 5 - 1) / 5 = 3 :=
  ⟨rfl, rfl⟩

end rpc

namespace btc

/-! ## Transactions without inputs -/

/-- Helper: `fillFromAddress` on a transaction without inputs. -/
theorem fillFromAddress_no_inputs (t : jsonTransaction) (h : t.Vin = []) :
    t.fillFromAddress = ({ t with Vout := [] }, none) := by
  unfold jsonTransaction.fillFromAddress
  simp [h, fillVout]

/-- Helper: the loop of `jsonBlock.fillFromAddress` fills every transaction and
returns no error. -/
theorem fillTxList_eq (txs : List jsonTransaction) :
    fillTxList txs = (txs.map fun t => t.fillFromAddress.1, none) := by
  induction txs with
  | nil => rfl
  | cons t rest ih =>
    unfold fillTxList
    rw [ih]
    rfl

/-- Helper: a successful local conversion keeps the transactions in number
and order, marks the coinbase transactions and clears their inputs, and
keeps the number of inputs of the others. -/
theorem convertTxList_kept (cr : common.Crypto) (height : Int) :
    ∀ (txs txs1 : List jsonTransaction),
      convertTxList cr height txs = Run.done (txs1, none) →
      List.Forall₂ (fun t t1 : jsonTransaction =>
        t1.Hash = t.Hash ∧
        t1.txType = (if t.isCoinbase then "1" else t.txType) ∧
        t1.Vin.length = (if t.isCoinbase then 0 else t.Vin.length)) txs txs1 := by
  intro txs
  induction txs with
  | nil =>
    intro txs1 h
    simp only [convertTxList, Run.done.injEq, Prod.mk.injEq] at h
    rw [← h.1]
    exact List.Forall₂.nil
  | cons t rest ih =>
    intro txs1 h
    unfold convertTxList at h
    rcases hc : t.convert cr height false with ⟨t1, _ | e⟩ | q | _
    · rcases hr : convertTxList cr height rest with ⟨rest1, err⟩ | q | _
      · simp only [hc, hr, Run.done.injEq, Prod.mk.injEq] at h
        obtain ⟨h1, h2⟩ := h
        subst h2
        subst h1
        refine List.Forall₂.cons ?_ (ih rest1 hr)
        cases hcb : t.isCoinbase with
        | true =>
          have := convert_of_coinbase cr t height false hcb
          rw [hc] at this
          simp only [Run.done.injEq, Prod.mk.injEq] at this
          rw [this.1]
          exact ⟨rfl, rfl, rfl⟩
        | false =>
          obtain ⟨-, hhash, htype, hf⟩ := convert_of_other cr t t1 height false none hcb hc
          exact ⟨hhash, htype, hf.length_eq.symm⟩
      · simp [hc, hr] at h
      · simp [hc, hr] at h
    · simp [hc] at h
    · simp [hc] at h
    · simp [hc] at h

end btc

namespace btc

/-- Helper: the inner loop of the ancestor round keeps the number of inputs. -/
theorem checkVins_length (tx : jsonTransaction) :
    ∀ (vins vins1 : List jsonVin) (m m1 : TxMap) (err : Option GoError),
      checkVins tx m vins = Run.done (m1, vins1, err) → vins1.length = vins.length := by
  intro vins
  induction vins with
  | nil =>
    intro vins1 m m1 err h
    simp only [checkVins, Run.done.injEq, Prod.mk.injEq] at h
    rw [← h.2.1]
  | cons vin rest ih =>
    intro vins1 m m1 err h
    unfold checkVins at h
    rcases hc : checkVin m tx vin with ⟨m2, vin1, _ | e⟩ | q | _
    · rcases hr : checkVins tx m2 rest with ⟨m3, rest1, err3⟩ | q | _
      · simp only [hc, hr, Run.done.injEq, Prod.mk.injEq] at h
        rw [← h.2.1, List.length_cons, List.length_cons, ih rest1 m2 m3 err3 hr]
      · simp [hc, hr] at h
      · simp [hc, hr] at h
    · simp only [hc, Run.done.injEq, Prod.mk.injEq] at h
      rw [← h.2.1, List.length_cons, List.length_cons]
    · simp [hc] at h
    · simp [hc] at h

/-- Helper: a successful ancestor round keeps the transactions in number and
order, each with its hash, type, outputs and number of inputs. -/
theorem checkTxes_kept :
    ∀ (txs txs1 : List jsonTransaction) (m : TxMap),
      checkTxes m txs = Run.done (txs1, none) →
      List.Forall₂ (fun t t1 : jsonTransaction =>
        t1.Hash = t.Hash ∧ t1.txType = t.txType ∧ t1.Vout = t.Vout ∧
        t1.Vin.length = t.Vin.length) txs txs1 := by
  intro txs
  induction txs with
  | nil =>
    intro txs1 m h
    simp only [checkTxes, Run.done.injEq, Prod.mk.injEq] at h
    rw [← h.1]
    exact List.Forall₂.nil
  | cons t rest ih =>
    intro txs1 m h
    unfold checkTxes at h
    rcases hc : checkVins t m t.Vin with ⟨m2, vins, _ | e⟩ | q | _
    · rcases hr : checkTxes m2 rest with ⟨rest1, err⟩ | q | _
      · simp only [hc, hr, Run.done.injEq, Prod.mk.injEq] at h
        obtain ⟨h1, h2⟩ := h
        subst h2
        rw [← h1]
        exact List.Forall₂.cons ⟨rfl, rfl, rfl, checkVins_length t _ _ _ _ _ hc⟩ (ih rest1 m2 hr)
      · simp [hc, hr] at h
      · simp [hc, hr] at h
    · simp [hc] at h
    · simp [hc] at h
    · simp [hc] at h

/-- Helper: the steps of a call of `convertTxes` that returns no error. -/
theorem convertTxes_steps (nd : Node) (p p3 : producer) (b b3 : jsonBlock)
    (h : p.convertTxes nd b = Run.done (none, b3, p3)) :
    ∃ (b1 b2 : jsonBlock) (txes : List jsonTransaction),
      b.convertWithoutCheckNode nd.crypto = Run.done (b1, none) ∧
      b1.convertWithCheckNode txes = Run.done (b2, none) ∧
      b3 = { b2 with txes := b2.txes.map fun t => t.fillFromAddress.1 } := by
  unfold producer.convertTxes at h
  rcases h1 : b.convertWithoutCheckNode nd.crypto with ⟨b1, _ | e⟩ | q | _
  · rcases h2 : p.batchTxes nd (b1.getUncheckedVinAddressPreHashes nd.addressOrder)
      with ⟨e | txes, p1⟩ | q | _
    · simp [h1, h2] at h
    · rcases h3 : b1.convertWithCheckNode txes with ⟨b2, _ | e⟩ | q | _
      · rcases h4 : p1.batchTxes nd (b2.getUncheckedVinValuePreHashes nd.valueOrder)
          with ⟨e | txes2, p2⟩ | q | _
        · simp [h1, h2, h3, h4] at h
        · simp only [h1, h2, h3, h4, jsonBlock.fillFromAddress, fillTxList_eq, Run.done.injEq,
            Prod.mk.injEq, true_and] at h
          exact ⟨b1, b2, txes, rfl, h3, h.1.symm⟩
        · simp [h1, h2, h3, h4] at h
        · simp [h1, h2, h3, h4] at h
      · simp [h1, h2, h3] at h
      · simp [h1, h2, h3] at h
      · simp [h1, h2, h3] at h
    · simp [h1, h2] at h
    · simp [h1, h2] at h
  · simp [h1] at h
  · simp [h1] at h
  · simp [h1] at h

end btc

namespace btc

/-- Helper: two position-by-position relations between lists compose. -/
theorem forall₂_chain {α β γ : Type} {R : α → β → Prop} {S : β → γ → Prop}
    {T : α → γ → Prop} (hRS : ∀ a b c, R a b → S b c → T a c) :
    ∀ {l1 : List α} {l2 : List β} {l3 : List γ},
      List.Forall₂ R l1 l2 → List.Forall₂ S l2 l3 → List.Forall₂ T l1 l3 := by
  intro l1 l2 l3 h1
  induction h1 generalizing l3 with
  | nil =>
    intro h2
    cases h2
    exact List.Forall₂.nil
  | cons hab _ ih =>
    intro h2
    cases h2 with
    | cons hbc hrest => exact List.Forall₂.cons (hRS _ _ _ hab hbc) (ih hrest)

/-- C27: `fillFromAddress` on a transaction without inputs returns `nil` and
leaves it without outputs; and when `GetRelatedTransactions` succeeds on a
block whose transactions the node reported as `fetched`, the returned
transactions are those of `fetched` in number and order, every returned
transaction without inputs has no outputs, and every transaction that was
reported as a coinbase transaction, or with no inputs, is returned with no
inputs and no outputs (the coinbase transaction marked with `txType` "1"),
whatever outputs were reported. -/
theorem GetRelatedTransactions_no_inputs (nd : Node) (p p1 p2 : producer) (b b1 : jsonBlock)
    (fetched result : List jsonTransaction)
    (hfetch : p.batchTxes nd b.Txes = Run.done (Except.ok fetched, p1))
    (h : p.GetRelatedTransactions nd b = Run.done (Except.ok result, b1, p2)) :
    (∀ t : jsonTransaction, t.Vin = [] → t.fillFromAddress = ({ t with Vout := [] }, none)) ∧
    (∀ r ∈ result, r.Vin = [] → r.Vout = []) ∧
    List.Forall₂ (fun t r : jsonTransaction =>
      r.Hash = t.Hash ∧ (t.isCoinbase = true → r.txType = "1") ∧
      (t.isCoinbase = true ∨ t.Vin = [] → r.Vin = [] ∧ r.Vout = [])) fetched result := by
  have hempty : ∀ r : jsonTransaction, r.Vin = [] → r.fillFromAddress.1.Vout = [] := by
    intro r hr
    rw [fillFromAddress_no_inputs r hr]
  unfold producer.GetRelatedTransactions at h
  rw [hfetch] at h
  simp only [] at h
  rcases hc : p1.convertTxes nd { b with txes := fetched } with ⟨_ | e, b3, p3⟩ | q | _
  · simp only [hc, Run.done.injEq, Prod.mk.injEq, Except.ok.injEq] at h
    obtain ⟨hres, -, -⟩ := h
    obtain ⟨b4, b5, txes, h1, h2, h3⟩ := convertTxes_steps nd p1 p3 _ b3 hc
    have hres2 : result = b5.txes.map fun t => t.fillFromAddress.1 := by
      rw [← hres, h3]
    have hR1 : List.Forall₂ (fun t t1 : jsonTransaction =>
        t1.Hash = t.Hash ∧
        t1.txType = (if t.isCoinbase then "1" else t.txType) ∧
        t1.Vin.length = (if t.isCoinbase then 0 else t.Vin.length)) fetched b4.txes := by
      unfold jsonBlock.convertWithoutCheckNode at h1
      rcases hl : convertTxList nd.crypto b.Height fetched with ⟨txs1, err⟩ | q | _
      · simp only [hl, Run.done.injEq, Prod.mk.injEq] at h1
        rw [← h1.1]
        rw [h1.2] at hl
        exact convertTxList_kept nd.crypto b.Height fetched txs1 hl
      · simp [hl] at h1
      · simp [hl] at h1
    have hR2 : List.Forall₂ (fun t t1 : jsonTransaction =>
        t1.Hash = t.Hash ∧ t1.txType = t.txType ∧ t1.Vout = t.Vout ∧
        t1.Vin.length = t.Vin.length) b4.txes b5.txes := by
      unfold jsonBlock.convertWithCheckNode at h2
      rcases hl : checkTxes (buildTxMap txes) b4.txes with ⟨txs1, err⟩ | q | _
      · simp only [hl, Run.done.injEq, Prod.mk.injEq] at h2
        rw [← h2.1]
        rw [h2.2] at hl
        exact checkTxes_kept b4.txes txs1 _ hl
      · simp [hl] at h2
      · simp [hl] at h2
    have hR3 : List.Forall₂ (fun t r : jsonTransaction => r = t.fillFromAddress.1)
        b5.txes result := by
      rw [hres2, List.forall₂_map_right_iff]
      exact List.forall₂_same.2 (fun _ _ => rfl)
    refine ⟨fillFromAddress_no_inputs, ?_, ?_⟩
    · intro r hr hv
      rw [hres2, List.mem_map] at hr
      obtain ⟨t, -, ht⟩ := hr
      rw [← ht] at hv ⊢
      exact hempty t hv
    · have hR12 : List.Forall₂ (fun t t1 : jsonTransaction =>
          t1.Hash = t.Hash ∧
          t1.txType = (if t.isCoinbase then "1" else t.txType) ∧
          t1.Vin.length = (if t.isCoinbase then 0 else t.Vin.length)) fetched b5.txes :=
        forall₂_chain (fun a b c hab hbc =>
          ⟨hbc.1.trans hab.1, hbc.2.1.trans hab.2.1, hbc.2.2.2.trans hab.2.2⟩) hR1 hR2
      refine forall₂_chain ?_ hR12 hR3
      intro a c d hac hcd
      subst hcd
      have hvin : (c.fillFromAddress.1).Vin = c.Vin := rfl
      have hhash : (c.fillFromAddress.1).Hash = c.Hash := rfl
      have htype : (c.fillFromAddress.1).txType = c.txType := rfl
      refine ⟨by rw [hhash, hac.1], ?_, ?_⟩
      · intro hcb
        rw [htype, hac.2.1, hcb, if_pos rfl]
      · intro hor
        have hlen : c.Vin.length = 0 := by
          rcases hor with hcb | hnil
          · rw [hac.2.2, hcb, if_pos rfl]
          · rw [hac.2.2, hnil]
            split <;> rfl
        have hcv : c.Vin = [] := List.length_eq_zero.1 hlen
        exact ⟨by rw [hvin, hcv], hempty c hcv⟩
  · simp [hc] at h
  · simp [hc] at h
  · simp [hc] at h

/-- Example for C27: the node reports the coinbase transaction `c1` with an
output of 50 to `1Miner`; it is returned without inputs and without
outputs. -/
theorem GetRelatedTransactions_no_inputs_witness :
    ∃ b1 p2,
      sampleStart.GetRelatedTransactions sampleMiner sampleMined =
        Run.done (Except.ok [{ sampleCoinbase with txType := "1", Vin := [], Vout := [] }],
          b1, p2) ∧
      List.Forall₂ (fun t r : jsonTransaction =>
        r.Hash = t.Hash ∧ (t.isCoinbase = true → r.txType = "1") ∧
        (t.isCoinbase = true ∨ t.Vin = [] → r.Vin = [] ∧ r.Vout = []))
        [sampleCoinbase] [{ sampleCoinbase with txType := "1", Vin := [], Vout := [] }] :=
  ⟨_, _, rfl,
    (GetRelatedTransactions_no_inputs sampleMiner sampleStart _ _ sampleMined _
      [sampleCoinbase] _ rfl rfl).2.2⟩

end btc

namespace rpc

/-! ## The batch keeps its length -/

/-- Helper: the correlation loop keeps the number of elements. -/
theorem handleBatchLoop_length {α σ : Type} (env : Env α σ) (m : ResponseMap) :
    ∀ (batch batch1 : List (BatchElem α σ)) (reqs : List jsonRPCSendMessage)
      (err : Option GoError),
      handleBatchLoop env m batch reqs = Run.done (batch1, err) →
      batch1.length = batch.length := by
  intro batch
  induction batch with
  | nil =>
    intro batch1 reqs err h
    simp only [handleBatchLoop, Run.done.injEq, Prod.mk.injEq] at h
    rw [← h.1]
  | cons elem batch ih =>
    intro batch1 reqs err h
    cases reqs with
    | nil => simp [handleBatchLoop] at h
    | cons req reqs =>
      unfold handleBatchLoop at h
      rcases hb : handleElem env m elem req with ⟨elem1, _ | e⟩
      · rcases hr : handleBatchLoop env m batch reqs with ⟨batch2, err2⟩ | q | _
        · simp only [hb, hr, Run.done.injEq, Prod.mk.injEq] at h
          rw [← h.1, List.length_cons, List.length_cons, ih batch2 reqs err2 hr]
        · simp [hb, hr] at h
        · simp [hb, hr] at h
      · simp only [hb, Run.done.injEq, Prod.mk.injEq] at h
        rw [← h.1, List.length_cons, List.length_cons]

/-- Helper: `BatchSyncCall` keeps the number of elements. -/
theorem BatchSyncCall_length {α σ : Type} (env : Env α σ) (c : Client) (net : List Body)
    (batch : List (BatchElem α σ)) (out : BatchOutcome α σ)
    (h : c.BatchSyncCall env net batch = Run.done out) : out.batch.length = batch.length := by
  unfold Client.BatchSyncCall at h
  by_cases h0 : batch.length = 0
  · rw [if_pos h0] at h
    simp only [Run.done.injEq] at h
    rw [← h]
  · rw [if_neg h0] at h
    rcases hb : buildRequests env c batch with ⟨e | reqs, c1⟩
    · simp only [hb, Run.done.injEq] at h
      rw [← h]
    · rcases hf : c.fetchResponses env net reqs with ⟨net1, e | resps⟩ | q | _
      · simp only [hb, hf, Run.done.injEq] at h
        rw [← h]
      · simp only [hb, hf] at h
        unfold handleBatchResult at h
        rcases hm : getResponseMap resps with (e | m) | q | _
        · simp only [hm, returnBatchResult, Run.done.injEq] at h
          rw [← h]
        · simp only [hm] at h
          rcases hl : handleBatchLoop env m batch reqs with ⟨batch1, err⟩ | q | _
          · simp only [hl, returnBatchResult, Run.done.injEq] at h
            rw [← h]
            exact handleBatchLoop_length env m batch batch1 reqs err hl
          · simp [hl, returnBatchResult] at h
          · simp [hl, returnBatchResult] at h
        · simp [hm, returnBatchResult] at h
        · simp [hm, returnBatchResult] at h
      · simp [hb, hf] at h
      · simp [hb, hf] at h

end rpc

namespace btc

/-! ## The cap on fetched ancestors -/

/-- Helper: `batchTxes` returns at most 10 transactions. -/
theorem batchTxes_length (nd : Node) (p p1 : producer) (hashes : List String)
    (txes : List jsonTransaction)
    (h : p.batchTxes nd hashes = Run.done (Except.ok txes, p1)) : txes.length ≤ 10 := by
  unfold producer.batchTxes at h
  simp only [] at h
  rcases hb : p.client.BatchSyncCall nd.rpc p.net
      ((hashes.take (if hashes.length > 10 then 10 else hashes.length)).map fun hash =>
        ({ Method := getRawTransactionMethod, Args := (hash, 1), Result := newTransaction,
           Error := none } : rpc.BatchElem (String × Int) jsonTransaction))
    with out | q | _
  · have hlen := rpc.BatchSyncCall_length nd.rpc p.client p.net _ out hb
    simp only [hb] at h
    cases he : out.err with
    | some e => simp [he] at h
    | none =>
      simp only [he] at h
      cases hf : firstElemError out.batch with
      | some e => simp [hf] at h
      | none =>
        simp only [hf] at h
        rcases hc : checkHashes hashes.length
            (hashes.take (if hashes.length > 10 then 10 else hashes.length))
            (out.batch.map fun elem => elem.Result) 0 with (_ | e) | q | _
        · simp only [hc, Run.done.injEq, Prod.mk.injEq, Except.ok.injEq] at h
          rw [← h.1, List.length_map, hlen, List.length_map, List.length_take]
          split <;> omega
        · simp [hc] at h
        · simp [hc] at h
        · simp [hc] at h
  · rw [hb] at h
    simp at h
  · rw [hb] at h
    simp at h

/-- Helper: a hash that no fetched transaction carries is not in the map. -/
theorem buildTxMap_none (txes : List jsonTransaction) (h : String)
    (hn : h ∉ txes.map fun t => t.Hash) : buildTxMap txes h = none := by
  unfold buildTxMap
  have hgen : ∀ (l : List jsonTransaction) (m : TxMap), m h = none →
      (h ∉ l.map fun t => t.Hash) →
      (l.foldl (fun m tx => m.set tx.Hash tx) m) h = none := by
    intro l
    induction l with
    | nil => intro m hm _; exact hm
    | cons t rest ih =>
      intro m hm hl
      rw [List.foldl_cons]
      apply ih
      · unfold TxMap.set
        have : h ≠ t.Hash := fun heq => hl (by simp [heq])
        simp [this, hm]
      · exact fun hin => hl (by simp [List.mem_map] at hin ⊢; exact Or.inr hin)
  exact hgen txes _ rfl hn

/-- Helper: more distinct hashes than transactions leave one hash that no
transaction carries. -/
theorem exists_not_fetched (keys : List String) (txes : List jsonTransaction)
    (hnd : keys.Nodup) (hlt : txes.length < keys.length) :
    ∃ k ∈ keys, k ∉ txes.map fun t => t.Hash := by
  by_contra hcon
  have hsub : keys ⊆ txes.map fun t => t.Hash := by
    intro k hk
    by_contra hk2
    exact hcon ⟨k, hk, hk2⟩
  have := (hnd.subperm hsub).length_le
  rw [List.length_map] at this
  omega

end btc

namespace btc

/-- Helper: with indexes that the fetched ancestors have, the only error of
the loop body is the lost previous transaction. -/
theorem checkVin_lost (m m0 m1 : TxMap) (tx : jsonTransaction) (vin vin1 : jsonVin)
    (e : GoError) (ha : m.Agrees m0)
    (hr : vin.gotAddress = false → 0 ≤ vin.PrevVoutIndex ∧ vin.PrevVoutIndex < 2 ^ 63 - 1)
    (hvalid : vin.gotAddress = false → ∀ preTx, m0 vin.PrevTxHash = some preTx →
      vin.PrevVoutIndex < preTx.Vout.length)
    (h : checkVin m tx vin = Run.done (m1, vin1, some e)) :
    vin.gotAddress = false ∧ m0 vin.PrevTxHash = none ∧
    e = GoError.errorf "lost pre tx(%s) while check %s's vin(%d)"
      [vin.PrevTxHash, tx.Hash, toString vin.index] := by
  obtain ⟨m2, vin2, err, hc, -, hiff, -⟩ := checkVin_in_range m m0 tx vin ha hr
  rw [hc] at h
  simp only [Run.done.injEq, Prod.mk.injEq] at h
  have herr : err ≠ none := by rw [h.2.2]; simp
  have hnot : ¬ (vin.gotAddress = false → hasAncestor m0 vin = true) := fun hx => herr (hiff.2 hx)
  have hg : vin.gotAddress = false := by
    by_contra hg
    exact hnot (fun hf => absurd hf hg)
  have hanc : ¬ hasAncestor m0 vin = true := fun hx => hnot (fun _ => hx)
  have hm0 : m0 vin.PrevTxHash = none := by
    cases hm : m0 vin.PrevTxHash with
    | none => rfl
    | some preTx =>
      exfalso
      apply hanc
      simp only [hasAncestor, hm, decide_eq_true_eq]
      exact ⟨(hr hg).1, hvalid hg preTx hm⟩
  have hm : m vin.PrevTxHash = none := by
    have := ha vin.PrevTxHash
    rw [hm0] at this
    simpa using this
  refine ⟨hg, hm0, ?_⟩
  have hc2 : checkVin m tx vin = Run.done (m, vin,
      some (GoError.errorf "lost pre tx(%s) while check %s's vin(%d)"
        [vin.PrevTxHash, tx.Hash, toString vin.index])) := by
    simp only [checkVin, hg, hm, Bool.false_eq_true, if_false]
  rw [hc2] at hc
  simp only [Run.done.injEq, Prod.mk.injEq] at hc
  rw [← hc.2.2] at h
  simp only [Option.some.injEq] at h
  exact h.2.2.symm

/-- Helper: the same for the inputs of one transaction. -/
theorem checkVins_lost (m0 : TxMap) (tx : jsonTransaction) :
    ∀ (vins vins1 : List jsonVin) (m m1 : TxMap) (e : GoError), m.Agrees m0 →
      (∀ vin ∈ vins, vin.gotAddress = false →
        0 ≤ vin.PrevVoutIndex ∧ vin.PrevVoutIndex < 2 ^ 63 - 1) →
      (∀ vin ∈ vins, vin.gotAddress = false → ∀ preTx, m0 vin.PrevTxHash = some preTx →
        vin.PrevVoutIndex < preTx.Vout.length) →
      checkVins tx m vins = Run.done (m1, vins1, some e) →
      ∃ vin ∈ vins, vin.gotAddress = false ∧ m0 vin.PrevTxHash = none ∧
        e = GoError.errorf "lost pre tx(%s) while check %s's vin(%d)"
          [vin.PrevTxHash, tx.Hash, toString vin.index] := by
  intro vins
  induction vins with
  | nil =>
    intro vins1 m m1 e _ _ _ h
    simp [checkVins] at h
  | cons vin rest ih =>
    intro vins1 m m1 e ha hr hvalid h
    obtain ⟨m2, vin2, err, hc, ha2, -, -⟩ :=
      checkVin_in_range m m0 tx vin ha (hr vin (List.mem_cons_self _ _))
    unfold checkVins at h
    cases err with
    | some e2 =>
      simp only [hc, Run.done.injEq, Prod.mk.injEq, Option.some.injEq] at h
      have := checkVin_lost m m0 m2 tx vin vin2 e2 ha (hr vin (List.mem_cons_self _ _))
        (hvalid vin (List.mem_cons_self _ _)) hc
      rw [h.2.2] at this
      exact ⟨vin, List.mem_cons_self _ _, this⟩
    | none =>
      simp only [hc] at h
      rcases hrest : checkVins tx m2 rest with ⟨m3, rest1, err3⟩ | q | _
      · simp only [hrest, Run.done.injEq, Prod.mk.injEq] at h
        rw [h.2.2] at hrest
        obtain ⟨v, hv, hres⟩ := ih rest1 m2 m3 e ha2
          (fun v hv => hr v (List.mem_cons_of_mem _ hv))
          (fun v hv => hvalid v (List.mem_cons_of_mem _ hv)) hrest
        exact ⟨v, List.mem_cons_of_mem _ hv, hres⟩
      · simp [hrest] at h
      · simp [hrest] at h

/-- Helper: the same for the transactions of the block. -/
theorem checkTxes_lost (m0 : TxMap) :
    ∀ (txs txs1 : List jsonTransaction) (m : TxMap) (e : GoError), m.Agrees m0 →
      (∀ tx ∈ txs, ∀ vin ∈ tx.Vin, vin.gotAddress = false →
        0 ≤ vin.PrevVoutIndex ∧ vin.PrevVoutIndex < 2 ^ 63 - 1) →
      (∀ tx ∈ txs, ∀ vin ∈ tx.Vin, vin.gotAddress = false →
        ∀ preTx, m0 vin.PrevTxHash = some preTx → vin.PrevVoutIndex < preTx.Vout.length) →
      checkTxes m txs = Run.done (txs1, some e) →
      ∃ tx ∈ txs, ∃ vin ∈ tx.Vin, vin.gotAddress = false ∧ m0 vin.PrevTxHash = none ∧
        e = GoError.errorf "lost pre tx(%s) while check %s's vin(%d)"
          [vin.PrevTxHash, tx.Hash, toString vin.index] := by
  intro txs
  induction txs with
  | nil =>
    intro txs1 m e _ _ _ h
    simp [checkTxes] at h
  | cons tx rest ih =>
    intro txs1 m e ha hr hvalid h
    obtain ⟨m2, vins2, err, hc, ha2, -, -⟩ :=
      checkVins_in_range m0 tx tx.Vin m ha (hr tx (List.mem_cons_self _ _))
    unfold checkTxes at h
    cases err with
    | some e2 =>
      simp only [hc, Run.done.injEq, Prod.mk.injEq, Option.some.injEq] at h
      obtain ⟨v, hv, hres⟩ := checkVins_lost m0 tx tx.Vin vins2 m m2 e2 ha
        (hr tx (List.mem_cons_self _ _)) (hvalid tx (List.mem_cons_self _ _)) hc
      rw [h.2] at hres
      exact ⟨tx, List.mem_cons_self _ _, v, hv, hres⟩
    | none =>
      simp only [hc] at h
      rcases hrest : checkTxes m2 rest with ⟨rest1, err3⟩ | q | _
      · simp only [hrest, Run.done.injEq, Prod.mk.injEq] at h
        rw [h.2] at hrest
        obtain ⟨t, ht, hres⟩ := ih rest1 m2 e ha2
          (fun t ht => hr t (List.mem_cons_of_mem _ ht))
          (fun t ht => hvalid t (List.mem_cons_of_mem _ ht)) hrest
        exact ⟨t, List.mem_cons_of_mem _ ht, hres⟩
      · simp [hrest] at h
      · simp [hrest] at h

end btc

namespace btc

/-- C26: the ancestor cap. When the local conversion of a block succeeds, the
inputs it left without an address reference more than 10 distinct previous
transactions, the node answers the request for the ancestors correctly, and
every such input has a `PrevVoutIndex` from 0 to below the largest `int64`:
`batchTxes` has fetched at most 10 transactions, some unresolved input
references a transaction that is not among them, and `convertWithCheckNode`
and with it `convertTxes` return an error. When the indexes are those of
outputs the fetched ancestors have, this error is the lost previous
transaction of such an input. -/
theorem convertTxes_ancestor_cap (nd : Node) (p p1 : producer) (b b1 : jsonBlock)
    (txes : List jsonTransaction)
    (hconv : b.convertWithoutCheckNode nd.crypto = Run.done (b1, none))
    (hmany : 10 < ((b1.txes.flatMap fun tx =>
      (tx.Vin.filter fun vin => !vin.gotAddress).map fun vin => vin.PrevTxHash).dedup).length)
    (hfetch : p.batchTxes nd (b1.getUncheckedVinAddressPreHashes nd.addressOrder) =
      Run.done (Except.ok txes, p1))
    (hrange : ∀ tx ∈ b1.txes, ∀ vin ∈ tx.Vin, vin.gotAddress = false →
      0 ≤ vin.PrevVoutIndex ∧ vin.PrevVoutIndex < 2 ^ 63 - 1) :
    txes.length ≤ 10 ∧
    (∃ tx ∈ b1.txes, ∃ vin ∈ tx.Vin,
      vin.gotAddress = false ∧ buildTxMap txes vin.PrevTxHash = none) ∧
    ∃ e b2, b1.convertWithCheckNode txes = Run.done (b2, some e) ∧
      p.convertTxes nd b = Run.done (some e, b2, p1) ∧
      ((∀ tx ∈ b1.txes, ∀ vin ∈ tx.Vin, vin.gotAddress = false →
          ∀ preTx, buildTxMap txes vin.PrevTxHash = some preTx →
            vin.PrevVoutIndex < preTx.Vout.length) →
        ∃ tx ∈ b1.txes, ∃ vin ∈ tx.Vin, vin.gotAddress = false ∧
          buildTxMap txes vin.PrevTxHash = none ∧
          e = GoError.errorf "lost pre tx(%s) while check %s's vin(%d)"
            [vin.PrevTxHash, tx.Hash, toString vin.index]) := by
  have hlen := batchTxes_length nd p p1 _ txes hfetch
  have hmiss : ∃ tx ∈ b1.txes, ∃ vin ∈ tx.Vin,
      vin.gotAddress = false ∧ buildTxMap txes vin.PrevTxHash = none := by
    obtain ⟨k, hk, hnot⟩ := exists_not_fetched _ txes (List.nodup_dedup _)
      (lt_of_le_of_lt hlen hmany)
    rw [List.mem_dedup, List.mem_flatMap] at hk
    obtain ⟨tx, htx, hk⟩ := hk
    rw [List.mem_map] at hk
    obtain ⟨vin, hvin, hkeq⟩ := hk
    rw [List.mem_filter] at hvin
    refine ⟨tx, htx, vin, hvin.1, by simpa using hvin.2, ?_⟩
    rw [hkeq]
    exact buildTxMap_none txes k hnot
  obtain ⟨b2, err, hcheck, hiff, -⟩ := convertWithCheckNode_in_range b1 txes hrange
  have herr : err ≠ none := by
    intro hnone
    obtain ⟨tx, htx, vin, hvin, hg, hm⟩ := hmiss
    have := (hiff.1 hnone) tx htx vin hvin hg
    simp [hasAncestor, hm] at this
  cases err with
  | none => exact absurd rfl herr
  | some e =>
    refine ⟨hlen, hmiss, e, b2, hcheck, ?_, ?_⟩
    · unfold producer.convertTxes
      simp only [hconv, hfetch, hcheck]
    · intro hvalid
      unfold jsonBlock.convertWithCheckNode at hcheck
      rcases hl : checkTxes (buildTxMap txes) b1.txes with ⟨txs1, err1⟩ | q | _
      · simp only [hl, Run.done.injEq, Prod.mk.injEq] at hcheck
        rw [hcheck.2] at hl
        exact checkTxes_lost (buildTxMap txes) b1.txes txs1 (buildTxMap txes) e (fun _ => rfl)
          hrange hvalid hl
      · simp [hl] at hcheck
      · simp [hl] at hcheck

/-- Example for C26: the transaction `t11` spends the eleven transactions `p0`
to `p10`, of which the ten `p0` to `p9` are asked for; the node answers the
ten requests correctly, and `convertTxes` returns an error. -/
theorem convertTxes_ancestor_cap_witness :
    ∃ e b2 p1, sampleStart.convertTxes sampleAncestors sampleCrowded =
      Run.done (some e, b2, p1) :=
  have h := convertTxes_ancestor_cap sampleAncestors sampleStart _ sampleCrowded _ _
    rfl (by decide) rfl (by decide)
  ⟨h.2.2.choose, h.2.2.choose_spec.choose, _, h.2.2.choose_spec.choose_spec.2.1⟩

/-- The run of the example above: the error names the transaction `p10`. -/
theorem convertTxes_crowded_run :
    ∃ b2 p1, sampleStart.convertTxes sampleAncestors sampleCrowded =
      Run.done (some (GoError.errorf "lost pre tx(%s) while check %s's vin(%d)"
        ["p10", "t11", toString (10 : Int)]), b2, p1) ∧
      p1.net.length = 1 :=
  ⟨_, _, rfl, rfl⟩

end btc

end Sync
